import Mathlib

/-!
Verification development for the graphql-js language core: a shallow
embedding of `src/language/parser.js` (the recursive-descent GraphQL
parser) and `src/utilities/valueFromASTUntyped.js`, together with proofs
of the specification claims about them.

The token stream (`src/language/lexer.js`) is an external collaborator of
the parser and is not part of the sources; it is modelled from the spec's
token-stream contract (section 6.2) as an eagerly produced token list.
Machine recursion is made total with an explicit fuel parameter; the
public entry points supply enough fuel for any input, and every theorem
about a fuelled function quantifies over the fuel.
-/

/-- Token kinds, the closed set from the spec's data model (section 3). -/
inductive TokenKind where
  | sof
  | eof
  | bang
  | dollar
  | parenL
  | parenR
  | spread
  | colon
  | equals
  | atSign
  | bracketL
  | bracketR
  | braceL
  | pipe
  | braceR
  | name
  | int
  | float
  | string
  | blockString
  | comment
deriving DecidableEq, Repr

/-- Modelled from the spec: the printable description of each token kind,
as used by the lexer's `getTokenDesc` in error messages (the lexer is not
part of the sources). Punctuator kinds print as their punctuator text. -/
def TokenKind.desc : TokenKind → String
  | .sof => "<SOF>"
  | .eof => "<EOF>"
  | .bang => "!"
  | .dollar => "$"
  | .parenL => "("
  | .parenR => ")"
  | .spread => "..."
  | .colon => ":"
  | .equals => "="
  | .atSign => "@"
  | .bracketL => "["
  | .bracketR => "]"
  | .braceL => "\x7b"
  | .pipe => "|"
  | .braceR => "\x7d"
  | .name => "Name"
  | .int => "Int"
  | .float => "Float"
  | .string => "String"
  | .blockString => "BlockString"
  | .comment => "Comment"

/-- A lexed token: kind, byte-offset range and, for NAME / INT / FLOAT /
STRING / BLOCK_STRING tokens, a decoded value (section 3 of the spec;
line/column and the `prev` back-pointer are not needed by the parser
logic modelled here). -/
structure Token where
  kind : TokenKind
  start : Nat
  endPos : Nat
  value : Option String
deriving DecidableEq, Repr

/-- A source bundle: the input text and a human-readable name. -/
structure Source where
  body : String
  name : String
deriving DecidableEq, Repr

/-- Description of a token for error messages: the kind description,
followed by the token's value in quotes when it has one. -/
def getTokenDesc (token : Token) : String :=
  match token.value with
  | some v => token.kind.desc ++ (" \"") ++ v ++ ("\"")
  | none => token.kind.desc

/-- A location attached to an AST node: byte offsets, the two endpoint
tokens and the originating source (`Loc` in parser.js). -/
structure Loc where
  start : Nat
  endPos : Nat
  startToken : Token
  endToken : Token
  source : Source
deriving DecidableEq, Repr

/-- Serialized (JSON) form of a location: only `start` and `end`
(`Loc.prototype.toJSON` in parser.js). -/
def Loc.toJSON (l : Loc) : Nat × Nat := (l.start, l.endPos)

/-- Parser options: `noLocation` disables location emission. -/
structure ParseOptions where
  noLocation : Bool
deriving DecidableEq, Repr

/-- Errors produced inside the grammar engine: a syntax error carrying the
source, byte offset and message (`syntaxError` in the error module), or
fuel exhaustion, an artifact of the fuelled embedding that no entry-point
run with adequate fuel produces. -/
inductive ParseErr where
  | syntaxErr (source : Source) (offset : Nat) (msg : String)
  | fuelExhausted
deriving DecidableEq, Repr

/-- The lexer state seen by the parser (spec section 6.2): the current
token, the not-yet-consumed tokens, the most recently consumed token, the
originating source and the options. The token list is produced eagerly by
the modelled lexer; `advance` walks along it. -/
structure Lexer where
  source : Source
  noLocation : Bool
  token : Token
  rest : List Token
  lastToken : Token
deriving Repr

/-- Consume the current token and move to the next one. At the end of the
stream the lexer stays on its final (EOF) token, as the real lexer keeps
returning EOF. -/
def Lexer.advance (l : Lexer) : Lexer :=
  match l.rest with
  | [] => { l with lastToken := l.token }
  | t :: ts => { l with token := t, rest := ts, lastToken := l.token }

/-- Look at the token one step past the current one without advancing. -/
def Lexer.lookahead (l : Lexer) : Token :=
  match l.rest with
  | [] => l.token
  | t :: _ => t

/-- Result of a grammar production: either an error or a parsed node
together with the advanced lexer. -/
abbrev PR (α : Type) := Except ParseErr (α × Lexer)

/-- Determines if the current token is of a given kind (`peek`). -/
def peek (l : Lexer) (kind : TokenKind) : Bool :=
  l.token.kind == kind

/-- If the current token is of the given kind, advance and report true;
otherwise leave the state unchanged and report false (`skip`). -/
def skip (l : Lexer) (kind : TokenKind) : Bool × Lexer :=
  if l.token.kind == kind then (true, l.advance) else (false, l)

/-- If the current token is of the given kind, advance and return the
token; otherwise raise a syntax error at the current token's start
(`expect`). -/
def expect (l : Lexer) (kind : TokenKind) : PR Token :=
  if l.token.kind == kind then .ok (l.token, l.advance)
  else .error (.syntaxErr l.source l.token.start
    (("Expected ") ++ kind.desc ++ (", found ") ++ getTokenDesc l.token))

/-- If the current token is a NAME with the given value, advance and
return it; otherwise raise a syntax error (`expectKeyword`). -/
def expectKeyword (l : Lexer) (value : String) : PR Token :=
  if l.token.kind == .name && l.token.value == some value then
    .ok (l.token, l.advance)
  else .error (.syntaxErr l.source l.token.start
    (("Expected \"") ++ value ++ ("\", found ") ++ getTokenDesc l.token))

/-- Syntax error for an unexpected current token (`unexpected`). -/
def unexpected (l : Lexer) : ParseErr :=
  .syntaxErr l.source l.token.start (("Unexpected ") ++ getTokenDesc l.token)

/-- Syntax error for an unexpected given token (`unexpected` with an
explicit token argument). -/
def unexpectedAt (l : Lexer) (token : Token) : ParseErr :=
  .syntaxErr l.source token.start (("Unexpected ") ++ getTokenDesc token)

/-- Build the location bundle for a node that began at `startToken`,
ending at the most recently consumed token, unless `noLocation` is set
(the `loc` helper in parser.js). -/
def loc (l : Lexer) (startToken : Token) : Option Loc :=
  if !l.noLocation then
    some ⟨startToken.start, l.lastToken.endPos, startToken, l.lastToken, l.source⟩
  else none

/-! ## AST node model (src/language/ast.js flow types, as used by the parser) -/

/-- A Name node: `{kind: 'Name', value, loc}`. -/
structure NameNode where
  value : String
  loc : Option Loc

/-- A Variable node: `{kind: 'Variable', name, loc}`. -/
structure VariableNode where
  name : NameNode
  loc : Option Loc

/-- A NamedType node: `{kind: 'NamedType', name, loc}`. -/
structure NamedTypeNode where
  name : NameNode
  loc : Option Loc

/-- A type reference: NamedType, ListType or NonNullType. The runtime
objects are discriminated only by their `kind` tag, so `nonNull` wraps an
arbitrary type reference here; that the parser never nests NonNullType
directly is proved, not assumed. -/
inductive TypeNode where
  | named (t : NamedTypeNode)
  | list (type : TypeNode) (loc : Option Loc)
  | nonNull (type : TypeNode) (loc : Option Loc)

/-- A StringValue node: `{kind: 'StringValue', value, block, loc}`. -/
structure StringValueNode where
  value : String
  block : Bool
  loc : Option Loc

mutual
/-- A value literal node (the `ValueNode` union in ast.js). -/
inductive ValueNode where
  | var (v : VariableNode)
  | intValue (value : String) (loc : Option Loc)
  | floatValue (value : String) (loc : Option Loc)
  | stringValue (s : StringValueNode)
  | booleanValue (value : Bool) (loc : Option Loc)
  | nullValue (loc : Option Loc)
  | enumValue (value : String) (loc : Option Loc)
  | listValue (values : List ValueNode) (loc : Option Loc)
  | objectValue (fields : List ObjectFieldNode) (loc : Option Loc)
/-- An ObjectField node: `{kind: 'ObjectField', name, value, loc}`. -/
inductive ObjectFieldNode where
  | mk (name : NameNode) (value : ValueNode) (loc : Option Loc)
end

/-- Name of an object field node. -/
def ObjectFieldNode.name : ObjectFieldNode → NameNode
  | .mk n _ _ => n

/-- Value of an object field node. -/
def ObjectFieldNode.value : ObjectFieldNode → ValueNode
  | .mk _ v _ => v

/-- Location of an object field node. -/
def ObjectFieldNode.loc : ObjectFieldNode → Option Loc
  | .mk _ _ lc => lc

/-- An Argument node: `{kind: 'Argument', name, value, loc}`. -/
structure ArgumentNode where
  name : NameNode
  value : ValueNode
  loc : Option Loc

/-- A Directive node: `{kind: 'Directive', name, arguments, loc}`. -/
structure DirectiveNode where
  name : NameNode
  arguments : List ArgumentNode
  loc : Option Loc

/-- A VariableDefinition node:
`{kind: 'VariableDefinition', variable, type, defaultValue, loc}`. -/
structure VariableDefinitionNode where
  var : VariableNode
  type : TypeNode
  defaultValue : Option ValueNode
  loc : Option Loc

mutual
/-- A SelectionSet node: `{kind: 'SelectionSet', selections, loc}`. -/
inductive SelectionSetNode where
  | mk (selections : List SelectionNode) (loc : Option Loc)
/-- A selection: Field, FragmentSpread or InlineFragment. -/
inductive SelectionNode where
  | field (aliasName : Option NameNode) (name : NameNode)
      (arguments : List ArgumentNode) (directives : List DirectiveNode)
      (selectionSet : Option SelectionSetNode) (loc : Option Loc)
  | fragmentSpread (name : NameNode) (directives : List DirectiveNode)
      (loc : Option Loc)
  | inlineFragment (typeCondition : Option NamedTypeNode)
      (directives : List DirectiveNode) (selectionSet : SelectionSetNode)
      (loc : Option Loc)
end

/-- Selections of a selection set. -/
def SelectionSetNode.selections : SelectionSetNode → List SelectionNode
  | .mk sels _ => sels

/-- Location of a selection set. -/
def SelectionSetNode.loc : SelectionSetNode → Option Loc
  | .mk _ lc => lc

/-- An OperationDefinition node. The `operation` field holds one of the
strings `query` / `mutation` / `subscription` exactly as in the source. -/
structure OperationDefinitionNode where
  operation : String
  name : Option NameNode
  variableDefinitions : List VariableDefinitionNode
  directives : List DirectiveNode
  selectionSet : SelectionSetNode
  loc : Option Loc

/-- A FragmentDefinition node. -/
structure FragmentDefinitionNode where
  name : NameNode
  typeCondition : NamedTypeNode
  directives : List DirectiveNode
  selectionSet : SelectionSetNode
  loc : Option Loc

/-- An OperationTypeDefinition node (inside a schema definition). -/
structure OperationTypeDefinitionNode where
  operation : String
  type : NamedTypeNode
  loc : Option Loc

/-- A SchemaDefinition node. -/
structure SchemaDefinitionNode where
  directives : List DirectiveNode
  operationTypes : List OperationTypeDefinitionNode
  loc : Option Loc

/-- A ScalarTypeDefinition node. -/
structure ScalarTypeDefinitionNode where
  description : Option StringValueNode
  name : NameNode
  directives : List DirectiveNode
  loc : Option Loc

/-- An InputValueDefinition node. -/
structure InputValueDefinitionNode where
  description : Option StringValueNode
  name : NameNode
  type : TypeNode
  defaultValue : Option ValueNode
  directives : List DirectiveNode
  loc : Option Loc

/-- A FieldDefinition node. -/
structure FieldDefinitionNode where
  description : Option StringValueNode
  name : NameNode
  arguments : List InputValueDefinitionNode
  type : TypeNode
  directives : List DirectiveNode
  loc : Option Loc

/-- An ObjectTypeDefinition node. -/
structure ObjectTypeDefinitionNode where
  description : Option StringValueNode
  name : NameNode
  interfaces : List NamedTypeNode
  directives : List DirectiveNode
  fields : List FieldDefinitionNode
  loc : Option Loc

/-- An InterfaceTypeDefinition node. -/
structure InterfaceTypeDefinitionNode where
  description : Option StringValueNode
  name : NameNode
  directives : List DirectiveNode
  fields : List FieldDefinitionNode
  loc : Option Loc

/-- A UnionTypeDefinition node. -/
structure UnionTypeDefinitionNode where
  description : Option StringValueNode
  name : NameNode
  directives : List DirectiveNode
  types : List NamedTypeNode
  loc : Option Loc

/-- An EnumValueDefinition node. -/
structure EnumValueDefinitionNode where
  description : Option StringValueNode
  name : NameNode
  directives : List DirectiveNode
  loc : Option Loc

/-- An EnumTypeDefinition node. -/
structure EnumTypeDefinitionNode where
  description : Option StringValueNode
  name : NameNode
  directives : List DirectiveNode
  values : List EnumValueDefinitionNode
  loc : Option Loc

/-- An InputObjectTypeDefinition node. -/
structure InputObjectTypeDefinitionNode where
  description : Option StringValueNode
  name : NameNode
  directives : List DirectiveNode
  fields : List InputValueDefinitionNode
  loc : Option Loc

/-- An ObjectTypeExtension node. -/
structure ObjectTypeExtensionNode where
  name : NameNode
  interfaces : List NamedTypeNode
  directives : List DirectiveNode
  fields : List FieldDefinitionNode
  loc : Option Loc

/-- A DirectiveDefinition node. -/
structure DirectiveDefinitionNode where
  description : Option StringValueNode
  name : NameNode
  arguments : List InputValueDefinitionNode
  locations : List NameNode
  loc : Option Loc

/-- The TypeSystemDefinition union: schema / type definitions / the one
recognized type extension / directive definitions. -/
inductive TypeSystemDefinitionNode where
  | schema (s : SchemaDefinitionNode)
  | scalar (s : ScalarTypeDefinitionNode)
  | object (o : ObjectTypeDefinitionNode)
  | interface (i : InterfaceTypeDefinitionNode)
  | union (u : UnionTypeDefinitionNode)
  | enum (e : EnumTypeDefinitionNode)
  | inputObject (i : InputObjectTypeDefinitionNode)
  | objectTypeExtension (e : ObjectTypeExtensionNode)
  | directive (d : DirectiveDefinitionNode)

/-- A top-level definition: operation, fragment, or type-system
definition. -/
inductive DefinitionNode where
  | operationDef (o : OperationDefinitionNode)
  | fragmentDef (f : FragmentDefinitionNode)
  | typeSystemDef (t : TypeSystemDefinitionNode)

/-- A Document node: `{kind: 'Document', definitions, loc}`. -/
structure DocumentNode where
  definitions : List DefinitionNode
  loc : Option Loc

/-! ## Token stream production, modelled from the spec

The lexer (`src/language/lexer.js`) is an external collaborator consumed
through the section 6.2 contract. It is modelled here as an eager
tokenizer over the character list of the source body: ignored characters
(whitespace, commas, comments) are skipped, punctuators / names / numbers
/ strings become tokens with their byte-offset ranges, and the stream is
terminated by an EOF token. Comment tokens are dropped entirely, matching
the consumption path the parser sees. String escape decoding and
block-string dedenting are not modelled (no claim exercises them). -/

/-- Character class of a name start ([_A-Za-z]). -/
def isNameStart (c : Char) : Bool :=
  c == ('_') || (('a') ≤ c && c ≤ ('z')) || (('A') ≤ c && c ≤ ('Z'))

/-- Character class of an ASCII digit. -/
def isDigitCh (c : Char) : Bool :=
  ('0') ≤ c && c ≤ ('9')

/-- Character class of a name continuation ([_0-9A-Za-z]). -/
def isNameCont (c : Char) : Bool :=
  isNameStart c || isDigitCh c

/-- Characters ignored between tokens: space, tab, newlines and commas. -/
def isIgnoredCh (c : Char) : Bool :=
  c == (' ') || c == ('\t') || c == ('\n') || c == ('\r') || c == (',')

/-- Left brace character, by code point. -/
def lbraceCh : Char := Char.ofNat 123

/-- Right brace character, by code point. -/
def rbraceCh : Char := Char.ofNat 125

/-- Map a punctuator character to its token kind. -/
def punctKind (c : Char) : Option TokenKind :=
  if c == ('!') then some .bang
  else if c == ('$') then some .dollar
  else if c == ('(') then some .parenL
  else if c == (')') then some .parenR
  else if c == (':') then some .colon
  else if c == ('=') then some .equals
  else if c == ('@') then some .atSign
  else if c == ('[') then some .bracketL
  else if c == (']') then some .bracketR
  else if c == lbraceCh then some .braceL
  else if c == ('|') then some .pipe
  else if c == rbraceCh then some .braceR
  else none

/-- Length of the leading run of characters satisfying `p`. -/
def spanLen (p : Char → Bool) (cs : List Char) : Nat :=
  (cs.takeWhile p).length

/-- Read the digits / fraction / exponent of a number starting after the
optional sign; reports the consumed length and whether it is a float, or
none for a malformed number. -/
def readNumberTail (cs : List Char) : Option (Nat × Bool) :=
  let d1 := spanLen isDigitCh cs
  if d1 == 0 then none
  else if d1 > 1 && cs.head? == some ('0') then none
  else
    let rest1 := cs.drop d1
    let (len2, isFloat) :=
      match rest1 with
      | ('.') :: frac =>
        let d2 := spanLen isDigitCh frac
        (1 + d2, true)
      | _ => (0, false)
    if isFloat && len2 == 1 then none
    else
      let rest2 := rest1.drop len2
      match rest2 with
      | e :: expRest =>
        if e == ('e') || e == ('E') then
          let (signLen, digitsPart) :=
            match expRest with
            | s :: tl => if s == ('+') || s == ('-') then (1, tl) else (0, expRest)
            | [] => (0, [])
          let d3 := spanLen isDigitCh digitsPart
          if d3 == 0 then none
          else some (d1 + len2 + 1 + signLen + d3, true)
        else some (d1 + len2, isFloat)
      | [] => some (d1 + len2, isFloat)

/-- Scan for the closing quote of a single-line string, returning the
content length (escape sequences are not decoded; no claim uses them). -/
def scanStringBody : List Char → Option Nat
  | [] => none
  | c :: rest =>
    if c == ('"') then some 0
    else if c == ('\n') then none
    else (scanStringBody rest).map (· + 1)

/-- Scan for the closing triple quote of a block string, returning the
content length. -/
def scanBlockBody : List Char → Option Nat
  | [] => none
  | ('"') :: ('"') :: ('"') :: _ => some 0
  | _ :: rest => (scanBlockBody rest).map (· + 1)

/-- Tokenize the character list at offset `pos`. Fuel is at least one per
character, so `length + 1` fuel always suffices. -/
def tokenizeAux (src : Source) : Nat → List Char → Nat → Except ParseErr (List Token)
  | 0, _, _ => .error .fuelExhausted
  | _ + 1, [], _ => .ok []
  | fuel + 1, c :: cs, pos =>
    if isIgnoredCh c then tokenizeAux src fuel cs (pos + 1)
    else if c == ('#') then
      let n := spanLen (fun ch => !(ch == ('\n'))) cs
      tokenizeAux src fuel (cs.drop n) (pos + 1 + n)
    else
      match punctKind c with
      | some k =>
        match tokenizeAux src fuel cs (pos + 1) with
        | .error e => .error e
        | .ok ts => .ok (⟨k, pos, pos + 1, none⟩ :: ts)
      | none =>
        if c == ('.') then
          match cs with
          | ('.') :: ('.') :: cs2 =>
            match tokenizeAux src fuel cs2 (pos + 3) with
            | .error e => .error e
            | .ok ts => .ok (⟨.spread, pos, pos + 3, none⟩ :: ts)
          | _ => .error (.syntaxErr src pos ("Cannot parse the unexpected character \".\"."))
        else if isNameStart c then
          let n := spanLen isNameCont cs
          match tokenizeAux src fuel (cs.drop n) (pos + 1 + n) with
          | .error e => .error e
          | .ok ts =>
            .ok (⟨.name, pos, pos + 1 + n, some (String.mk (c :: cs.take n))⟩ :: ts)
        else if c == ('-') || isDigitCh c then
          let (signLen, body) := if c == ('-') then (1, cs) else (0, c :: cs)
          match readNumberTail body with
          | none => .error (.syntaxErr src pos ("Invalid number."))
          | some (n, isFloat) =>
            let total := signLen + n
            let text := String.mk ((c :: cs).take total)
            match tokenizeAux src fuel ((c :: cs).drop total) (pos + total) with
            | .error e => .error e
            | .ok ts =>
              .ok (⟨if isFloat then .float else .int, pos, pos + total, some text⟩ :: ts)
        else if c == ('"') then
          match cs with
          | ('"') :: ('"') :: cs2 =>
            match scanBlockBody cs2 with
            | none => .error (.syntaxErr src pos ("Unterminated string."))
            | some n =>
              let total := 3 + n + 3
              match tokenizeAux src fuel ((c :: cs).drop total) (pos + total) with
              | .error e => .error e
              | .ok ts =>
                .ok (⟨.blockString, pos, pos + total, some (String.mk (cs2.take n))⟩ :: ts)
          | _ =>
            match scanStringBody cs with
            | none => .error (.syntaxErr src pos ("Unterminated string."))
            | some n =>
              let total := 1 + n + 1
              match tokenizeAux src fuel ((c :: cs).drop total) (pos + total) with
              | .error e => .error e
              | .ok ts =>
                .ok (⟨.string, pos, pos + total, some (String.mk (cs.take n))⟩ :: ts)
        else .error (.syntaxErr src pos ("Cannot parse the unexpected character."))

/-- Produce the token stream of a source: the lexed tokens followed by an
EOF token at the end offset. The synthetic SOF marker is installed as the
lexer's initial current token, not as a list element. -/
def lexTokens (src : Source) : Except ParseErr (List Token) :=
  let cs := src.body.toList
  match tokenizeAux src (cs.length + 1) cs 0 with
  | .error e => .error e
  | .ok ts => .ok (ts ++ [⟨.eof, cs.length, cs.length, none⟩])

/-- The synthetic start-of-file token. -/
def sofToken : Token := ⟨.sof, 0, 0, none⟩

/-- Construct the lexer for a source and options: current token is the
SOF marker, `lastToken` starts as the SOF marker too. -/
def createLexer (src : Source) (options : ParseOptions) : Except ParseErr Lexer :=
  match lexTokens src with
  | .error e => .error e
  | .ok ts => .ok ⟨src, options.noLocation, sofToken, ts, sofToken⟩

/-! ## Grammar productions (parser.js), fuelled where recursive -/

/-- Convert a NAME lex token into a Name node (`parseName`). -/
def parseName (l : Lexer) : PR NameNode :=
  match expect l .name with
  | .error e => .error e
  | .ok (token, l1) => .ok (⟨token.value.getD (""), loc l1 token⟩, l1)

/-- Parse `$ Name` into a Variable node (`parseVariable`). -/
def parseVariable (l : Lexer) : PR VariableNode :=
  let start := l.token
  match expect l .dollar with
  | .error e => .error e
  | .ok (_, l1) =>
    match parseName l1 with
    | .error e => .error e
    | .ok (name, l2) => .ok (⟨name, loc l2 start⟩, l2)

/-- Parse a NamedType node (`parseNamedType`). -/
def parseNamedType (l : Lexer) : PR NamedTypeNode :=
  let start := l.token
  match parseName l with
  | .error e => .error e
  | .ok (name, l1) => .ok (⟨name, loc l1 start⟩, l1)

/-- Turn the current (string or block-string) token into a StringValue
node and advance (`parseStringLiteral`); never fails. -/
def parseStringLiteral (l : Lexer) : StringValueNode × Lexer :=
  let token := l.token
  let l1 := l.advance
  (⟨token.value.getD (""), token.kind == .blockString, loc l1 token⟩, l1)

mutual
/-- Parse a value literal, dispatching on the current token kind; in a
const context a `$` falls through to the unexpected-token error
(`parseValueLiteral`). -/
def parseValueLiteral : Nat → Lexer → Bool → PR ValueNode
  | 0, _, _ => .error .fuelExhausted
  | fuel + 1, l, isConst =>
    let token := l.token
    match token.kind with
    | .bracketL => parseList fuel l isConst
    | .braceL => parseObject fuel l isConst
    | .int =>
      let l1 := l.advance
      .ok (.intValue (token.value.getD ("")) (loc l1 token), l1)
    | .float =>
      let l1 := l.advance
      .ok (.floatValue (token.value.getD ("")) (loc l1 token), l1)
    | .string =>
      let (s, l1) := parseStringLiteral l
      .ok (.stringValue s, l1)
    | .blockString =>
      let (s, l1) := parseStringLiteral l
      .ok (.stringValue s, l1)
    | .name =>
      if token.value == some ("true") || token.value == some ("false") then
        let l1 := l.advance
        .ok (.booleanValue (token.value == some ("true")) (loc l1 token), l1)
      else if token.value == some ("null") then
        let l1 := l.advance
        .ok (.nullValue (loc l1 token), l1)
      else
        let l1 := l.advance
        .ok (.enumValue (token.value.getD ("")) (loc l1 token), l1)
    | .dollar =>
      if !isConst then
        match parseVariable l with
        | .error e => .error e
        | .ok (v, l1) => .ok (.var v, l1)
      else .error (unexpected l)
    | _ => .error (unexpected l)

/-- Parse `[ Value* ]` into a ListValue node (`parseList`, an `any`
bracketed list: the empty form is allowed). -/
def parseList : Nat → Lexer → Bool → PR ValueNode
  | 0, _, _ => .error .fuelExhausted
  | fuel + 1, l, isConst =>
    let start := l.token
    match expect l .bracketL with
    | .error e => .error e
    | .ok (_, l1) =>
      match parseListItems fuel l1 isConst [] with
      | .error e => .error e
      | .ok (values, l2) => .ok (.listValue values (loc l2 start), l2)

/-- Item loop of `parseList`: parse values until the closing bracket. -/
def parseListItems : Nat → Lexer → Bool → List ValueNode → PR (List ValueNode)
  | 0, _, _, _ => .error .fuelExhausted
  | fuel + 1, l, isConst, acc =>
    match skip l .bracketR with
    | (true, l1) => .ok (acc, l1)
    | (false, l1) =>
      match parseValueLiteral fuel l1 isConst with
      | .error e => .error e
      | .ok (v, l2) => parseListItems fuel l2 isConst (acc ++ [v])

/-- Parse an object value; the empty form is allowed (`parseObject`). -/
def parseObject : Nat → Lexer → Bool → PR ValueNode
  | 0, _, _ => .error .fuelExhausted
  | fuel + 1, l, isConst =>
    let start := l.token
    match expect l .braceL with
    | .error e => .error e
    | .ok (_, l1) =>
      match parseObjectFieldsLoop fuel l1 isConst [] with
      | .error e => .error e
      | .ok (fields, l2) => .ok (.objectValue fields (loc l2 start), l2)

/-- Field loop of `parseObject`: parse object fields until the closing
brace. -/
def parseObjectFieldsLoop : Nat → Lexer → Bool → List ObjectFieldNode → PR (List ObjectFieldNode)
  | 0, _, _, _ => .error .fuelExhausted
  | fuel + 1, l, isConst, acc =>
    match skip l .braceR with
    | (true, l1) => .ok (acc, l1)
    | (false, l1) =>
      match parseObjectField fuel l1 isConst with
      | .error e => .error e
      | .ok (f, l2) => parseObjectFieldsLoop fuel l2 isConst (acc ++ [f])

/-- Parse `Name : Value` into an ObjectField node (`parseObjectField`). -/
def parseObjectField : Nat → Lexer → Bool → PR ObjectFieldNode
  | 0, _, _ => .error .fuelExhausted
  | fuel + 1, l, isConst =>
    let start := l.token
    match parseName l with
    | .error e => .error e
    | .ok (name, l1) =>
      match expect l1 .colon with
      | .error e => .error e
      | .ok (_, l2) =>
        match parseValueLiteral fuel l2 isConst with
        | .error e => .error e
        | .ok (value, l3) => .ok (.mk name value (loc l3 start), l3)
end

/-- Parse a value in const context (`parseConstValue`). -/
def parseConstValue (fuel : Nat) (l : Lexer) : PR ValueNode :=
  parseValueLiteral fuel l true

/-- Parse a value in non-const context (`parseValueValue`). -/
def parseValueValue (fuel : Nat) (l : Lexer) : PR ValueNode :=
  parseValueLiteral fuel l false

/-- Parse a type reference: bracketed list type or named type, optionally
wrapped in a NonNullType by a trailing `!` (`parseTypeReference`). -/
def parseTypeReference : Nat → Lexer → PR TypeNode
  | 0, _ => .error .fuelExhausted
  | fuel + 1, l =>
    let start := l.token
    match skip l .bracketL with
    | (true, l1) =>
      match parseTypeReference fuel l1 with
      | .error e => .error e
      | .ok (inner, l2) =>
        match expect l2 .bracketR with
        | .error e => .error e
        | .ok (_, l3) =>
          let t := TypeNode.list inner (loc l3 start)
          match skip l3 .bang with
          | (true, l4) => .ok (.nonNull t (loc l4 start), l4)
          | (false, l4) => .ok (t, l4)
    | (false, l1) =>
      match parseNamedType l1 with
      | .error e => .error e
      | .ok (nt, l2) =>
        let t := TypeNode.named nt
        match skip l2 .bang with
        | (true, l3) => .ok (.nonNull t (loc l3 start), l3)
        | (false, l3) => .ok (t, l3)

/-- Loop body shared by the bracketed-list combinators: parse items with
`parseFn` until the closing kind is skipped (`any` / `many` in
parser.js). -/
def listLoop {α : Type} (parseFn : Lexer → PR α) (closeKind : TokenKind) :
    Nat → Lexer → List α → PR (List α)
  | 0, _, _ => .error .fuelExhausted
  | fuel + 1, l, acc =>
    match skip l closeKind with
    | (true, l1) => .ok (acc, l1)
    | (false, l1) =>
      match parseFn l1 with
      | .error e => .error e
      | .ok (a, l2) => listLoop parseFn closeKind fuel l2 (acc ++ [a])

/-- Possibly-empty bracketed list: consume `openKind`, then zero or more
items until `closeKind` (`any`). -/
def anyList {α : Type} (fuel : Nat) (l : Lexer) (openKind : TokenKind)
    (parseFn : Lexer → PR α) (closeKind : TokenKind) : PR (List α) :=
  match expect l openKind with
  | .error e => .error e
  | .ok (_, l1) => listLoop parseFn closeKind fuel l1 []

/-- Non-empty bracketed list: consume `openKind`, one item, then zero or
more until `closeKind` (`many`). -/
def manyList {α : Type} (fuel : Nat) (l : Lexer) (openKind : TokenKind)
    (parseFn : Lexer → PR α) (closeKind : TokenKind) : PR (List α) :=
  match expect l openKind with
  | .error e => .error e
  | .ok (_, l1) =>
    match parseFn l1 with
    | .error e => .error e
    | .ok (a, l2) => listLoop parseFn closeKind fuel l2 [a]

/-- Parse `Name : Value` into an Argument node, non-const
(`parseArgument`). -/
def parseArgument (fuel : Nat) (l : Lexer) : PR ArgumentNode :=
  let start := l.token
  match parseName l with
  | .error e => .error e
  | .ok (name, l1) =>
    match expect l1 .colon with
    | .error e => .error e
    | .ok (_, l2) =>
      match parseValueLiteral fuel l2 false with
      | .error e => .error e
      | .ok (value, l3) => .ok (⟨name, value, loc l3 start⟩, l3)

/-- Parse `Name : Value` into an Argument node, const context
(`parseConstArgument`). -/
def parseConstArgument (fuel : Nat) (l : Lexer) : PR ArgumentNode :=
  let start := l.token
  match parseName l with
  | .error e => .error e
  | .ok (name, l1) =>
    match expect l1 .colon with
    | .error e => .error e
    | .ok (_, l2) =>
      match parseConstValue fuel l2 with
      | .error e => .error e
      | .ok (value, l3) => .ok (⟨name, value, loc l3 start⟩, l3)

/-- Parse an optional parenthesized non-empty argument list
(`parseArguments`). -/
def parseArguments (fuel : Nat) (l : Lexer) (isConst : Bool) : PR (List ArgumentNode) :=
  let item := if isConst then parseConstArgument fuel else parseArgument fuel
  if peek l .parenL then manyList fuel l .parenL item .parenR
  else .ok ([], l)

/-- Parse `@ Name Arguments?` into a Directive node (`parseDirective`). -/
def parseDirective (fuel : Nat) (l : Lexer) (isConst : Bool) : PR DirectiveNode :=
  let start := l.token
  match expect l .atSign with
  | .error e => .error e
  | .ok (_, l1) =>
    match parseName l1 with
    | .error e => .error e
    | .ok (name, l2) =>
      match parseArguments fuel l2 isConst with
      | .error e => .error e
      | .ok (args, l3) => .ok (⟨name, args, loc l3 start⟩, l3)

/-- Loop of `parseDirectives`: collect directives while the current token
is `@`. -/
def parseDirectivesLoop : Nat → Lexer → Bool → List DirectiveNode → PR (List DirectiveNode)
  | 0, _, _, _ => .error .fuelExhausted
  | fuel + 1, l, isConst, acc =>
    if peek l .atSign then
      match parseDirective fuel l isConst with
      | .error e => .error e
      | .ok (d, l1) => parseDirectivesLoop fuel l1 isConst (acc ++ [d])
    else .ok (acc, l)

/-- Parse a possibly-empty run of directives (`parseDirectives`). -/
def parseDirectives (fuel : Nat) (l : Lexer) (isConst : Bool) : PR (List DirectiveNode) :=
  parseDirectivesLoop fuel l isConst []

/-- Parse a fragment name: any name except `on` (`parseFragmentName`). -/
def parseFragmentName (l : Lexer) : PR NameNode :=
  if l.token.value == some ("on") then .error (unexpected l)
  else parseName l

mutual
/-- Parse `{ Selection+ }` into a SelectionSet node
(`parseSelectionSet`). -/
def parseSelectionSet : Nat → Lexer → PR SelectionSetNode
  | 0, _ => .error .fuelExhausted
  | fuel + 1, l =>
    let start := l.token
    match expect l .braceL with
    | .error e => .error e
    | .ok (_, l1) =>
      match parseSelection fuel l1 with
      | .error e => .error e
      | .ok (s, l2) =>
        match parseSelectionsLoop fuel l2 [s] with
        | .error e => .error e
        | .ok (sels, l3) => .ok (.mk sels (loc l3 start), l3)

/-- Item loop of `parseSelectionSet` (the `many` loop): selections until
the closing brace. -/
def parseSelectionsLoop : Nat → Lexer → List SelectionNode → PR (List SelectionNode)
  | 0, _, _ => .error .fuelExhausted
  | fuel + 1, l, acc =>
    match skip l .braceR with
    | (true, l1) => .ok (acc, l1)
    | (false, l1) =>
      match parseSelection fuel l1 with
      | .error e => .error e
      | .ok (s, l2) => parseSelectionsLoop fuel l2 (acc ++ [s])

/-- Parse a selection: a fragment if the current token is `...`, else a
field (`parseSelection`). -/
def parseSelection : Nat → Lexer → PR SelectionNode
  | 0, _ => .error .fuelExhausted
  | fuel + 1, l =>
    if peek l .spread then parseFragment fuel l else parseField fuel l

/-- Parse a field with optional alias, arguments, directives and
selection set (`parseField`). -/
def parseField : Nat → Lexer → PR SelectionNode
  | 0, _ => .error .fuelExhausted
  | fuel + 1, l =>
    let start := l.token
    match parseName l with
    | .error e => .error e
    | .ok (nameOrAlias, l1) =>
      match skip l1 .colon with
      | (true, l2) =>
        match parseName l2 with
        | .error e => .error e
        | .ok (name, l3) => parseFieldRest fuel l3 (some nameOrAlias) name start
      | (false, l2) => parseFieldRest fuel l2 none nameOrAlias start

/-- Common tail of `parseField` after the alias/name resolution:
arguments, directives, optional selection set. -/
def parseFieldRest : Nat → Lexer → Option NameNode → NameNode → Token → PR SelectionNode
  | 0, _, _, _, _ => .error .fuelExhausted
  | fuel + 1, l, aliasName, name, start =>
    match parseArguments fuel l false with
    | .error e => .error e
    | .ok (args, l1) =>
      match parseDirectives fuel l1 false with
      | .error e => .error e
      | .ok (dirs, l2) =>
        if peek l2 .braceL then
          match parseSelectionSet fuel l2 with
          | .error e => .error e
          | .ok (ss, l3) => .ok (.field aliasName name args dirs (some ss) (loc l3 start), l3)
        else .ok (.field aliasName name args dirs none (loc l2 start), l2)

/-- Parse a fragment spread or inline fragment after `...`: a name other
than `on` is a spread; otherwise an optional `on NamedType` type
condition begins an inline fragment (`parseFragment`). -/
def parseFragment : Nat → Lexer → PR SelectionNode
  | 0, _ => .error .fuelExhausted
  | fuel + 1, l =>
    let start := l.token
    match expect l .spread with
    | .error e => .error e
    | .ok (_, l1) =>
      if peek l1 .name && !(l1.token.value == some ("on")) then
        match parseFragmentName l1 with
        | .error e => .error e
        | .ok (name, l2) =>
          match parseDirectives fuel l2 false with
          | .error e => .error e
          | .ok (dirs, l3) => .ok (.fragmentSpread name dirs (loc l3 start), l3)
      else
        if l1.token.value == some ("on") then
          let l2 := l1.advance
          match parseNamedType l2 with
          | .error e => .error e
          | .ok (nt, l3) => parseInlineRest fuel l3 (some nt) start
        else parseInlineRest fuel l1 none start

/-- Common tail of the inline-fragment arm of `parseFragment`:
directives, then the selection set. -/
def parseInlineRest : Nat → Lexer → Option NamedTypeNode → Token → PR SelectionNode
  | 0, _, _, _ => .error .fuelExhausted
  | fuel + 1, l, typeCondition, start =>
    match parseDirectives fuel l false with
    | .error e => .error e
    | .ok (dirs, l1) =>
      match parseSelectionSet fuel l1 with
      | .error e => .error e
      | .ok (ss, l2) => .ok (.inlineFragment typeCondition dirs ss (loc l2 start), l2)
end

/-- Parse one of the keywords `query` / `mutation` / `subscription`
(`parseOperationType`); anything else is unexpected, reported at the
operation token. -/
def parseOperationType (l : Lexer) : PR String :=
  match expect l .name with
  | .error e => .error e
  | .ok (operationToken, l1) =>
    if operationToken.value == some ("query") then .ok (("query"), l1)
    else if operationToken.value == some ("mutation") then .ok (("mutation"), l1)
    else if operationToken.value == some ("subscription") then .ok (("subscription"), l1)
    else .error (unexpectedAt l1 operationToken)

/-- Parse `$var : Type (= DefaultValue)?`; the default value is parsed in
const context (`parseVariableDefinition`). -/
def parseVariableDefinition (fuel : Nat) (l : Lexer) : PR VariableDefinitionNode :=
  let start := l.token
  match parseVariable l with
  | .error e => .error e
  | .ok (v, l1) =>
    match expect l1 .colon with
    | .error e => .error e
    | .ok (_, l2) =>
      match parseTypeReference fuel l2 with
      | .error e => .error e
      | .ok (t, l3) =>
        match skip l3 .equals with
        | (true, l4) =>
          match parseValueLiteral fuel l4 true with
          | .error e => .error e
          | .ok (dv, l5) => .ok (⟨v, t, some dv, loc l5 start⟩, l5)
        | (false, l4) => .ok (⟨v, t, none, loc l4 start⟩, l4)

/-- Parse an optional parenthesized non-empty variable-definition list
(`parseVariableDefinitions`). -/
def parseVariableDefinitions (fuel : Nat) (l : Lexer) : PR (List VariableDefinitionNode) :=
  if peek l .parenL then
    manyList fuel l .parenL (parseVariableDefinition fuel) .parenR
  else .ok ([], l)

/-- Parse an operation definition: the shorthand form (selection set
only) yields operation `query` with no name, variables or directives;
otherwise an operation type, optional name, variable definitions,
directives and the selection set (`parseOperationDefinition`). -/
def parseOperationDefinition (fuel : Nat) (l : Lexer) : PR OperationDefinitionNode :=
  let start := l.token
  if peek l .braceL then
    match parseSelectionSet fuel l with
    | .error e => .error e
    | .ok (ss, l1) => .ok (⟨("query"), none, [], [], ss, loc l1 start⟩, l1)
  else
    match parseOperationType l with
    | .error e => .error e
    | .ok (operation, l1) =>
      match (if peek l1 .name then
              match parseName l1 with
              | .error e => .error e
              | .ok (n, l2) => .ok (some n, l2)
            else .ok (none, l1) : PR (Option NameNode)) with
      | .error e => .error e
      | .ok (name, l2) =>
        match parseVariableDefinitions fuel l2 with
        | .error e => .error e
        | .ok (vds, l3) =>
          match parseDirectives fuel l3 false with
          | .error e => .error e
          | .ok (dirs, l4) =>
            match parseSelectionSet fuel l4 with
            | .error e => .error e
            | .ok (ss, l5) => .ok (⟨operation, name, vds, dirs, ss, loc l5 start⟩, l5)

/-- Parse `fragment FragmentName on NamedType Directives? SelectionSet`
(`parseFragmentDefinition`). -/
def parseFragmentDefinition (fuel : Nat) (l : Lexer) : PR FragmentDefinitionNode :=
  let start := l.token
  match expectKeyword l ("fragment") with
  | .error e => .error e
  | .ok (_, l1) =>
    match parseFragmentName l1 with
    | .error e => .error e
    | .ok (name, l2) =>
      match expectKeyword l2 ("on") with
      | .error e => .error e
      | .ok (_, l3) =>
        match parseNamedType l3 with
        | .error e => .error e
        | .ok (tc, l4) =>
          match parseDirectives fuel l4 false with
          | .error e => .error e
          | .ok (dirs, l5) =>
            match parseSelectionSet fuel l5 with
            | .error e => .error e
            | .ok (ss, l6) => .ok (⟨name, tc, dirs, ss, loc l6 start⟩, l6)

/-- Test whether the current token is a string or block string, i.e. a
description (`peekDescription`). -/
def peekDescription (l : Lexer) : Bool :=
  peek l .string || peek l .blockString

/-- Parse an optional description string (`parseDescription`); returns
nothing and leaves the state unchanged when the current token is not a
string. -/
def parseDescription (l : Lexer) : Option StringValueNode × Lexer :=
  if peekDescription l then
    let (s, l1) := parseStringLiteral l
    (some s, l1)
  else (none, l)

/-- Parse `OperationType : NamedType`
(`parseOperationTypeDefinition`). -/
def parseOperationTypeDefinition (l : Lexer) : PR OperationTypeDefinitionNode :=
  let start := l.token
  match parseOperationType l with
  | .error e => .error e
  | .ok (operation, l1) =>
    match expect l1 .colon with
    | .error e => .error e
    | .ok (_, l2) =>
      match parseNamedType l2 with
      | .error e => .error e
      | .ok (t, l3) => .ok (⟨operation, t, loc l3 start⟩, l3)

/-- Parse `schema Directives? { OperationTypeDefinition+ }`
(`parseSchemaDefinition`). -/
def parseSchemaDefinition (fuel : Nat) (l : Lexer) : PR SchemaDefinitionNode :=
  let start := l.token
  match expectKeyword l ("schema") with
  | .error e => .error e
  | .ok (_, l1) =>
    match parseDirectives fuel l1 true with
    | .error e => .error e
    | .ok (dirs, l2) =>
      match manyList fuel l2 .braceL parseOperationTypeDefinition .braceR with
      | .error e => .error e
      | .ok (ops, l3) => .ok (⟨dirs, ops, loc l3 start⟩, l3)

/-- Parse `Description? scalar Name Directives?`
(`parseScalarTypeDefinition`). -/
def parseScalarTypeDefinition (fuel : Nat) (l : Lexer) : PR ScalarTypeDefinitionNode :=
  let start := l.token
  let (description, l1) := parseDescription l
  match expectKeyword l1 ("scalar") with
  | .error e => .error e
  | .ok (_, l2) =>
    match parseName l2 with
    | .error e => .error e
    | .ok (name, l3) =>
      match parseDirectives fuel l3 true with
      | .error e => .error e
      | .ok (dirs, l4) => .ok (⟨description, name, dirs, loc l4 start⟩, l4)

/-- Loop of `parseImplementsInterfaces`: named types while the next token
is a NAME (a do-while, so at least one is parsed). -/
def parseImplementsLoop : Nat → Lexer → List NamedTypeNode → PR (List NamedTypeNode)
  | 0, _, _ => .error .fuelExhausted
  | fuel + 1, l, acc =>
    match parseNamedType l with
    | .error e => .error e
    | .ok (nt, l1) =>
      if peek l1 .name then parseImplementsLoop fuel l1 (acc ++ [nt])
      else .ok (acc ++ [nt], l1)

/-- Parse `implements NamedType+` when the current name is
`implements`, else an empty list (`parseImplementsInterfaces`). -/
def parseImplementsInterfaces (fuel : Nat) (l : Lexer) : PR (List NamedTypeNode) :=
  if l.token.value == some ("implements") then
    parseImplementsLoop fuel l.advance []
  else .ok ([], l)

/-- Parse `Description? Name : Type DefaultValue? Directives?` into an
InputValueDefinition node (`parseInputValueDef`). -/
def parseInputValueDef (fuel : Nat) (l : Lexer) : PR InputValueDefinitionNode :=
  let start := l.token
  let (description, l1) := parseDescription l
  match parseName l1 with
  | .error e => .error e
  | .ok (name, l2) =>
    match expect l2 .colon with
    | .error e => .error e
    | .ok (_, l3) =>
      match parseTypeReference fuel l3 with
      | .error e => .error e
      | .ok (t, l4) =>
        match skip l4 .equals with
        | (true, l5) =>
          match parseConstValue fuel l5 with
          | .error e => .error e
          | .ok (dv, l6) =>
            match parseDirectives fuel l6 true with
            | .error e => .error e
            | .ok (dirs, l7) => .ok (⟨description, name, t, some dv, dirs, loc l7 start⟩, l7)
        | (false, l5) =>
          match parseDirectives fuel l5 true with
          | .error e => .error e
          | .ok (dirs, l6) => .ok (⟨description, name, t, none, dirs, loc l6 start⟩, l6)

/-- Parse an optional parenthesized non-empty input-value-definition list
(`parseArgumentDefs`). -/
def parseArgumentDefs (fuel : Nat) (l : Lexer) : PR (List InputValueDefinitionNode) :=
  if peek l .parenL then
    manyList fuel l .parenL (parseInputValueDef fuel) .parenR
  else .ok ([], l)

/-- Parse `Description? Name ArgumentsDefinition? : Type Directives?`
into a FieldDefinition node (`parseFieldDefinition`). -/
def parseFieldDefinition (fuel : Nat) (l : Lexer) : PR FieldDefinitionNode :=
  let start := l.token
  let (description, l1) := parseDescription l
  match parseName l1 with
  | .error e => .error e
  | .ok (name, l2) =>
    match parseArgumentDefs fuel l2 with
    | .error e => .error e
    | .ok (args, l3) =>
      match expect l3 .colon with
      | .error e => .error e
      | .ok (_, l4) =>
        match parseTypeReference fuel l4 with
        | .error e => .error e
        | .ok (t, l5) =>
          match parseDirectives fuel l5 true with
          | .error e => .error e
          | .ok (dirs, l6) => .ok (⟨description, name, args, t, dirs, loc l6 start⟩, l6)

/-- Parse `{ FieldDefinition+ }` (`parseFieldDefinitions`). -/
def parseFieldDefinitions (fuel : Nat) (l : Lexer) : PR (List FieldDefinitionNode) :=
  manyList fuel l .braceL (parseFieldDefinition fuel) .braceR

/-- Parse `Description? type Name ImplementsInterfaces? Directives?
FieldDefinitions` (`parseObjectTypeDefinition`). -/
def parseObjectTypeDefinition (fuel : Nat) (l : Lexer) : PR ObjectTypeDefinitionNode :=
  let start := l.token
  let (description, l1) := parseDescription l
  match expectKeyword l1 ("type") with
  | .error e => .error e
  | .ok (_, l2) =>
    match parseName l2 with
    | .error e => .error e
    | .ok (name, l3) =>
      match parseImplementsInterfaces fuel l3 with
      | .error e => .error e
      | .ok (interfaces, l4) =>
        match parseDirectives fuel l4 true with
        | .error e => .error e
        | .ok (dirs, l5) =>
          match parseFieldDefinitions fuel l5 with
          | .error e => .error e
          | .ok (fields, l6) =>
            .ok (⟨description, name, interfaces, dirs, fields, loc l6 start⟩, l6)

/-- Parse `Description? interface Name Directives? FieldDefinitions`
(`parseInterfaceTypeDefinition`). -/
def parseInterfaceTypeDefinition (fuel : Nat) (l : Lexer) : PR InterfaceTypeDefinitionNode :=
  let start := l.token
  let (description, l1) := parseDescription l
  match expectKeyword l1 ("interface") with
  | .error e => .error e
  | .ok (_, l2) =>
    match parseName l2 with
    | .error e => .error e
    | .ok (name, l3) =>
      match parseDirectives fuel l3 true with
      | .error e => .error e
      | .ok (dirs, l4) =>
        match parseFieldDefinitions fuel l4 with
        | .error e => .error e
        | .ok (fields, l5) => .ok (⟨description, name, dirs, fields, loc l5 start⟩, l5)

/-- Loop of `parseUnionMembers`: named types separated by `|`
(do-while). -/
def parseUnionMembersLoop : Nat → Lexer → List NamedTypeNode → PR (List NamedTypeNode)
  | 0, _, _ => .error .fuelExhausted
  | fuel + 1, l, acc =>
    match parseNamedType l with
    | .error e => .error e
    | .ok (nt, l1) =>
      match skip l1 .pipe with
      | (true, l2) => parseUnionMembersLoop fuel l2 (acc ++ [nt])
      | (false, l2) => .ok (acc ++ [nt], l2)

/-- Parse union members with an optional leading pipe
(`parseUnionMembers`). -/
def parseUnionMembers (fuel : Nat) (l : Lexer) : PR (List NamedTypeNode) :=
  let (_, l1) := skip l .pipe
  parseUnionMembersLoop fuel l1 []

/-- Parse `Description? union Name Directives? = UnionMembers`
(`parseUnionTypeDefinition`). -/
def parseUnionTypeDefinition (fuel : Nat) (l : Lexer) : PR UnionTypeDefinitionNode :=
  let start := l.token
  let (description, l1) := parseDescription l
  match expectKeyword l1 ("union") with
  | .error e => .error e
  | .ok (_, l2) =>
    match parseName l2 with
    | .error e => .error e
    | .ok (name, l3) =>
      match parseDirectives fuel l3 true with
      | .error e => .error e
      | .ok (dirs, l4) =>
        match expect l4 .equals with
        | .error e => .error e
        | .ok (_, l5) =>
          match parseUnionMembers fuel l5 with
          | .error e => .error e
          | .ok (types, l6) => .ok (⟨description, name, dirs, types, loc l6 start⟩, l6)

/-- Parse `Description? EnumValue Directives?`
(`parseEnumValueDefinition`). -/
def parseEnumValueDefinition (fuel : Nat) (l : Lexer) : PR EnumValueDefinitionNode :=
  let start := l.token
  let (description, l1) := parseDescription l
  match parseName l1 with
  | .error e => .error e
  | .ok (name, l2) =>
    match parseDirectives fuel l2 true with
    | .error e => .error e
    | .ok (dirs, l3) => .ok (⟨description, name, dirs, loc l3 start⟩, l3)

/-- Parse `Description? enum Name Directives? { EnumValueDefinition+ }`
(`parseEnumTypeDefinition`). -/
def parseEnumTypeDefinition (fuel : Nat) (l : Lexer) : PR EnumTypeDefinitionNode :=
  let start := l.token
  let (description, l1) := parseDescription l
  match expectKeyword l1 ("enum") with
  | .error e => .error e
  | .ok (_, l2) =>
    match parseName l2 with
    | .error e => .error e
    | .ok (name, l3) =>
      match parseDirectives fuel l3 true with
      | .error e => .error e
      | .ok (dirs, l4) =>
        match manyList fuel l4 .braceL (parseEnumValueDefinition fuel) .braceR with
        | .error e => .error e
        | .ok (values, l5) => .ok (⟨description, name, dirs, values, loc l5 start⟩, l5)

/-- Parse `Description? input Name Directives? { InputValueDefinition+ }`
(`parseInputObjectTypeDefinition`). -/
def parseInputObjectTypeDefinition (fuel : Nat) (l : Lexer) : PR InputObjectTypeDefinitionNode :=
  let start := l.token
  let (description, l1) := parseDescription l
  match expectKeyword l1 ("input") with
  | .error e => .error e
  | .ok (_, l2) =>
    match parseName l2 with
    | .error e => .error e
    | .ok (name, l3) =>
      match parseDirectives fuel l3 true with
      | .error e => .error e
      | .ok (dirs, l4) =>
        match manyList fuel l4 .braceL (parseInputValueDef fuel) .braceR with
        | .error e => .error e
        | .ok (fields, l5) => .ok (⟨description, name, dirs, fields, loc l5 start⟩, l5)

/-- Parse `extend type Name ImplementsInterfaces? Directives?
FieldDefinitions?`; at least one of interfaces, directives or fields must
be present, otherwise the current token is unexpected
(`parseObjectTypeExtension`). -/
def parseObjectTypeExtension (fuel : Nat) (l : Lexer) : PR ObjectTypeExtensionNode :=
  let start := l.token
  match expectKeyword l ("extend") with
  | .error e => .error e
  | .ok (_, l1) =>
    match expectKeyword l1 ("type") with
    | .error e => .error e
    | .ok (_, l2) =>
      match parseName l2 with
      | .error e => .error e
      | .ok (name, l3) =>
        match parseImplementsInterfaces fuel l3 with
        | .error e => .error e
        | .ok (interfaces, l4) =>
          match parseDirectives fuel l4 true with
          | .error e => .error e
          | .ok (dirs, l5) =>
            match (if peek l5 .braceL then parseFieldDefinitions fuel l5
                  else .ok ([], l5) : PR (List FieldDefinitionNode)) with
            | .error e => .error e
            | .ok (fields, l6) =>
              if interfaces.length == 0 && dirs.length == 0 && fields.length == 0 then
                .error (unexpected l6)
              else .ok (⟨name, interfaces, dirs, fields, loc l6 start⟩, l6)

/-- Dispatch a type extension on the token after `extend`; only `type` is
recognized (`parseTypeExtension`). -/
def parseTypeExtension (fuel : Nat) (l : Lexer) : PR TypeSystemDefinitionNode :=
  let keywordToken := l.lookahead
  if keywordToken.kind == .name && keywordToken.value == some ("type") then
    match parseObjectTypeExtension fuel l with
    | .error e => .error e
    | .ok (e, l1) => .ok (.objectTypeExtension e, l1)
  else .error (unexpectedAt l keywordToken)

/-- The closed set of directive location names (the
`DirectiveLocation` table). -/
def directiveLocationNames : List String :=
  [("QUERY"), ("MUTATION"), ("SUBSCRIPTION"), ("FIELD"), ("FRAGMENT_DEFINITION"),
   ("FRAGMENT_SPREAD"), ("INLINE_FRAGMENT"), ("SCHEMA"), ("SCALAR"), ("OBJECT"),
   ("FIELD_DEFINITION"), ("ARGUMENT_DEFINITION"), ("INTERFACE"), ("UNION"),
   ("ENUM"), ("ENUM_VALUE"), ("INPUT_OBJECT"), ("INPUT_FIELD_DEFINITION")]

/-- Parse one directive location: a name that must be in the closed set,
otherwise unexpected at the name's start token
(`parseDirectiveLocation`). -/
def parseDirectiveLocation (l : Lexer) : PR NameNode :=
  let start := l.token
  match parseName l with
  | .error e => .error e
  | .ok (name, l1) =>
    if directiveLocationNames.contains name.value then .ok (name, l1)
    else .error (unexpectedAt l1 start)

/-- Loop of `parseDirectiveLocations`: locations separated by `|`
(do-while). -/
def parseDirectiveLocationsLoop : Nat → Lexer → List NameNode → PR (List NameNode)
  | 0, _, _ => .error .fuelExhausted
  | fuel + 1, l, acc =>
    match parseDirectiveLocation l with
    | .error e => .error e
    | .ok (n, l1) =>
      match skip l1 .pipe with
      | (true, l2) => parseDirectiveLocationsLoop fuel l2 (acc ++ [n])
      | (false, l2) => .ok (acc ++ [n], l2)

/-- Parse directive locations with an optional leading pipe
(`parseDirectiveLocations`). -/
def parseDirectiveLocations (fuel : Nat) (l : Lexer) : PR (List NameNode) :=
  let (_, l1) := skip l .pipe
  parseDirectiveLocationsLoop fuel l1 []

/-- Parse `Description? directive @ Name ArgumentsDefinition? on
DirectiveLocations` (`parseDirectiveDefinition`). -/
def parseDirectiveDefinition (fuel : Nat) (l : Lexer) : PR DirectiveDefinitionNode :=
  let start := l.token
  let (description, l1) := parseDescription l
  match expectKeyword l1 ("directive") with
  | .error e => .error e
  | .ok (_, l2) =>
    match expect l2 .atSign with
    | .error e => .error e
    | .ok (_, l3) =>
      match parseName l3 with
      | .error e => .error e
      | .ok (name, l4) =>
        match parseArgumentDefs fuel l4 with
        | .error e => .error e
        | .ok (args, l5) =>
          match expectKeyword l5 ("on") with
          | .error e => .error e
          | .ok (_, l6) =>
            match parseDirectiveLocations fuel l6 with
            | .error e => .error e
            | .ok (locations, l7) =>
              .ok (⟨description, name, args, locations, loc l7 start⟩, l7)

/-- Dispatch a type-system definition on a given keyword token
(the body of `parseTypeSystemDefinition` after computing the token). -/
def parseTypeSystemDefinitionKeyword (fuel : Nat) (l : Lexer) (keywordToken : Token) :
    PR TypeSystemDefinitionNode :=
  if keywordToken.kind == .name then
    if keywordToken.value == some ("schema") then
      match parseSchemaDefinition fuel l with
      | .error e => .error e
      | .ok (s, l1) => .ok (.schema s, l1)
    else if keywordToken.value == some ("scalar") then
      match parseScalarTypeDefinition fuel l with
      | .error e => .error e
      | .ok (s, l1) => .ok (.scalar s, l1)
    else if keywordToken.value == some ("type") then
      match parseObjectTypeDefinition fuel l with
      | .error e => .error e
      | .ok (o, l1) => .ok (.object o, l1)
    else if keywordToken.value == some ("interface") then
      match parseInterfaceTypeDefinition fuel l with
      | .error e => .error e
      | .ok (i, l1) => .ok (.interface i, l1)
    else if keywordToken.value == some ("union") then
      match parseUnionTypeDefinition fuel l with
      | .error e => .error e
      | .ok (u, l1) => .ok (.union u, l1)
    else if keywordToken.value == some ("enum") then
      match parseEnumTypeDefinition fuel l with
      | .error e => .error e
      | .ok (e, l1) => .ok (.enum e, l1)
    else if keywordToken.value == some ("input") then
      match parseInputObjectTypeDefinition fuel l with
      | .error e => .error e
      | .ok (i, l1) => .ok (.inputObject i, l1)
    else if keywordToken.value == some ("extend") then
      parseTypeExtension fuel l
    else if keywordToken.value == some ("directive") then
      match parseDirectiveDefinition fuel l with
      | .error e => .error e
      | .ok (d, l1) => .ok (.directive d, l1)
    else .error (unexpectedAt l keywordToken)
  else .error (unexpectedAt l keywordToken)

/-- Dispatch a type-system definition on the keyword token, looking one
token ahead when the current token is a description string
(`parseTypeSystemDefinition`). -/
def parseTypeSystemDefinition (fuel : Nat) (l : Lexer) : PR TypeSystemDefinitionNode :=
  parseTypeSystemDefinitionKeyword fuel l
    (if peekDescription l then l.lookahead else l.token)

/-- Dispatch a top-level definition from the current token: `{` begins an
operation shorthand; a NAME dispatches on its value; a description string
begins a type-system definition; anything else is unexpected
(`parseDefinition`). -/
def parseDefinition (fuel : Nat) (l : Lexer) : PR DefinitionNode :=
  if peek l .braceL then
    match parseOperationDefinition fuel l with
    | .error e => .error e
    | .ok (o, l1) => .ok (.operationDef o, l1)
  else if peek l .name then
    if l.token.value == some ("query") || l.token.value == some ("mutation")
        || l.token.value == some ("subscription") then
      match parseOperationDefinition fuel l with
      | .error e => .error e
      | .ok (o, l1) => .ok (.operationDef o, l1)
    else if l.token.value == some ("fragment") then
      match parseFragmentDefinition fuel l with
      | .error e => .error e
      | .ok (f, l1) => .ok (.fragmentDef f, l1)
    else if l.token.value == some ("schema") || l.token.value == some ("scalar")
        || l.token.value == some ("type") || l.token.value == some ("interface")
        || l.token.value == some ("union") || l.token.value == some ("enum")
        || l.token.value == some ("input") || l.token.value == some ("extend")
        || l.token.value == some ("directive") then
      match parseTypeSystemDefinition fuel l with
      | .error e => .error e
      | .ok (t, l1) => .ok (.typeSystemDef t, l1)
    else .error (unexpected l)
  else if peekDescription l then
    match parseTypeSystemDefinition fuel l with
    | .error e => .error e
    | .ok (t, l1) => .ok (.typeSystemDef t, l1)
  else .error (unexpected l)

/-- Definition loop of `parseDocument` (a do-while): parse definitions
until EOF is skipped. -/
def parseDocumentLoop : Nat → Lexer → List DefinitionNode → PR (List DefinitionNode)
  | 0, _, _ => .error .fuelExhausted
  | fuel + 1, l, acc =>
    match parseDefinition fuel l with
    | .error e => .error e
    | .ok (d, l1) =>
      match skip l1 .eof with
      | (true, l2) => .ok (acc ++ [d], l2)
      | (false, l2) => parseDocumentLoop fuel l2 (acc ++ [d])

/-- Parse `Definition+` delimited by SOF and EOF into a Document node
(`parseDocument`). -/
def parseDocument (fuel : Nat) (l : Lexer) : PR DocumentNode :=
  let start := l.token
  match expect l .sof with
  | .error e => .error e
  | .ok (_, l1) =>
    match parseDocumentLoop fuel l1 [] with
    | .error e => .error e
    | .ok (definitions, l2) => .ok (⟨definitions, loc l2 start⟩, l2)

/-! ## Public entry points -/

/-- Input to a public entry point. JavaScript being untyped, a caller may
pass a string, a `Source` instance, or any other value; `other` stands
for the latter, carrying only its string rendering. -/
inductive ParseInput where
  | str (s : String)
  | src (s : Source)
  | other (desc : String)

/-- Errors escaping the public entry points: a grammar syntax error, the
usage TypeError thrown by `parse`'s instance check, or a dynamic host
failure (a non-Source value reaching the lexer, which performs no
instance check and fails on property access). -/
inductive TopErr where
  | parseErr (e : ParseErr)
  | usageTypeError (msg : String)
  | hostErr (msg : String)

/-- Fuel that is always sufficient for a token stream: the grammar
engine's call depth and loop lengths are linearly bounded by the number
of tokens. -/
def fuelFor (tokens : List Token) : Nat :=
  64 * (tokens.length + 2)

/-- Run the document grammar on a constructed source
(parse's body after the instance check). -/
def parseSourceObj (sourceObj : Source) (options : ParseOptions) : Except TopErr DocumentNode :=
  match createLexer sourceObj options with
  | .error e => .error (.parseErr e)
  | .ok lexer =>
    match parseDocument (fuelFor lexer.rest) lexer with
    | .error e => .error (.parseErr e)
    | .ok (doc, _) => .ok doc

/-- Given a GraphQL source, parse it into a Document (`parse`). A string
is wrapped in a `Source`; any other non-`Source` input is rejected with a
TypeError before the lexer is created. -/
def parse (input : ParseInput) (options : ParseOptions) : Except TopErr DocumentNode :=
  match input with
  | .str s => parseSourceObj ⟨s, ("GraphQL")⟩ options
  | .src so => parseSourceObj so options
  | .other desc =>
    .error (.usageTypeError (("Must provide Source. Received: ") ++ desc))

/-- Given a source containing a single value literal, parse it
(`parseValue`): SOF, a non-const value, EOF. Unlike `parse` there is no
instance check, so a non-string non-Source input reaches the lexer and
fails there dynamically. -/
def parseValue (input : ParseInput) (options : ParseOptions) : Except TopErr ValueNode :=
  match input with
  | .str s => parseValueSourceObj ⟨s, ("GraphQL")⟩ options
  | .src so => parseValueSourceObj so options
  | .other desc =>
    .error (.hostErr (("Lexer cannot read a non-Source value: ") ++ desc))
where
  /-- Body of `parseValue` on a proper source object. -/
  parseValueSourceObj (sourceObj : Source) (options : ParseOptions) :
      Except TopErr ValueNode :=
    match createLexer sourceObj options with
    | .error e => .error (.parseErr e)
    | .ok lexer =>
      match expect lexer .sof with
      | .error e => .error (.parseErr e)
      | .ok (_, l1) =>
        match parseValueLiteral (fuelFor lexer.rest) l1 false with
        | .error e => .error (.parseErr e)
        | .ok (value, l2) =>
          match expect l2 .eof with
          | .error e => .error (.parseErr e)
          | .ok (_, _) => .ok value

/-- Given a source containing a single type reference, parse it
(`parseType`): SOF, a type reference, EOF. Like `parseValue` there is no
instance check. -/
def parseType (input : ParseInput) (options : ParseOptions) : Except TopErr TypeNode :=
  match input with
  | .str s => parseTypeSourceObj ⟨s, ("GraphQL")⟩ options
  | .src so => parseTypeSourceObj so options
  | .other desc =>
    .error (.hostErr (("Lexer cannot read a non-Source value: ") ++ desc))
where
  /-- Body of `parseType` on a proper source object. -/
  parseTypeSourceObj (sourceObj : Source) (options : ParseOptions) :
      Except TopErr TypeNode :=
    match createLexer sourceObj options with
    | .error e => .error (.parseErr e)
    | .ok lexer =>
      match expect lexer .sof with
      | .error e => .error (.parseErr e)
      | .ok (_, l1) =>
        match parseTypeReference (fuelFor lexer.rest) l1 with
        | .error e => .error (.parseErr e)
        | .ok (t, l2) =>
          match expect l2 .eof with
          | .error e => .error (.parseErr e)
          | .ok (_, _) => .ok t

/-! ## valueFromASTUntyped (src/utilities/valueFromASTUntyped.js) -/

/-- A JavaScript value as produced by `valueFromASTUntyped`. Numbers from
`parseFloat` are represented symbolically by their literal text
(`floatNum`): floating-point arithmetic is never inspected by any claim,
only which branch produced the value. -/
inductive JSValue where
  | null
  | undefined
  | nan
  | int (n : Int)
  | floatNum (literal : String)
  | str (s : String)
  | bool (b : Bool)
  | arr (elems : List JSValue)
  | obj (fields : List (String × JSValue))

/-- Modelled from the spec: JavaScript `parseInt(s, 10)` as applied to a
numeric literal: optional sign followed by the longest digit prefix;
yields NaN when there are no digits. -/
def jsParseInt (s : String) : JSValue :=
  let cs := s.toList.dropWhile (fun c => c == (' ') || c == ('\t') || c == ('\n') || c == ('\r'))
  let (neg, ds) :=
    match cs with
    | ('-') :: tl => (true, tl)
    | ('+') :: tl => (false, tl)
    | _ => (false, cs)
  let digits := ds.takeWhile isDigitCh
  if digits.length == 0 then .nan
  else
    let n : Nat := digits.foldl (fun acc c => acc * 10 + (c.toNat - 48)) 0
    .int (if neg then -(n : Int) else (n : Int))

/-- Modelled from the spec: `isInvalid` from jsutils (not part of the
sources): true exactly for `undefined` and NaN. -/
def isInvalid : JSValue → Bool
  | .undefined => true
  | .nan => true
  | _ => false

/-- JavaScript property read on an object map: the bound value, or
`undefined` when the key is absent. -/
def objGet (m : List (String × JSValue)) (k : String) : JSValue :=
  match m.find? (fun p => p.1 == k) with
  | some p => p.2
  | none => .undefined

/-- JavaScript property assignment on an object map: overwrite an
existing key in place, else append. -/
def objSet (m : List (String × JSValue)) (k : String) (v : JSValue) : List (String × JSValue) :=
  if m.any (fun p => p.1 == k) then
    m.map (fun p => if p.1 == k then (k, v) else p)
  else m ++ [(k, v)]

mutual
/-- Produce a JavaScript value from a GraphQL value AST
(`valueFromASTUntyped`): nulls, numbers, strings, enums, booleans map
directly; lists and objects recurse; a variable is looked up in the
vars map and yields `undefined` when the map is missing or the
binding is absent or invalid. -/
def valueFromASTUntyped (valueNode : ValueNode) (vars : Option (List (String × JSValue))) : JSValue :=
  match valueNode with
  | .nullValue _ => .null
  | .intValue v _ => jsParseInt v
  | .floatValue v _ => .floatNum v
  | .stringValue s => .str s.value
  | .enumValue v _ => .str v
  | .booleanValue b _ => .bool b
  | .listValue values _ => .arr (listFromASTUntyped values vars)
  | .objectValue fields _ => .obj (objectFromASTUntyped fields vars [])
  | .var v =>
    match vars with
    | none => .undefined
    | some vars =>
      let bound := objGet vars v.name.value
      if !(isInvalid bound) then bound else .undefined

/-- Map of `valueFromASTUntyped` over list values. -/
def listFromASTUntyped (values : List ValueNode) (vars : Option (List (String × JSValue))) : List JSValue :=
  match values with
  | [] => []
  | v :: rest => valueFromASTUntyped v vars :: listFromASTUntyped rest vars

/-- The `keyValMap` reduction over object fields: field name to converted
field value, later assignments overwriting earlier ones. -/
def objectFromASTUntyped (fields : List ObjectFieldNode) (vars : Option (List (String × JSValue)))
    (acc : List (String × JSValue)) : List (String × JSValue) :=
  match fields with
  | [] => acc
  | (.mk name value _) :: rest =>
    objectFromASTUntyped rest vars (objSet acc name.value (valueFromASTUntyped value vars))
end

/-- The `kind` tag of a value node, per the AST's closed kind set. -/
def ValueNode.kindOf : ValueNode → String
  | .var _ => "Variable"
  | .intValue _ _ => "IntValue"
  | .floatValue _ _ => "FloatValue"
  | .stringValue _ => "StringValue"
  | .booleanValue _ _ => "BooleanValue"
  | .nullValue _ => "NullValue"
  | .enumValue _ _ => "EnumValue"
  | .listValue _ _ => "ListValue"
  | .objectValue _ _ => "ObjectValue"

/-- The kinds handled by the cases of `valueFromASTUntyped`'s switch; a
node whose kind lies outside this list would reach the
`Unexpected value kind` error branch. -/
def valueFromASTUntypedCaseKinds : List String :=
  [("NullValue"), ("IntValue"), ("FloatValue"), ("StringValue"), ("EnumValue"),
   ("BooleanValue"), ("ListValue"), ("ObjectValue"), ("Variable")]

/-! ## Node predicates for the location and fragment-name invariants -/

/-- The per-run constants of a lexer: its source and the `noLocation`
flag. Every grammar production preserves them. -/
def lcfg (l : Lexer) : Source × Bool := (l.source, l.noLocation)

/-- Check one location slot against the run configuration `c`: with
`noLocation` set the slot must be absent; otherwise it must be a bound
bundle whose `start`/`end` offsets are those of its own start/end tokens
and whose source is the run's source. -/
def locOK (c : Source × Bool) (o : Option Loc) : Bool :=
  match c.2, o with
  | true, none => true
  | false, some lc =>
    decide (lc.start = lc.startToken.start) && decide (lc.endPos = lc.endToken.endPos)
      && decide (lc.source = c.1)
  | _, _ => false

/-- Check an optional child with a given checker. -/
def optAll {α : Type} (f : α → Bool) : Option α → Bool
  | none => true
  | some a => f a

/-- Location slots of a Name node. -/
def nameLocs (c : Source × Bool) (n : NameNode) : Bool :=
  locOK c n.loc

/-- Location slots of a Variable node. -/
def variableLocs (c : Source × Bool) (v : VariableNode) : Bool :=
  locOK c v.loc && nameLocs c v.name

/-- Location slots of a NamedType node. -/
def namedTypeLocs (c : Source × Bool) (t : NamedTypeNode) : Bool :=
  locOK c t.loc && nameLocs c t.name

/-- Location slots of a type reference, recursively. -/
def typeLocs (c : Source × Bool) : TypeNode → Bool
  | .named t => namedTypeLocs c t
  | .list inner lc => locOK c lc && typeLocs c inner
  | .nonNull inner lc => locOK c lc && typeLocs c inner

/-- Location slots of a StringValue node. -/
def stringValueLocs (c : Source × Bool) (s : StringValueNode) : Bool :=
  locOK c s.loc

mutual
/-- Location slots of a value node, recursively. -/
def valueLocs (c : Source × Bool) : ValueNode → Bool
  | .var v => variableLocs c v
  | .intValue _ lc => locOK c lc
  | .floatValue _ lc => locOK c lc
  | .stringValue s => stringValueLocs c s
  | .booleanValue _ lc => locOK c lc
  | .nullValue lc => locOK c lc
  | .enumValue _ lc => locOK c lc
  | .listValue values lc => locOK c lc && valueListLocs c values
  | .objectValue fields lc => locOK c lc && objectFieldListLocs c fields

/-- Location slots of a list of value nodes. -/
def valueListLocs (c : Source × Bool) : List ValueNode → Bool
  | [] => true
  | v :: vs => valueLocs c v && valueListLocs c vs

/-- Location slots of an ObjectField node. -/
def objectFieldLocs (c : Source × Bool) : ObjectFieldNode → Bool
  | .mk name value lc => locOK c lc && nameLocs c name && valueLocs c value

/-- Location slots of a list of ObjectField nodes. -/
def objectFieldListLocs (c : Source × Bool) : List ObjectFieldNode → Bool
  | [] => true
  | f :: fs => objectFieldLocs c f && objectFieldListLocs c fs
end

/-- Location slots of an Argument node. -/
def argumentLocs (c : Source × Bool) (a : ArgumentNode) : Bool :=
  locOK c a.loc && nameLocs c a.name && valueLocs c a.value

/-- Location slots of a Directive node. -/
def directiveLocs (c : Source × Bool) (d : DirectiveNode) : Bool :=
  locOK c d.loc && nameLocs c d.name && d.arguments.all (argumentLocs c)

/-- Location slots of a VariableDefinition node. -/
def variableDefinitionLocs (c : Source × Bool) (vd : VariableDefinitionNode) : Bool :=
  locOK c vd.loc && variableLocs c vd.var && typeLocs c vd.type
    && optAll (valueLocs c) vd.defaultValue

mutual
/-- Location slots of a SelectionSet node, recursively. -/
def selectionSetLocs (c : Source × Bool) : SelectionSetNode → Bool
  | .mk selections lc => locOK c lc && selectionListLocs c selections

/-- Location slots of a list of selections. -/
def selectionListLocs (c : Source × Bool) : List SelectionNode → Bool
  | [] => true
  | s :: ss => selectionLocs c s && selectionListLocs c ss

/-- Location slots of a selection, recursively. -/
def selectionLocs (c : Source × Bool) : SelectionNode → Bool
  | .field aliasName name args dirs ss lc =>
    locOK c lc && optAll (nameLocs c) aliasName && nameLocs c name
      && args.all (argumentLocs c) && dirs.all (directiveLocs c)
      && (match ss with
          | none => true
          | some s => selectionSetLocs c s)
  | .fragmentSpread name dirs lc =>
    locOK c lc && nameLocs c name && dirs.all (directiveLocs c)
  | .inlineFragment tc dirs ss lc =>
    locOK c lc && optAll (namedTypeLocs c) tc && dirs.all (directiveLocs c)
      && selectionSetLocs c ss
end

/-- Location slots of an OperationDefinition node. -/
def operationDefinitionLocs (c : Source × Bool) (o : OperationDefinitionNode) : Bool :=
  locOK c o.loc && optAll (nameLocs c) o.name
    && o.variableDefinitions.all (variableDefinitionLocs c)
    && o.directives.all (directiveLocs c) && selectionSetLocs c o.selectionSet

/-- Location slots of a FragmentDefinition node. -/
def fragmentDefinitionLocs (c : Source × Bool) (f : FragmentDefinitionNode) : Bool :=
  locOK c f.loc && nameLocs c f.name && namedTypeLocs c f.typeCondition
    && f.directives.all (directiveLocs c) && selectionSetLocs c f.selectionSet

/-- Location slots of an OperationTypeDefinition node. -/
def operationTypeDefinitionLocs (c : Source × Bool) (o : OperationTypeDefinitionNode) : Bool :=
  locOK c o.loc && namedTypeLocs c o.type

/-- Location slots of a SchemaDefinition node. -/
def schemaDefinitionLocs (c : Source × Bool) (s : SchemaDefinitionNode) : Bool :=
  locOK c s.loc && s.directives.all (directiveLocs c)
    && s.operationTypes.all (operationTypeDefinitionLocs c)

/-- Location slots of a ScalarTypeDefinition node. -/
def scalarTypeDefinitionLocs (c : Source × Bool) (s : ScalarTypeDefinitionNode) : Bool :=
  locOK c s.loc && optAll (stringValueLocs c) s.description && nameLocs c s.name
    && s.directives.all (directiveLocs c)

/-- Location slots of an InputValueDefinition node. -/
def inputValueDefinitionLocs (c : Source × Bool) (i : InputValueDefinitionNode) : Bool :=
  locOK c i.loc && optAll (stringValueLocs c) i.description && nameLocs c i.name
    && typeLocs c i.type && optAll (valueLocs c) i.defaultValue
    && i.directives.all (directiveLocs c)

/-- Location slots of a FieldDefinition node. -/
def fieldDefinitionLocs (c : Source × Bool) (f : FieldDefinitionNode) : Bool :=
  locOK c f.loc && optAll (stringValueLocs c) f.description && nameLocs c f.name
    && f.arguments.all (inputValueDefinitionLocs c) && typeLocs c f.type
    && f.directives.all (directiveLocs c)

/-- Location slots of an ObjectTypeDefinition node. -/
def objectTypeDefinitionLocs (c : Source × Bool) (o : ObjectTypeDefinitionNode) : Bool :=
  locOK c o.loc && optAll (stringValueLocs c) o.description && nameLocs c o.name
    && o.interfaces.all (namedTypeLocs c) && o.directives.all (directiveLocs c)
    && o.fields.all (fieldDefinitionLocs c)

/-- Location slots of an InterfaceTypeDefinition node. -/
def interfaceTypeDefinitionLocs (c : Source × Bool) (i : InterfaceTypeDefinitionNode) : Bool :=
  locOK c i.loc && optAll (stringValueLocs c) i.description && nameLocs c i.name
    && i.directives.all (directiveLocs c) && i.fields.all (fieldDefinitionLocs c)

/-- Location slots of a UnionTypeDefinition node. -/
def unionTypeDefinitionLocs (c : Source × Bool) (u : UnionTypeDefinitionNode) : Bool :=
  locOK c u.loc && optAll (stringValueLocs c) u.description && nameLocs c u.name
    && u.directives.all (directiveLocs c) && u.types.all (namedTypeLocs c)

/-- Location slots of an EnumValueDefinition node. -/
def enumValueDefinitionLocs (c : Source × Bool) (e : EnumValueDefinitionNode) : Bool :=
  locOK c e.loc && optAll (stringValueLocs c) e.description && nameLocs c e.name
    && e.directives.all (directiveLocs c)

/-- Location slots of an EnumTypeDefinition node. -/
def enumTypeDefinitionLocs (c : Source × Bool) (e : EnumTypeDefinitionNode) : Bool :=
  locOK c e.loc && optAll (stringValueLocs c) e.description && nameLocs c e.name
    && e.directives.all (directiveLocs c) && e.values.all (enumValueDefinitionLocs c)

/-- Location slots of an InputObjectTypeDefinition node. -/
def inputObjectTypeDefinitionLocs (c : Source × Bool) (i : InputObjectTypeDefinitionNode) : Bool :=
  locOK c i.loc && optAll (stringValueLocs c) i.description && nameLocs c i.name
    && i.directives.all (directiveLocs c) && i.fields.all (inputValueDefinitionLocs c)

/-- Location slots of an ObjectTypeExtension node. -/
def objectTypeExtensionLocs (c : Source × Bool) (e : ObjectTypeExtensionNode) : Bool :=
  locOK c e.loc && nameLocs c e.name && e.interfaces.all (namedTypeLocs c)
    && e.directives.all (directiveLocs c) && e.fields.all (fieldDefinitionLocs c)

/-- Location slots of a DirectiveDefinition node. -/
def directiveDefinitionLocs (c : Source × Bool) (d : DirectiveDefinitionNode) : Bool :=
  locOK c d.loc && optAll (stringValueLocs c) d.description && nameLocs c d.name
    && d.arguments.all (inputValueDefinitionLocs c) && d.locations.all (nameLocs c)

/-- Location slots of a type-system definition. -/
def typeSystemDefinitionLocs (c : Source × Bool) : TypeSystemDefinitionNode → Bool
  | .schema s => schemaDefinitionLocs c s
  | .scalar s => scalarTypeDefinitionLocs c s
  | .object o => objectTypeDefinitionLocs c o
  | .interface i => interfaceTypeDefinitionLocs c i
  | .union u => unionTypeDefinitionLocs c u
  | .enum e => enumTypeDefinitionLocs c e
  | .inputObject i => inputObjectTypeDefinitionLocs c i
  | .objectTypeExtension e => objectTypeExtensionLocs c e
  | .directive d => directiveDefinitionLocs c d

/-- Location slots of a top-level definition. -/
def definitionLocs (c : Source × Bool) : DefinitionNode → Bool
  | .operationDef o => operationDefinitionLocs c o
  | .fragmentDef f => fragmentDefinitionLocs c f
  | .typeSystemDef t => typeSystemDefinitionLocs c t

/-- Location slots of a whole document. -/
def documentLocs (c : Source × Bool) (d : DocumentNode) : Bool :=
  locOK c d.loc && d.definitions.all (definitionLocs c)

mutual
/-- Fragment-name invariant on a selection set: no fragment spread is
named `on`. -/
def selectionSetFragOK : SelectionSetNode → Bool
  | .mk selections _ => selectionListFragOK selections

/-- Fragment-name invariant on a list of selections. -/
def selectionListFragOK : List SelectionNode → Bool
  | [] => true
  | s :: ss => selectionFragOK s && selectionListFragOK ss

/-- Fragment-name invariant on one selection. -/
def selectionFragOK : SelectionNode → Bool
  | .field _ _ _ _ ss _ =>
    (match ss with
     | none => true
     | some s => selectionSetFragOK s)
  | .fragmentSpread name _ _ => !(name.value == ("on"))
  | .inlineFragment _ _ ss _ => selectionSetFragOK ss
end

/-- Fragment-name invariant on a top-level definition: fragment
definitions are not named `on`, and no fragment spread anywhere in an
executable definition is named `on` (type-system definitions contain no
selections). -/
def definitionFragOK : DefinitionNode → Bool
  | .operationDef o => selectionSetFragOK o.selectionSet
  | .fragmentDef f => !(f.name.value == ("on")) && selectionSetFragOK f.selectionSet
  | .typeSystemDef _ => true

/-- Fragment-name invariant on a whole document. -/
def documentFragOK (d : DocumentNode) : Bool :=
  d.definitions.all definitionFragOK

/-- No NonNullType in this type reference directly wraps another
NonNullType. -/
def typeNoNestedNonNull : TypeNode → Bool
  | .named _ => true
  | .list inner _ => typeNoNestedNonNull inner
  | .nonNull inner _ =>
    (match inner with
     | .nonNull _ _ => false
     | _ => true) && typeNoNestedNonNull inner

/-- Extract the value of the single argument of the single field of the
single operation definition of a document, when the document has that
shape. -/
def firstArgumentValue (doc : DocumentNode) : Option ValueNode :=
  match doc.definitions with
  | [.operationDef o] =>
    (match o.selectionSet.selections with
     | [.field _ _ [arg] _ _ _] => some arg.value
     | _ => none)
  | _ => none

/-- Whether a top-level error is the `Must provide Source` usage
TypeError. -/
def TopErr.isUsageTypeError : TopErr → Bool
  | .usageTypeError _ => true
  | _ => false

/-- Kind of the first token the lexer produces for a source, when lexing
succeeds and produces at least one token. -/
def firstLexedKind (src : Source) : Option TokenKind :=
  match lexTokens src with
  | .ok (t :: _) => some t.kind
  | _ => none

/-- The operation tag of an operation definition lies in the closed
query/mutation/subscription set; true for non-operation definitions. -/
def definitionOpOK : DefinitionNode → Bool
  | .operationDef o =>
    o.operation == ("query") || o.operation == ("mutation") || o.operation == ("subscription")
  | _ => true

mutual
/-- Erase every location of a value node, for location-insensitive
structural comparison. -/
def valueStripLoc : ValueNode → ValueNode
  | .var v => .var ⟨⟨v.name.value, none⟩, none⟩
  | .intValue s _ => .intValue s none
  | .floatValue s _ => .floatValue s none
  | .stringValue s => .stringValue ⟨s.value, s.block, none⟩
  | .booleanValue b _ => .booleanValue b none
  | .nullValue _ => .nullValue none
  | .enumValue s _ => .enumValue s none
  | .listValue vs _ => .listValue (valueListStripLoc vs) none
  | .objectValue fs _ => .objectValue (objectFieldListStripLoc fs) none

/-- Erase locations across a list of value nodes. -/
def valueListStripLoc : List ValueNode → List ValueNode
  | [] => []
  | v :: vs => valueStripLoc v :: valueListStripLoc vs

/-- Erase locations across a list of object fields. -/
def objectFieldListStripLoc : List ObjectFieldNode → List ObjectFieldNode
  | [] => []
  | (.mk n v _) :: fs =>
    .mk ⟨n.value, none⟩ (valueStripLoc v) none :: objectFieldListStripLoc fs
end

/-- Unwrap a parse result to its document, with an empty placeholder for
errors; used only to name concrete parse outputs in closed statements. -/
def docOf (r : Except TopErr DocumentNode) : DocumentNode :=
  match r with
  | .ok d => d
  | .error _ => ⟨[], none⟩

/-- Unwrap a parseValue result, with a null placeholder for errors; used
only to name concrete outputs in closed statements. -/
def valueOf (r : Except TopErr ValueNode) : ValueNode :=
  match r with
  | .ok v => v
  | .error _ => .nullValue none

/-! ## Combinator lemmas -/

theorem optAll_none {α : Type} (f : α → Bool) : optAll f none = true := rfl

theorem optAll_some {α : Type} (f : α → Bool) (a : α) : optAll f (some a) = f a := rfl

theorem lcfg_advance (l : Lexer) : lcfg l.advance = lcfg l := by
  unfold Lexer.advance
  cases l.rest <;> rfl

theorem skip_lcfg (l : Lexer) (k : TokenKind) : lcfg (skip l k).2 = lcfg l := by
  unfold skip
  split
  · exact lcfg_advance l
  · rfl

theorem expect_ok {l : Lexer} {k : TokenKind} {t : Token} {l' : Lexer}
    (h : expect l k = .ok (t, l')) : t = l.token ∧ l' = l.advance ∧ l.token.kind = k := by
  unfold expect at h
  split at h
  · rename_i hk
    simp only [Except.ok.injEq, Prod.mk.injEq] at h
    exact ⟨h.1.symm, h.2.symm, by simpa using hk⟩
  · simp at h

theorem expect_lcfg {l : Lexer} {k : TokenKind} {t : Token} {l' : Lexer}
    (h : expect l k = .ok (t, l')) : lcfg l' = lcfg l := by
  rw [(expect_ok h).2.1]
  exact lcfg_advance l

theorem expectKeyword_ok {l : Lexer} {v : String} {t : Token} {l' : Lexer}
    (h : expectKeyword l v = .ok (t, l')) : t = l.token ∧ l' = l.advance := by
  unfold expectKeyword at h
  split at h
  · simp only [Except.ok.injEq, Prod.mk.injEq] at h
    exact ⟨h.1.symm, h.2.symm⟩
  · simp at h

theorem expectKeyword_lcfg {l : Lexer} {v : String} {t : Token} {l' : Lexer}
    (h : expectKeyword l v = .ok (t, l')) : lcfg l' = lcfg l := by
  rw [(expectKeyword_ok h).2]
  exact lcfg_advance l

theorem locOK_loc {l : Lexer} {c : Source × Bool} (h : lcfg l = c) (t : Token) :
    locOK c (loc l t) = true := by
  subst h
  unfold loc locOK lcfg
  cases l.noLocation <;> simp

theorem parseName_ok {l : Lexer} {n : NameNode} {l' : Lexer}
    (h : parseName l = .ok (n, l')) :
    lcfg l' = lcfg l ∧ nameLocs (lcfg l) n = true
      ∧ n.value = l.token.value.getD ("") ∧ l' = l.advance ∧ l.token.kind = .name := by
  unfold parseName at h
  cases he : expect l .name with
  | error e => rw [he] at h; simp at h
  | ok p =>
    obtain ⟨tok, l1⟩ := p
    rw [he] at h
    simp only [Except.ok.injEq, Prod.mk.injEq] at h
    obtain ⟨hn, hl⟩ := h
    obtain ⟨ht, hadv, hk⟩ := expect_ok he
    subst hl hn ht hadv
    refine ⟨lcfg_advance l, ?_, rfl, rfl, hk⟩
    unfold nameLocs
    exact locOK_loc (lcfg_advance l) _

theorem parseVariable_ok {l : Lexer} {v : VariableNode} {l' : Lexer}
    (h : parseVariable l = .ok (v, l')) :
    lcfg l' = lcfg l ∧ variableLocs (lcfg l) v = true := by
  unfold parseVariable at h
  cases he : expect l .dollar with
  | error e => rw [he] at h; simp at h
  | ok p =>
    obtain ⟨tok, l1⟩ := p
    rw [he] at h
    dsimp only at h
    cases hn : parseName l1 with
    | error e => rw [hn] at h; simp at h
    | ok q =>
      obtain ⟨name, l2⟩ := q
      rw [hn] at h
      simp only [Except.ok.injEq, Prod.mk.injEq] at h
      obtain ⟨hv, hl⟩ := h
      subst hv hl
      have h1 := expect_lcfg he
      have h2 := (parseName_ok hn).1
      have hc : lcfg l2 = lcfg l := by rw [h2, h1]
      refine ⟨hc, ?_⟩
      unfold variableLocs
      have hnm := (parseName_ok hn).2.1
      rw [h1] at hnm
      simp [locOK_loc hc, hnm]

theorem parseNamedType_ok {l : Lexer} {t : NamedTypeNode} {l' : Lexer}
    (h : parseNamedType l = .ok (t, l')) :
    lcfg l' = lcfg l ∧ namedTypeLocs (lcfg l) t = true := by
  unfold parseNamedType at h
  cases hn : parseName l with
  | error e => rw [hn] at h; simp at h
  | ok q =>
    obtain ⟨name, l1⟩ := q
    rw [hn] at h
    simp only [Except.ok.injEq, Prod.mk.injEq] at h
    obtain ⟨ht, hl⟩ := h
    subst ht hl
    have h1 := (parseName_ok hn).1
    refine ⟨h1, ?_⟩
    unfold namedTypeLocs
    simp [locOK_loc h1, (parseName_ok hn).2.1]

theorem parseStringLiteral_ok {l : Lexer} :
    lcfg (parseStringLiteral l).2 = lcfg l
      ∧ stringValueLocs (lcfg l) (parseStringLiteral l).1 = true := by
  unfold parseStringLiteral
  refine ⟨lcfg_advance l, ?_⟩
  unfold stringValueLocs
  exact locOK_loc (lcfg_advance l) _

theorem valueListLocs_append (c : Source × Bool) (xs ys : List ValueNode) :
    valueListLocs c (xs ++ ys) = (valueListLocs c xs && valueListLocs c ys) := by
  induction xs with
  | nil => simp [valueListLocs]
  | cons x xs ih => simp [valueListLocs, ih, Bool.and_assoc]

theorem objectFieldListLocs_append (c : Source × Bool) (xs ys : List ObjectFieldNode) :
    objectFieldListLocs c (xs ++ ys) = (objectFieldListLocs c xs && objectFieldListLocs c ys) := by
  induction xs with
  | nil => simp [objectFieldListLocs]
  | cons x xs ih => simp [objectFieldListLocs, ih, Bool.and_assoc]

theorem selectionListLocs_append (c : Source × Bool) (xs ys : List SelectionNode) :
    selectionListLocs c (xs ++ ys) = (selectionListLocs c xs && selectionListLocs c ys) := by
  induction xs with
  | nil => simp [selectionListLocs]
  | cons x xs ih => simp [selectionListLocs, ih, Bool.and_assoc]

theorem selectionListFragOK_append (xs ys : List SelectionNode) :
    selectionListFragOK (xs ++ ys) = (selectionListFragOK xs && selectionListFragOK ys) := by
  induction xs with
  | nil => simp [selectionListFragOK]
  | cons x xs ih => simp [selectionListFragOK, ih, Bool.and_assoc]

theorem valueKnotLocs : ∀ fuel : Nat,
    (∀ l isConst v l', parseValueLiteral fuel l isConst = .ok (v, l') →
      lcfg l' = lcfg l ∧ valueLocs (lcfg l) v = true)
  ∧ (∀ l isConst v l', parseList fuel l isConst = .ok (v, l') →
      lcfg l' = lcfg l ∧ valueLocs (lcfg l) v = true)
  ∧ (∀ l isConst acc vs l', parseListItems fuel l isConst acc = .ok (vs, l') →
      valueListLocs (lcfg l) acc = true →
      lcfg l' = lcfg l ∧ valueListLocs (lcfg l) vs = true)
  ∧ (∀ l isConst v l', parseObject fuel l isConst = .ok (v, l') →
      lcfg l' = lcfg l ∧ valueLocs (lcfg l) v = true)
  ∧ (∀ l isConst acc fs l', parseObjectFieldsLoop fuel l isConst acc = .ok (fs, l') →
      objectFieldListLocs (lcfg l) acc = true →
      lcfg l' = lcfg l ∧ objectFieldListLocs (lcfg l) fs = true)
  ∧ (∀ l isConst f l', parseObjectField fuel l isConst = .ok (f, l') →
      lcfg l' = lcfg l ∧ objectFieldLocs (lcfg l) f = true) := by
  intro fuel
  induction fuel with
  | zero =>
    refine ⟨?_, ?_, ?_, ?_, ?_, ?_⟩
    · intro l isConst v l' h; simp [parseValueLiteral] at h
    · intro l isConst v l' h; simp [parseList] at h
    · intro l isConst acc vs l' h; simp [parseListItems] at h
    · intro l isConst v l' h; simp [parseObject] at h
    · intro l isConst acc fs l' h; simp [parseObjectFieldsLoop] at h
    · intro l isConst f l' h; simp [parseObjectField] at h
  | succ fuel ih =>
    obtain ⟨ihVal, ihList, ihItems, ihObj, ihFields, ihField⟩ := ih
    refine ⟨?_, ?_, ?_, ?_, ?_, ?_⟩
    · -- parseValueLiteral
      intro l isConst v l' h
      rw [parseValueLiteral] at h
      try dsimp only at h
      split at h
      · exact ihList l isConst v l' h
      · exact ihObj l isConst v l' h
      · simp only [Except.ok.injEq, Prod.mk.injEq] at h
        obtain ⟨hv, hl⟩ := h
        subst hv hl
        exact ⟨lcfg_advance l, by simp [valueLocs, locOK_loc (lcfg_advance l)]⟩
      · simp only [Except.ok.injEq, Prod.mk.injEq] at h
        obtain ⟨hv, hl⟩ := h
        subst hv hl
        exact ⟨lcfg_advance l, by simp [valueLocs, locOK_loc (lcfg_advance l)]⟩
      · simp only [parseStringLiteral, Except.ok.injEq, Prod.mk.injEq] at h
        obtain ⟨hv, hl⟩ := h
        subst hv hl
        exact ⟨lcfg_advance l,
          by simp [valueLocs, stringValueLocs, locOK_loc (lcfg_advance l)]⟩
      · simp only [parseStringLiteral, Except.ok.injEq, Prod.mk.injEq] at h
        obtain ⟨hv, hl⟩ := h
        subst hv hl
        exact ⟨lcfg_advance l,
          by simp [valueLocs, stringValueLocs, locOK_loc (lcfg_advance l)]⟩
      · -- NAME: boolean / null / enum
        split at h
        · simp only [Except.ok.injEq, Prod.mk.injEq] at h
          obtain ⟨hv, hl⟩ := h
          subst hv hl
          exact ⟨lcfg_advance l, by simp [valueLocs, locOK_loc (lcfg_advance l)]⟩
        · split at h
          · simp only [Except.ok.injEq, Prod.mk.injEq] at h
            obtain ⟨hv, hl⟩ := h
            subst hv hl
            exact ⟨lcfg_advance l, by simp [valueLocs, locOK_loc (lcfg_advance l)]⟩
          · simp only [Except.ok.injEq, Prod.mk.injEq] at h
            obtain ⟨hv, hl⟩ := h
            subst hv hl
            exact ⟨lcfg_advance l, by simp [valueLocs, locOK_loc (lcfg_advance l)]⟩
      · -- DOLLAR
        split at h
        · cases hv : parseVariable l with
          | error e => rw [hv] at h; simp at h
          | ok p =>
            obtain ⟨vr, l1⟩ := p
            rw [hv] at h
            simp only [Except.ok.injEq, Prod.mk.injEq] at h
            obtain ⟨h1, h2⟩ := h
            subst h1 h2
            obtain ⟨hc, hvl⟩ := parseVariable_ok hv
            exact ⟨hc, by simp [valueLocs, hvl]⟩
        · simp at h
      · simp at h
    · -- parseList
      intro l isConst v l' h
      rw [parseList] at h
      try dsimp only at h
      cases he : expect l .bracketL with
      | error e => rw [he] at h; simp at h
      | ok p =>
        obtain ⟨tok, l1⟩ := p
        rw [he] at h
        try dsimp only at h
        cases hi : parseListItems fuel l1 isConst [] with
        | error e => rw [hi] at h; simp at h
        | ok q =>
          obtain ⟨values, l2⟩ := q
          rw [hi] at h
          simp only [Except.ok.injEq, Prod.mk.injEq] at h
          obtain ⟨hv, hl⟩ := h
          subst hv hl
          have hc1 := expect_lcfg he
          obtain ⟨hc2, hvals⟩ := ihItems l1 isConst [] values l2 hi (by simp [valueListLocs])
          have hc : lcfg l2 = lcfg l := by rw [hc2, hc1]
          rw [hc1] at hvals
          exact ⟨hc, by simp [valueLocs, locOK_loc hc, hvals]⟩
    · -- parseListItems
      intro l isConst acc vs l' h hacc
      rw [parseListItems] at h
      split at h
      · rename_i l1 heq
        simp only [Except.ok.injEq, Prod.mk.injEq] at h
        have hc := skip_lcfg l .bracketR
        rw [heq] at hc
        rw [← h.1, ← h.2]
        exact ⟨hc, hacc⟩
      · rename_i l1 heq
        have hc1 : lcfg l1 = lcfg l := by
          have hs := skip_lcfg l .bracketR
          rw [heq] at hs
          exact hs
        cases hv : parseValueLiteral fuel l1 isConst with
        | error e => rw [hv] at h; simp at h
        | ok p =>
          obtain ⟨vnode, l2⟩ := p
          rw [hv] at h
          obtain ⟨hc2, hvl⟩ := ihVal l1 isConst vnode l2 hv
          have hc2' : lcfg l2 = lcfg l := by rw [hc2, hc1]
          have hacc2 : valueListLocs (lcfg l2) (acc ++ [vnode]) = true := by
            rw [hc2', valueListLocs_append]
            rw [hc1] at hvl
            simp [valueListLocs, hacc, hvl]
          obtain ⟨hc3, hvs⟩ := ihItems l2 isConst (acc ++ [vnode]) vs l' h hacc2
          rw [hc2'] at hc3 hvs
          exact ⟨hc3, hvs⟩
    · -- parseObject
      intro l isConst v l' h
      rw [parseObject] at h
      try dsimp only at h
      cases he : expect l .braceL with
      | error e => rw [he] at h; simp at h
      | ok p =>
        obtain ⟨tok, l1⟩ := p
        rw [he] at h
        try dsimp only at h
        cases hi : parseObjectFieldsLoop fuel l1 isConst [] with
        | error e => rw [hi] at h; simp at h
        | ok q =>
          obtain ⟨fields, l2⟩ := q
          rw [hi] at h
          simp only [Except.ok.injEq, Prod.mk.injEq] at h
          obtain ⟨hv, hl⟩ := h
          subst hv hl
          have hc1 := expect_lcfg he
          obtain ⟨hc2, hflds⟩ := ihFields l1 isConst [] fields l2 hi (by simp [objectFieldListLocs])
          have hc : lcfg l2 = lcfg l := by rw [hc2, hc1]
          rw [hc1] at hflds
          exact ⟨hc, by simp [valueLocs, locOK_loc hc, hflds]⟩
    · -- parseObjectFieldsLoop
      intro l isConst acc fs l' h hacc
      rw [parseObjectFieldsLoop] at h
      split at h
      · rename_i l1 heq
        simp only [Except.ok.injEq, Prod.mk.injEq] at h
        have hc := skip_lcfg l .braceR
        rw [heq] at hc
        rw [← h.1, ← h.2]
        exact ⟨hc, hacc⟩
      · rename_i l1 heq
        have hc1 : lcfg l1 = lcfg l := by
          have hs := skip_lcfg l .braceR
          rw [heq] at hs
          exact hs
        cases hv : parseObjectField fuel l1 isConst with
        | error e => rw [hv] at h; simp at h
        | ok p =>
          obtain ⟨fnode, l2⟩ := p
          rw [hv] at h
          obtain ⟨hc2, hfl⟩ := ihField l1 isConst fnode l2 hv
          have hc2' : lcfg l2 = lcfg l := by rw [hc2, hc1]
          have hacc2 : objectFieldListLocs (lcfg l2) (acc ++ [fnode]) = true := by
            rw [hc2', objectFieldListLocs_append]
            rw [hc1] at hfl
            simp [objectFieldListLocs, hacc, hfl]
          obtain ⟨hc3, hfs⟩ := ihFields l2 isConst (acc ++ [fnode]) fs l' h hacc2
          rw [hc2'] at hc3 hfs
          exact ⟨hc3, hfs⟩
    · -- parseObjectField
      intro l isConst f l' h
      rw [parseObjectField] at h
      try dsimp only at h
      cases hn : parseName l with
      | error e => rw [hn] at h; simp at h
      | ok p =>
        obtain ⟨name, l1⟩ := p
        rw [hn] at h
        try dsimp only at h
        cases he : expect l1 .colon with
        | error e => rw [he] at h; simp at h
        | ok q =>
          obtain ⟨tok, l2⟩ := q
          rw [he] at h
          try dsimp only at h
          cases hv : parseValueLiteral fuel l2 isConst with
          | error e => rw [hv] at h; simp at h
          | ok r =>
            obtain ⟨value, l3⟩ := r
            rw [hv] at h
            simp only [Except.ok.injEq, Prod.mk.injEq] at h
            obtain ⟨hf, hl⟩ := h
            subst hf hl
            have hc1 := (parseName_ok hn).1
            have hc2 := expect_lcfg he
            obtain ⟨hc3, hvl⟩ := ihVal l2 isConst value l3 hv
            have hc : lcfg l3 = lcfg l := by rw [hc3, hc2, hc1]
            have hnm := (parseName_ok hn).2.1
            have hl2 : lcfg l2 = lcfg l := by rw [hc2, hc1]
            rw [hl2] at hvl
            exact ⟨hc, by simp [objectFieldLocs, locOK_loc hc, hnm, hvl]⟩

theorem parseOperationType_ok {l : Lexer} {op : String} {l' : Lexer}
    (h : parseOperationType l = .ok (op, l')) :
    lcfg l' = lcfg l
      ∧ (op = ("query") ∨ op = ("mutation") ∨ op = ("subscription")) := by
  unfold parseOperationType at h
  cases he : expect l .name with
  | error e => rw [he] at h; simp at h
  | ok p =>
    obtain ⟨tok, l1⟩ := p
    rw [he] at h
    dsimp only at h
    have hc := expect_lcfg he
    split at h
    · simp only [Except.ok.injEq, Prod.mk.injEq] at h
      exact ⟨by rw [← h.2, hc], Or.inl h.1.symm⟩
    · split at h
      · simp only [Except.ok.injEq, Prod.mk.injEq] at h
        exact ⟨by rw [← h.2, hc], Or.inr (Or.inl h.1.symm)⟩
      · split at h
        · simp only [Except.ok.injEq, Prod.mk.injEq] at h
          exact ⟨by rw [← h.2, hc], Or.inr (Or.inr h.1.symm)⟩
        · simp at h

theorem listLoop_ok {α : Type} {parseFn : Lexer → PR α} {closeKind : TokenKind}
    {P : α → Bool} {c : Source × Bool}
    (hfn : ∀ l a l', lcfg l = c → parseFn l = .ok (a, l') → lcfg l' = c ∧ P a = true) :
    ∀ fuel l acc out l', lcfg l = c →
      listLoop parseFn closeKind fuel l acc = .ok (out, l') →
      acc.all P = true → lcfg l' = c ∧ out.all P = true := by
  intro fuel
  induction fuel with
  | zero => intro l acc out l' hcl h hacc; simp [listLoop] at h
  | succ fuel ih =>
    intro l acc out l' hcl h hacc
    rw [listLoop] at h
    split at h
    · rename_i l1 heq
      simp only [Except.ok.injEq, Prod.mk.injEq] at h
      have hc := skip_lcfg l closeKind
      rw [heq] at hc
      rw [← h.1, ← h.2]
      exact ⟨by rw [hc, hcl], hacc⟩
    · rename_i l1 heq
      have hc1 : lcfg l1 = c := by
        have hs := skip_lcfg l closeKind
        rw [heq] at hs
        rw [hs, hcl]
      cases hv : parseFn l1 with
      | error e => rw [hv] at h; simp at h
      | ok p =>
        obtain ⟨a, l2⟩ := p
        rw [hv] at h
        obtain ⟨hc2, hP⟩ := hfn l1 a l2 hc1 hv
        exact ih l2 (acc ++ [a]) out l' hc2 h (by simp [hacc, hP])

theorem listLoop_extends {α : Type} (parseFn : Lexer → PR α) (closeKind : TokenKind) :
    ∀ fuel l acc out l', listLoop parseFn closeKind fuel l acc = .ok (out, l') →
      ∃ tail, out = acc ++ tail := by
  intro fuel
  induction fuel with
  | zero => intro l acc out l' h; simp [listLoop] at h
  | succ fuel ih =>
    intro l acc out l' h
    rw [listLoop] at h
    split at h
    · simp only [Except.ok.injEq, Prod.mk.injEq] at h
      exact ⟨[], by simp [← h.1]⟩
    · rename_i l1 heq
      cases hv : parseFn l1 with
      | error e => rw [hv] at h; simp at h
      | ok p =>
        obtain ⟨a, l2⟩ := p
        rw [hv] at h
        obtain ⟨tail, htail⟩ := ih l2 (acc ++ [a]) out l' h
        exact ⟨a :: tail, by simp [htail]⟩

theorem manyList_ok {α : Type} {parseFn : Lexer → PR α} {openKind closeKind : TokenKind}
    {P : α → Bool} {c : Source × Bool}
    (hfn : ∀ l a l', lcfg l = c → parseFn l = .ok (a, l') → lcfg l' = c ∧ P a = true)
    {fuel : Nat} {l : Lexer} {out : List α} {l' : Lexer} (hcl : lcfg l = c)
    (h : manyList fuel l openKind parseFn closeKind = .ok (out, l')) :
    lcfg l' = c ∧ out.all P = true ∧ out ≠ [] := by
  unfold manyList at h
  cases he : expect l openKind with
  | error e => rw [he] at h; simp at h
  | ok p =>
    obtain ⟨tok, l1⟩ := p
    rw [he] at h
    dsimp only at h
    have hc1 : lcfg l1 = c := by rw [expect_lcfg he, hcl]
    cases hv : parseFn l1 with
    | error e => rw [hv] at h; simp at h
    | ok q =>
      obtain ⟨a, l2⟩ := q
      rw [hv] at h
      obtain ⟨hc2, hP⟩ := hfn l1 a l2 hc1 hv
      obtain ⟨hc3, hall⟩ := listLoop_ok hfn fuel l2 [a] out l' hc2 h (by simp [hP])
      refine ⟨hc3, hall, ?_⟩
      obtain ⟨tail, htail⟩ := listLoop_extends parseFn closeKind fuel l2 [a] out l' h
      simp [htail]

theorem anyList_ok {α : Type} {parseFn : Lexer → PR α} {openKind closeKind : TokenKind}
    {P : α → Bool} {c : Source × Bool}
    (hfn : ∀ l a l', lcfg l = c → parseFn l = .ok (a, l') → lcfg l' = c ∧ P a = true)
    {fuel : Nat} {l : Lexer} {out : List α} {l' : Lexer} (hcl : lcfg l = c)
    (h : anyList fuel l openKind parseFn closeKind = .ok (out, l')) :
    lcfg l' = c ∧ out.all P = true := by
  unfold anyList at h
  cases he : expect l openKind with
  | error e => rw [he] at h; simp at h
  | ok p =>
    obtain ⟨tok, l1⟩ := p
    rw [he] at h
    dsimp only at h
    have hc1 : lcfg l1 = c := by rw [expect_lcfg he, hcl]
    exact listLoop_ok hfn fuel l1 [] out l' hc1 h (by simp)

theorem parseArgument_ok {fuel : Nat} {l : Lexer} {a : ArgumentNode} {l' : Lexer}
    (h : parseArgument fuel l = .ok (a, l')) :
    lcfg l' = lcfg l ∧ argumentLocs (lcfg l) a = true := by
  unfold parseArgument at h
  cases hn : parseName l with
  | error e => rw [hn] at h; simp at h
  | ok p =>
    obtain ⟨name, l1⟩ := p
    rw [hn] at h
    dsimp only at h
    cases he : expect l1 .colon with
    | error e => rw [he] at h; simp at h
    | ok q =>
      obtain ⟨tok, l2⟩ := q
      rw [he] at h
      dsimp only at h
      cases hv : parseValueLiteral fuel l2 false with
      | error e => rw [hv] at h; simp at h
      | ok r =>
        obtain ⟨value, l3⟩ := r
        rw [hv] at h
        simp only [Except.ok.injEq, Prod.mk.injEq] at h
        obtain ⟨ha, hl⟩ := h
        subst ha hl
        have hc1 := (parseName_ok hn).1
        have hc2 := expect_lcfg he
        obtain ⟨hc3, hvl⟩ := (valueKnotLocs fuel).1 l2 false value l3 hv
        have hc : lcfg l3 = lcfg l := by rw [hc3, hc2, hc1]
        have hl2 : lcfg l2 = lcfg l := by rw [hc2, hc1]
        rw [hl2] at hvl
        exact ⟨hc, by simp [argumentLocs, locOK_loc hc, (parseName_ok hn).2.1, hvl]⟩

theorem parseConstArgument_ok {fuel : Nat} {l : Lexer} {a : ArgumentNode} {l' : Lexer}
    (h : parseConstArgument fuel l = .ok (a, l')) :
    lcfg l' = lcfg l ∧ argumentLocs (lcfg l) a = true := by
  unfold parseConstArgument at h
  cases hn : parseName l with
  | error e => rw [hn] at h; simp at h
  | ok p =>
    obtain ⟨name, l1⟩ := p
    rw [hn] at h
    dsimp only at h
    cases he : expect l1 .colon with
    | error e => rw [he] at h; simp at h
    | ok q =>
      obtain ⟨tok, l2⟩ := q
      rw [he] at h
      dsimp only at h
      cases hv : parseConstValue fuel l2 with
      | error e => rw [hv] at h; simp at h
      | ok r =>
        obtain ⟨value, l3⟩ := r
        rw [hv] at h
        simp only [Except.ok.injEq, Prod.mk.injEq] at h
        obtain ⟨ha, hl⟩ := h
        subst ha hl
        have hc1 := (parseName_ok hn).1
        have hc2 := expect_lcfg he
        obtain ⟨hc3, hvl⟩ := (valueKnotLocs fuel).1 l2 true value l3 hv
        have hc : lcfg l3 = lcfg l := by rw [hc3, hc2, hc1]
        have hl2 : lcfg l2 = lcfg l := by rw [hc2, hc1]
        rw [hl2] at hvl
        exact ⟨hc, by simp [argumentLocs, locOK_loc hc, (parseName_ok hn).2.1, hvl]⟩

theorem parseArguments_ok {fuel : Nat} {l : Lexer} {isConst : Bool}
    {args : List ArgumentNode} {l' : Lexer}
    (h : parseArguments fuel l isConst = .ok (args, l')) :
    lcfg l' = lcfg l ∧ args.all (argumentLocs (lcfg l)) = true := by
  unfold parseArguments at h
  dsimp only at h
  split at h
  · cases isConst with
    | true =>
      have hm := manyList_ok (c := lcfg l) (P := argumentLocs (lcfg l))
        (fun l0 a l0' hc0 h0 => by
          obtain ⟨hca, hPa⟩ := parseConstArgument_ok h0
          rw [hc0] at hca hPa
          exact ⟨hca, hPa⟩) rfl h
      exact ⟨hm.1, hm.2.1⟩
    | false =>
      have hm := manyList_ok (c := lcfg l) (P := argumentLocs (lcfg l))
        (fun l0 a l0' hc0 h0 => by
          obtain ⟨hca, hPa⟩ := parseArgument_ok h0
          rw [hc0] at hca hPa
          exact ⟨hca, hPa⟩) rfl h
      exact ⟨hm.1, hm.2.1⟩
  · simp only [Except.ok.injEq, Prod.mk.injEq] at h
    rw [← h.1, ← h.2]
    simp

theorem parseDirective_ok {fuel : Nat} {l : Lexer} {isConst : Bool}
    {d : DirectiveNode} {l' : Lexer}
    (h : parseDirective fuel l isConst = .ok (d, l')) :
    lcfg l' = lcfg l ∧ directiveLocs (lcfg l) d = true := by
  unfold parseDirective at h
  cases he : expect l .atSign with
  | error e => rw [he] at h; simp at h
  | ok p =>
    obtain ⟨tok, l1⟩ := p
    rw [he] at h
    dsimp only at h
    cases hn : parseName l1 with
    | error e => rw [hn] at h; simp at h
    | ok q =>
      obtain ⟨name, l2⟩ := q
      rw [hn] at h
      dsimp only at h
      cases ha : parseArguments fuel l2 isConst with
      | error e => rw [ha] at h; simp at h
      | ok r =>
        obtain ⟨args, l3⟩ := r
        rw [ha] at h
        simp only [Except.ok.injEq, Prod.mk.injEq] at h
        obtain ⟨hd, hl⟩ := h
        subst hd hl
        have hc1 := expect_lcfg he
        have hc2 := (parseName_ok hn).1
        obtain ⟨hc3, hargs⟩ := parseArguments_ok ha
        have hc : lcfg l3 = lcfg l := by rw [hc3, hc2, hc1]
        have hnm := (parseName_ok hn).2.1
        rw [hc1] at hnm
        have hl2 : lcfg l2 = lcfg l := by rw [hc2, hc1]
        rw [hl2] at hargs
        exact ⟨hc, by simp [directiveLocs, locOK_loc hc, hnm, hargs]⟩

theorem parseDirectivesLoop_ok :
    ∀ fuel l isConst acc out l',
      parseDirectivesLoop fuel l isConst acc = .ok (out, l') →
      acc.all (directiveLocs (lcfg l)) = true →
      lcfg l' = lcfg l ∧ out.all (directiveLocs (lcfg l)) = true := by
  intro fuel
  induction fuel with
  | zero => intro l isConst acc out l' h hacc; simp [parseDirectivesLoop] at h
  | succ fuel ih =>
    intro l isConst acc out l' h hacc
    rw [parseDirectivesLoop] at h
    split at h
    · cases hd : parseDirective fuel l isConst with
      | error e => rw [hd] at h; simp at h
      | ok p =>
        obtain ⟨d, l1⟩ := p
        rw [hd] at h
        obtain ⟨hc1, hdl⟩ := parseDirective_ok hd
        obtain ⟨hc2, hout⟩ := ih l1 isConst (acc ++ [d]) out l' h
          (by rw [hc1]; simp [hacc, hdl])
        rw [hc1] at hc2 hout
        exact ⟨hc2, hout⟩
    · simp only [Except.ok.injEq, Prod.mk.injEq] at h
      rw [← h.1, ← h.2]
      exact ⟨rfl, hacc⟩

theorem parseDirectives_ok {fuel : Nat} {l : Lexer} {isConst : Bool}
    {dirs : List DirectiveNode} {l' : Lexer}
    (h : parseDirectives fuel l isConst = .ok (dirs, l')) :
    lcfg l' = lcfg l ∧ dirs.all (directiveLocs (lcfg l)) = true := by
  unfold parseDirectives at h
  exact parseDirectivesLoop_ok fuel l isConst [] dirs l' h (by simp)

theorem parseTypeReference_ok :
    ∀ fuel l t l', parseTypeReference fuel l = .ok (t, l') →
      lcfg l' = lcfg l ∧ typeLocs (lcfg l) t = true := by
  intro fuel
  induction fuel with
  | zero => intro l t l' h; simp [parseTypeReference] at h
  | succ fuel ih =>
    intro l t l' h
    rw [parseTypeReference] at h
    split at h
    · rename_i l1 heq
      have hc1 : lcfg l1 = lcfg l := by
        have hs := skip_lcfg l .bracketL
        rw [heq] at hs
        exact hs
      cases hr : parseTypeReference fuel l1 with
      | error e => rw [hr] at h; simp at h
      | ok p =>
        obtain ⟨inner, l2⟩ := p
        rw [hr] at h
        dsimp only at h
        cases he : expect l2 .bracketR with
        | error e => rw [he] at h; simp at h
        | ok q =>
          obtain ⟨tok, l3⟩ := q
          rw [he] at h
          dsimp only at h
          obtain ⟨hc2, hin⟩ := ih l1 inner l2 hr
          have hc3 := expect_lcfg he
          have hl3 : lcfg l3 = lcfg l := by rw [hc3, hc2, hc1]
          have hin' : typeLocs (lcfg l) inner = true := by rw [← hc1]; exact hin
          split at h
          · rename_i l4 heq2
            have hl4 : lcfg l4 = lcfg l := by
              have hs := skip_lcfg l3 .bang
              rw [heq2] at hs
              rw [hs, hl3]
            simp only [Except.ok.injEq, Prod.mk.injEq] at h
            rw [← h.1, ← h.2]
            exact ⟨hl4, by simp [typeLocs, locOK_loc hl4, locOK_loc hl3, hin']⟩
          · rename_i l4 heq2
            have hl4 : lcfg l4 = lcfg l := by
              have hs := skip_lcfg l3 .bang
              rw [heq2] at hs
              rw [hs, hl3]
            simp only [Except.ok.injEq, Prod.mk.injEq] at h
            rw [← h.1, ← h.2]
            exact ⟨hl4, by simp [typeLocs, locOK_loc hl3, hin']⟩
    · rename_i l1 heq
      have hc1 : lcfg l1 = lcfg l := by
        have hs := skip_lcfg l .bracketL
        rw [heq] at hs
        exact hs
      cases hn : parseNamedType l1 with
      | error e => rw [hn] at h; simp at h
      | ok p =>
        obtain ⟨nt, l2⟩ := p
        rw [hn] at h
        dsimp only at h
        obtain ⟨hc2, hnl⟩ := parseNamedType_ok hn
        have hl2 : lcfg l2 = lcfg l := by rw [hc2, hc1]
        have hnl' : namedTypeLocs (lcfg l) nt = true := by rw [← hc1]; exact hnl
        split at h
        · rename_i l3 heq2
          have hl3 : lcfg l3 = lcfg l := by
            have hs := skip_lcfg l2 .bang
            rw [heq2] at hs
            rw [hs, hl2]
          simp only [Except.ok.injEq, Prod.mk.injEq] at h
          rw [← h.1, ← h.2]
          exact ⟨hl3, by simp [typeLocs, locOK_loc hl3, hnl']⟩
        · rename_i l3 heq2
          have hl3 : lcfg l3 = lcfg l := by
            have hs := skip_lcfg l2 .bang
            rw [heq2] at hs
            rw [hs, hl2]
          simp only [Except.ok.injEq, Prod.mk.injEq] at h
          rw [← h.1, ← h.2]
          exact ⟨hl3, by simp [typeLocs, hnl']⟩

theorem parseFragmentName_ok {l : Lexer} {n : NameNode} {l' : Lexer}
    (h : parseFragmentName l = .ok (n, l')) :
    lcfg l' = lcfg l ∧ nameLocs (lcfg l) n = true ∧ ¬(n.value = ("on")) := by
  unfold parseFragmentName at h
  split at h
  · simp at h
  · rename_i hno
    obtain ⟨hc, hnm, hval, _, _⟩ := parseName_ok h
    refine ⟨hc, hnm, ?_⟩
    rw [hval]
    cases hv : l.token.value with
    | none => simp
    | some v =>
      rw [hv] at hno
      simp only [Option.getD]
      intro hcontra
      exact hno (by simp [hcontra])

theorem parseInlineRest_shape {fuel : Nat} {l : Lexer} {tc : Option NamedTypeNode}
    {start : Token} {s : SelectionNode} {l' : Lexer}
    (h : parseInlineRest fuel l tc start = .ok (s, l')) :
    ∃ dirs ss lc, s = .inlineFragment tc dirs ss lc := by
  cases fuel with
  | zero => simp [parseInlineRest] at h
  | succ fuel =>
    rw [parseInlineRest] at h
    cases hd : parseDirectives fuel l false with
    | error e => rw [hd] at h; simp at h
    | ok p =>
      obtain ⟨dirs, l1⟩ := p
      rw [hd] at h
      dsimp only at h
      cases hs : parseSelectionSet fuel l1 with
      | error e => rw [hs] at h; simp at h
      | ok q =>
        obtain ⟨ss, l2⟩ := q
        rw [hs] at h
        simp only [Except.ok.injEq, Prod.mk.injEq] at h
        exact ⟨dirs, ss, loc l2 start, h.1.symm⟩

theorem selKnot_ok : ∀ fuel : Nat,
    (∀ l ss l', parseSelectionSet fuel l = .ok (ss, l') →
      lcfg l' = lcfg l ∧ selectionSetLocs (lcfg l) ss = true ∧ selectionSetFragOK ss = true)
  ∧ (∀ l acc out l', parseSelectionsLoop fuel l acc = .ok (out, l') →
      selectionListLocs (lcfg l) acc = true → selectionListFragOK acc = true →
      lcfg l' = lcfg l ∧ selectionListLocs (lcfg l) out = true ∧ selectionListFragOK out = true)
  ∧ (∀ l s l', parseSelection fuel l = .ok (s, l') →
      lcfg l' = lcfg l ∧ selectionLocs (lcfg l) s = true ∧ selectionFragOK s = true)
  ∧ (∀ l s l', parseField fuel l = .ok (s, l') →
      lcfg l' = lcfg l ∧ selectionLocs (lcfg l) s = true ∧ selectionFragOK s = true)
  ∧ (∀ l a n start s l', parseFieldRest fuel l a n start = .ok (s, l') →
      optAll (nameLocs (lcfg l)) a = true → nameLocs (lcfg l) n = true →
      lcfg l' = lcfg l ∧ selectionLocs (lcfg l) s = true ∧ selectionFragOK s = true)
  ∧ (∀ l s l', parseFragment fuel l = .ok (s, l') →
      lcfg l' = lcfg l ∧ selectionLocs (lcfg l) s = true ∧ selectionFragOK s = true)
  ∧ (∀ l tc start s l', parseInlineRest fuel l tc start = .ok (s, l') →
      optAll (namedTypeLocs (lcfg l)) tc = true →
      lcfg l' = lcfg l ∧ selectionLocs (lcfg l) s = true ∧ selectionFragOK s = true) := by
  intro fuel
  induction fuel with
  | zero =>
    refine ⟨?_, ?_, ?_, ?_, ?_, ?_, ?_⟩
    · intro l ss l' h; simp [parseSelectionSet] at h
    · intro l acc out l' h; simp [parseSelectionsLoop] at h
    · intro l s l' h; simp [parseSelection] at h
    · intro l s l' h; simp [parseField] at h
    · intro l a n start s l' h; simp [parseFieldRest] at h
    · intro l s l' h; simp [parseFragment] at h
    · intro l tc start s l' h; simp [parseInlineRest] at h
  | succ fuel ih =>
    obtain ⟨ihSet, ihLoop, ihSel, ihField, ihRest, ihFrag, ihInline⟩ := ih
    refine ⟨?_, ?_, ?_, ?_, ?_, ?_, ?_⟩
    · -- parseSelectionSet
      intro l ss l' h
      rw [parseSelectionSet] at h
      try dsimp only at h
      cases he : expect l .braceL with
      | error e => rw [he] at h; simp at h
      | ok p =>
        obtain ⟨tok, l1⟩ := p
        rw [he] at h
        try dsimp only at h
        cases hs : parseSelection fuel l1 with
        | error e => rw [hs] at h; simp at h
        | ok q =>
          obtain ⟨s, l2⟩ := q
          rw [hs] at h
          try dsimp only at h
          cases hl : parseSelectionsLoop fuel l2 [s] with
          | error e => rw [hl] at h; simp at h
          | ok r =>
            obtain ⟨sels, l3⟩ := r
            rw [hl] at h
            simp only [Except.ok.injEq, Prod.mk.injEq] at h
            obtain ⟨hss, hll⟩ := h
            subst hss hll
            have hc1 := expect_lcfg he
            obtain ⟨hc2, hsl, hsf⟩ := ihSel l1 s l2 hs
            obtain ⟨hc3, hall, hallf⟩ := ihLoop l2 [s] sels l3 hl
              (by rw [hc2]; simp [selectionListLocs, hsl])
              (by simp [selectionListFragOK, hsf])
            have hc : lcfg l3 = lcfg l := by rw [hc3, hc2, hc1]
            have hl2 : lcfg l2 = lcfg l := by rw [hc2, hc1]
            rw [hl2] at hall
            refine ⟨hc, ?_, ?_⟩
            · simp [selectionSetLocs, locOK_loc hc, hall]
            · simp [selectionSetFragOK, hallf]
    · -- parseSelectionsLoop
      intro l acc out l' h hacc haccf
      rw [parseSelectionsLoop] at h
      split at h
      · rename_i l1 heq
        simp only [Except.ok.injEq, Prod.mk.injEq] at h
        have hc := skip_lcfg l .braceR
        rw [heq] at hc
        rw [← h.1, ← h.2]
        exact ⟨hc, hacc, haccf⟩
      · rename_i l1 heq
        have hc1 : lcfg l1 = lcfg l := by
          have hs := skip_lcfg l .braceR
          rw [heq] at hs
          exact hs
        cases hv : parseSelection fuel l1 with
        | error e => rw [hv] at h; simp at h
        | ok p =>
          obtain ⟨s, l2⟩ := p
          rw [hv] at h
          obtain ⟨hc2, hsl, hsf⟩ := ihSel l1 s l2 hv
          have hl2 : lcfg l2 = lcfg l := by rw [hc2, hc1]
          rw [hc1] at hsl
          obtain ⟨hc3, hout, houtf⟩ := ihLoop l2 (acc ++ [s]) out l' h
            (by rw [hl2, selectionListLocs_append]; simp [selectionListLocs, hacc, hsl])
            (by rw [selectionListFragOK_append]; simp [selectionListFragOK, haccf, hsf])
          rw [hl2] at hc3 hout
          exact ⟨hc3, hout, houtf⟩
    · -- parseSelection
      intro l s l' h
      rw [parseSelection] at h
      split at h
      · exact ihFrag l s l' h
      · exact ihField l s l' h
    · -- parseField
      intro l s l' h
      rw [parseField] at h
      try dsimp only at h
      cases hn : parseName l with
      | error e => rw [hn] at h; simp at h
      | ok p =>
        obtain ⟨nameOrAlias, l1⟩ := p
        rw [hn] at h
        try dsimp only at h
        obtain ⟨hc1, hnl, _, _, _⟩ := parseName_ok hn
        split at h
        · rename_i l2 heq
          have hl2 : lcfg l2 = lcfg l := by
            have hs := skip_lcfg l1 .colon
            rw [heq] at hs
            rw [hs, hc1]
          cases hn2 : parseName l2 with
          | error e => rw [hn2] at h; simp at h
          | ok q =>
            obtain ⟨name, l3⟩ := q
            rw [hn2] at h
            obtain ⟨hc3, hnl2, _, _, _⟩ := parseName_ok hn2
            have hl3 : lcfg l3 = lcfg l := by rw [hc3, hl2]
            rw [hl2] at hnl2
            obtain ⟨hc4, hsl, hsf⟩ := ihRest l3 (some nameOrAlias) name l.token s l' h
              (by rw [hl3]; simp [optAll, hnl]) (by rw [hl3]; exact hnl2)
            rw [hl3] at hc4 hsl
            exact ⟨hc4, hsl, hsf⟩
        · rename_i l2 heq
          have hl2 : lcfg l2 = lcfg l := by
            have hs := skip_lcfg l1 .colon
            rw [heq] at hs
            rw [hs, hc1]
          obtain ⟨hc4, hsl, hsf⟩ := ihRest l2 none nameOrAlias l.token s l' h
            (by simp [optAll]) (by rw [hl2]; exact hnl)
          rw [hl2] at hc4 hsl
          exact ⟨hc4, hsl, hsf⟩
    · -- parseFieldRest
      intro l a n start s l' h ha hn
      rw [parseFieldRest] at h
      cases hargs : parseArguments fuel l false with
      | error e => rw [hargs] at h; simp at h
      | ok p =>
        obtain ⟨args, l1⟩ := p
        rw [hargs] at h
        try dsimp only at h
        obtain ⟨hc1, hal⟩ := parseArguments_ok hargs
        cases hdirs : parseDirectives fuel l1 false with
        | error e => rw [hdirs] at h; simp at h
        | ok q =>
          obtain ⟨dirs, l2⟩ := q
          rw [hdirs] at h
          try dsimp only at h
          obtain ⟨hc2, hdl⟩ := parseDirectives_ok hdirs
          have hl2 : lcfg l2 = lcfg l := by rw [hc2, hc1]
          rw [hc1] at hdl
          split at h
          · cases hss : parseSelectionSet fuel l2 with
            | error e => rw [hss] at h; simp at h
            | ok r =>
              obtain ⟨ss, l3⟩ := r
              rw [hss] at h
              simp only [Except.ok.injEq, Prod.mk.injEq] at h
              obtain ⟨hsv, hlv⟩ := h
              subst hsv hlv
              obtain ⟨hc3, hssl, hssf⟩ := ihSet l2 ss l3 hss
              have hl3 : lcfg l3 = lcfg l := by rw [hc3, hl2]
              rw [hl2] at hssl
              refine ⟨hl3, ?_, ?_⟩
              · simp [selectionLocs, locOK_loc hl3, ha, hn, hal, hdl, hssl]
              · simp [selectionFragOK, hssf]
          · simp only [Except.ok.injEq, Prod.mk.injEq] at h
            obtain ⟨hsv, hlv⟩ := h
            subst hsv hlv
            refine ⟨hl2, ?_, ?_⟩
            · simp [selectionLocs, locOK_loc hl2, ha, hn, hal, hdl]
            · simp [selectionFragOK]
    · -- parseFragment
      intro l s l' h
      rw [parseFragment] at h
      try dsimp only at h
      cases he : expect l .spread with
      | error e => rw [he] at h; simp at h
      | ok p =>
        obtain ⟨tok, l1⟩ := p
        rw [he] at h
        try dsimp only at h
        have hc1 := expect_lcfg he
        split at h
        · cases hfn : parseFragmentName l1 with
          | error e => rw [hfn] at h; simp at h
          | ok q =>
            obtain ⟨name, l2⟩ := q
            rw [hfn] at h
            try dsimp only at h
            obtain ⟨hc2, hnl, hnon⟩ := parseFragmentName_ok hfn
            cases hd : parseDirectives fuel l2 false with
            | error e => rw [hd] at h; simp at h
            | ok r =>
              obtain ⟨dirs, l3⟩ := r
              rw [hd] at h
              simp only [Except.ok.injEq, Prod.mk.injEq] at h
              obtain ⟨hsv, hlv⟩ := h
              subst hsv hlv
              obtain ⟨hc3, hdl⟩ := parseDirectives_ok hd
              have hl3 : lcfg l3 = lcfg l := by rw [hc3, hc2, hc1]
              have hl2 : lcfg l2 = lcfg l := by rw [hc2, hc1]
              rw [hc1] at hnl
              rw [hl2] at hdl
              refine ⟨hl3, ?_, ?_⟩
              · simp [selectionLocs, locOK_loc hl3, hnl, hdl]
              · simp [selectionFragOK, hnon]
        · split at h
          · rename_i hon
            cases hnt : parseNamedType l1.advance with
            | error e => rw [hnt] at h; simp at h
            | ok q =>
              obtain ⟨nt, l2⟩ := q
              rw [hnt] at h
              try dsimp only at h
              obtain ⟨hc2, hntl⟩ := parseNamedType_ok hnt
              have hl2 : lcfg l2 = lcfg l := by
                rw [hc2, lcfg_advance, hc1]
              have hadv : lcfg l1.advance = lcfg l := by rw [lcfg_advance, hc1]
              rw [hadv] at hntl
              obtain ⟨hc3, hsl, hsf⟩ := ihInline l2 (some nt) l.token s l' h
                (by rw [hl2]; simpa [optAll] using hntl)
              rw [hl2] at hc3 hsl
              exact ⟨hc3, hsl, hsf⟩
          · obtain ⟨hc3, hsl, hsf⟩ := ihInline l1 none l.token s l' h (by simp [optAll])
            rw [hc1] at hc3 hsl
            exact ⟨hc3, hsl, hsf⟩
    · -- parseInlineRest
      intro l tc start s l' h htc
      rw [parseInlineRest] at h
      cases hd : parseDirectives fuel l false with
      | error e => rw [hd] at h; simp at h
      | ok p =>
        obtain ⟨dirs, l1⟩ := p
        rw [hd] at h
        try dsimp only at h
        obtain ⟨hc1, hdl⟩ := parseDirectives_ok hd
        cases hss : parseSelectionSet fuel l1 with
        | error e => rw [hss] at h; simp at h
        | ok q =>
          obtain ⟨ss, l2⟩ := q
          rw [hss] at h
          simp only [Except.ok.injEq, Prod.mk.injEq] at h
          obtain ⟨hsv, hlv⟩ := h
          subst hsv hlv
          obtain ⟨hc2, hssl, hssf⟩ := ihSet l1 ss l2 hss
          have hl2 : lcfg l2 = lcfg l := by rw [hc2, hc1]
          rw [hc1] at hssl
          refine ⟨hl2, ?_, ?_⟩
          · simp [selectionLocs, locOK_loc hl2, htc, hdl, hssl]
          · simp [selectionFragOK, hssf]

theorem parseVariableDefinition_ok {fuel : Nat} {l : Lexer}
    {vd : VariableDefinitionNode} {l' : Lexer}
    (h : parseVariableDefinition fuel l = .ok (vd, l')) :
    lcfg l' = lcfg l ∧ variableDefinitionLocs (lcfg l) vd = true := by
  unfold parseVariableDefinition at h
  cases hv : parseVariable l with
  | error e => rw [hv] at h; simp at h
  | ok p =>
    obtain ⟨v, l1⟩ := p
    rw [hv] at h
    try dsimp only at h
    obtain ⟨hc1, hvl⟩ := parseVariable_ok hv
    cases he : expect l1 .colon with
    | error e => rw [he] at h; simp at h
    | ok q =>
      obtain ⟨tok, l2⟩ := q
      rw [he] at h
      try dsimp only at h
      have hc2 := expect_lcfg he
      have hl2 : lcfg l2 = lcfg l := by rw [hc2, hc1]
      cases ht : parseTypeReference fuel l2 with
      | error e => rw [ht] at h; simp at h
      | ok r =>
        obtain ⟨t, l3⟩ := r
        rw [ht] at h
        try dsimp only at h
        obtain ⟨hc3, htl⟩ := parseTypeReference_ok fuel l2 t l3 ht
        have hl3 : lcfg l3 = lcfg l := by rw [hc3, hl2]
        rw [hl2] at htl
        split at h
        · rename_i l4 heq
          have hl4 : lcfg l4 = lcfg l := by
            have hs := skip_lcfg l3 .equals
            rw [heq] at hs
            rw [hs, hl3]
          cases hdv : parseValueLiteral fuel l4 true with
          | error e => rw [hdv] at h; simp at h
          | ok sres =>
            obtain ⟨dv, l5⟩ := sres
            rw [hdv] at h
            simp only [Except.ok.injEq, Prod.mk.injEq] at h
            obtain ⟨hvd, hlv⟩ := h
            subst hvd hlv
            obtain ⟨hc5, hdvl⟩ := (valueKnotLocs fuel).1 l4 true dv l5 hdv
            have hl5 : lcfg l5 = lcfg l := by rw [hc5, hl4]
            rw [hl4] at hdvl
            refine ⟨hl5, ?_⟩
            simp [variableDefinitionLocs, locOK_loc hl5, hvl, htl, optAll, hdvl]
        · rename_i l4 heq
          have hl4 : lcfg l4 = lcfg l := by
            have hs := skip_lcfg l3 .equals
            rw [heq] at hs
            rw [hs, hl3]
          simp only [Except.ok.injEq, Prod.mk.injEq] at h
          rw [← h.1, ← h.2]
          refine ⟨hl4, ?_⟩
          simp [variableDefinitionLocs, locOK_loc hl4, hvl, htl, optAll]

theorem parseVariableDefinitions_ok {fuel : Nat} {l : Lexer}
    {vds : List VariableDefinitionNode} {l' : Lexer}
    (h : parseVariableDefinitions fuel l = .ok (vds, l')) :
    lcfg l' = lcfg l ∧ vds.all (variableDefinitionLocs (lcfg l)) = true := by
  unfold parseVariableDefinitions at h
  split at h
  · have hm := manyList_ok (c := lcfg l) (P := variableDefinitionLocs (lcfg l))
      (fun l0 a l0' hc0 h0 => by
        obtain ⟨hca, hPa⟩ := parseVariableDefinition_ok h0
        rw [hc0] at hca hPa
        exact ⟨hca, hPa⟩) rfl h
    exact ⟨hm.1, hm.2.1⟩
  · simp only [Except.ok.injEq, Prod.mk.injEq] at h
    rw [← h.1, ← h.2]
    simp

theorem parseOperationDefinition_ok {fuel : Nat} {l : Lexer}
    {o : OperationDefinitionNode} {l' : Lexer}
    (h : parseOperationDefinition fuel l = .ok (o, l')) :
    lcfg l' = lcfg l ∧ operationDefinitionLocs (lcfg l) o = true
      ∧ selectionSetFragOK o.selectionSet = true
      ∧ (o.operation = ("query") ∨ o.operation = ("mutation") ∨ o.operation = ("subscription"))
      ∧ (l.token.kind = .braceL →
          o.operation = ("query") ∧ o.name = none
            ∧ o.variableDefinitions = [] ∧ o.directives = []) := by
  unfold parseOperationDefinition at h
  try dsimp only at h
  split at h
  · rename_i hpeek
    cases hss : parseSelectionSet fuel l with
    | error e => rw [hss] at h; simp at h
    | ok p =>
      obtain ⟨ss, l1⟩ := p
      rw [hss] at h
      simp only [Except.ok.injEq, Prod.mk.injEq] at h
      obtain ⟨ho, hl⟩ := h
      subst ho hl
      obtain ⟨hc1, hssl, hssf⟩ := (selKnot_ok fuel).1 l ss l1 hss
      refine ⟨hc1, ?_, hssf, Or.inl rfl, fun _ => ⟨rfl, rfl, rfl, rfl⟩⟩
      simp [operationDefinitionLocs, locOK_loc hc1, optAll, hssl]
  · rename_i hpeek
    have hnb : ¬(l.token.kind = .braceL) := by
      intro hk
      exact hpeek (by simp [peek, hk])
    cases hop : parseOperationType l with
    | error e => rw [hop] at h; simp at h
    | ok p =>
      obtain ⟨operation, l1⟩ := p
      rw [hop] at h
      try dsimp only at h
      obtain ⟨hc1, hopv⟩ := parseOperationType_ok hop
      cases hname : (if peek l1 .name then
              match parseName l1 with
              | .error e => .error e
              | .ok (n, l2) => .ok (some n, l2)
            else .ok (none, l1) : PR (Option NameNode)) with
      | error e => rw [hname] at h; simp at h
      | ok q =>
        obtain ⟨name, l2⟩ := q
        rw [hname] at h
        try dsimp only at h
        have hnm : lcfg l2 = lcfg l1 ∧ optAll (nameLocs (lcfg l1)) name = true := by
          split at hname
          · cases hn2 : parseName l1 with
            | error e => rw [hn2] at hname; simp at hname
            | ok r =>
              obtain ⟨n, l3⟩ := r
              rw [hn2] at hname
              simp only [Except.ok.injEq, Prod.mk.injEq] at hname
              rw [← hname.1, ← hname.2]
              exact ⟨(parseName_ok hn2).1, by simp [optAll, (parseName_ok hn2).2.1]⟩
          · simp only [Except.ok.injEq, Prod.mk.injEq] at hname
            rw [← hname.1, ← hname.2]
            exact ⟨rfl, by simp [optAll]⟩
        obtain ⟨hc2, hnml⟩ := hnm
        have hl2 : lcfg l2 = lcfg l := by rw [hc2, hc1]
        rw [hc1] at hnml
        cases hvds : parseVariableDefinitions fuel l2 with
        | error e => rw [hvds] at h; simp at h
        | ok r =>
          obtain ⟨vds, l3⟩ := r
          rw [hvds] at h
          try dsimp only at h
          obtain ⟨hc3, hvdl⟩ := parseVariableDefinitions_ok hvds
          have hl3 : lcfg l3 = lcfg l := by rw [hc3, hl2]
          rw [hl2] at hvdl
          cases hdirs : parseDirectives fuel l3 false with
          | error e => rw [hdirs] at h; simp at h
          | ok sres =>
            obtain ⟨dirs, l4⟩ := sres
            rw [hdirs] at h
            try dsimp only at h
            obtain ⟨hc4, hdl⟩ := parseDirectives_ok hdirs
            have hl4 : lcfg l4 = lcfg l := by rw [hc4, hl3]
            rw [hl3] at hdl
            cases hss : parseSelectionSet fuel l4 with
            | error e => rw [hss] at h; simp at h
            | ok tres =>
              obtain ⟨ss, l5⟩ := tres
              rw [hss] at h
              simp only [Except.ok.injEq, Prod.mk.injEq] at h
              obtain ⟨ho, hl⟩ := h
              subst ho hl
              obtain ⟨hc5, hssl, hssf⟩ := (selKnot_ok fuel).1 l4 ss l5 hss
              have hl5 : lcfg l5 = lcfg l := by rw [hc5, hl4]
              rw [hl4] at hssl
              refine ⟨hl5, ?_, hssf, hopv, fun hk => absurd hk hnb⟩
              simp [operationDefinitionLocs, locOK_loc hl5, hnml, hvdl, hdl, hssl]

theorem parseFragmentDefinition_ok {fuel : Nat} {l : Lexer}
    {f : FragmentDefinitionNode} {l' : Lexer}
    (h : parseFragmentDefinition fuel l = .ok (f, l')) :
    lcfg l' = lcfg l ∧ fragmentDefinitionLocs (lcfg l) f = true
      ∧ ¬(f.name.value = ("on")) ∧ selectionSetFragOK f.selectionSet = true := by
  unfold parseFragmentDefinition at h
  cases hk : expectKeyword l ("fragment") with
  | error e => rw [hk] at h; simp at h
  | ok p =>
    obtain ⟨tok, l1⟩ := p
    rw [hk] at h
    try dsimp only at h
    have hc1 := expectKeyword_lcfg hk
    cases hfn : parseFragmentName l1 with
    | error e => rw [hfn] at h; simp at h
    | ok q =>
      obtain ⟨name, l2⟩ := q
      rw [hfn] at h
      try dsimp only at h
      obtain ⟨hc2, hnl, hnon⟩ := parseFragmentName_ok hfn
      have hl2 : lcfg l2 = lcfg l := by rw [hc2, hc1]
      rw [hc1] at hnl
      cases hon : expectKeyword l2 ("on") with
      | error e => rw [hon] at h; simp at h
      | ok r =>
        obtain ⟨tok2, l3⟩ := r
        rw [hon] at h
        try dsimp only at h
        have hc3 := expectKeyword_lcfg hon
        have hl3 : lcfg l3 = lcfg l := by rw [hc3, hl2]
        cases hnt : parseNamedType l3 with
        | error e => rw [hnt] at h; simp at h
        | ok sres =>
          obtain ⟨tc, l4⟩ := sres
          rw [hnt] at h
          try dsimp only at h
          obtain ⟨hc4, hntl⟩ := parseNamedType_ok hnt
          have hl4 : lcfg l4 = lcfg l := by rw [hc4, hl3]
          rw [hl3] at hntl
          cases hdirs : parseDirectives fuel l4 false with
          | error e => rw [hdirs] at h; simp at h
          | ok tres =>
            obtain ⟨dirs, l5⟩ := tres
            rw [hdirs] at h
            try dsimp only at h
            obtain ⟨hc5, hdl⟩ := parseDirectives_ok hdirs
            have hl5 : lcfg l5 = lcfg l := by rw [hc5, hl4]
            rw [hl4] at hdl
            cases hss : parseSelectionSet fuel l5 with
            | error e => rw [hss] at h; simp at h
            | ok ures =>
              obtain ⟨ss, l6⟩ := ures
              rw [hss] at h
              simp only [Except.ok.injEq, Prod.mk.injEq] at h
              obtain ⟨hf, hl⟩ := h
              subst hf hl
              obtain ⟨hc6, hssl, hssf⟩ := (selKnot_ok fuel).1 l5 ss l6 hss
              have hl6 : lcfg l6 = lcfg l := by rw [hc6, hl5]
              rw [hl5] at hssl
              refine ⟨hl6, ?_, hnon, hssf⟩
              simp [fragmentDefinitionLocs, locOK_loc hl6, hnl, hntl, hdl, hssl]

theorem parseDescription_ok {l : Lexer} {desc : Option StringValueNode} {l1 : Lexer}
    (h : parseDescription l = (desc, l1)) :
    lcfg l1 = lcfg l ∧ optAll (stringValueLocs (lcfg l)) desc = true := by
  unfold parseDescription at h
  split at h
  · simp only [parseStringLiteral, Prod.mk.injEq] at h
    rw [← h.1, ← h.2]
    exact ⟨lcfg_advance l, by simp [optAll, stringValueLocs, locOK_loc (lcfg_advance l)]⟩
  · simp only [Prod.mk.injEq] at h
    rw [← h.1, ← h.2]
    exact ⟨rfl, by simp [optAll]⟩

theorem parseOperationTypeDefinition_ok {l : Lexer}
    {o : OperationTypeDefinitionNode} {l' : Lexer}
    (h : parseOperationTypeDefinition l = .ok (o, l')) :
    lcfg l' = lcfg l ∧ operationTypeDefinitionLocs (lcfg l) o = true := by
  unfold parseOperationTypeDefinition at h
  cases hop : parseOperationType l with
  | error e => rw [hop] at h; simp at h
  | ok p =>
    obtain ⟨operation, l1⟩ := p
    rw [hop] at h
    try dsimp only at h
    obtain ⟨hc1, _⟩ := parseOperationType_ok hop
    cases he : expect l1 .colon with
    | error e => rw [he] at h; simp at h
    | ok q =>
      obtain ⟨tok, l2⟩ := q
      rw [he] at h
      try dsimp only at h
      have hl2 : lcfg l2 = lcfg l := by rw [expect_lcfg he, hc1]
      cases hnt : parseNamedType l2 with
      | error e => rw [hnt] at h; simp at h
      | ok r =>
        obtain ⟨t, l3⟩ := r
        rw [hnt] at h
        simp only [Except.ok.injEq, Prod.mk.injEq] at h
        obtain ⟨ho, hl⟩ := h
        subst ho hl
        obtain ⟨hc3, hntl⟩ := parseNamedType_ok hnt
        have hl3 : lcfg l3 = lcfg l := by rw [hc3, hl2]
        rw [hl2] at hntl
        exact ⟨hl3, by simp [operationTypeDefinitionLocs, locOK_loc hl3, hntl]⟩

theorem parseSchemaDefinition_ok {fuel : Nat} {l : Lexer}
    {s : SchemaDefinitionNode} {l' : Lexer}
    (h : parseSchemaDefinition fuel l = .ok (s, l')) :
    lcfg l' = lcfg l ∧ schemaDefinitionLocs (lcfg l) s = true := by
  unfold parseSchemaDefinition at h
  cases hk : expectKeyword l ("schema") with
  | error e => rw [hk] at h; simp at h
  | ok p =>
    obtain ⟨tok, l1⟩ := p
    rw [hk] at h
    try dsimp only at h
    have hc1 := expectKeyword_lcfg hk
    cases hd : parseDirectives fuel l1 true with
    | error e => rw [hd] at h; simp at h
    | ok q =>
      obtain ⟨dirs, l2⟩ := q
      rw [hd] at h
      try dsimp only at h
      obtain ⟨hc2, hdl⟩ := parseDirectives_ok hd
      have hl2 : lcfg l2 = lcfg l := by rw [hc2, hc1]
      rw [hc1] at hdl
      cases hm : manyList fuel l2 .braceL parseOperationTypeDefinition .braceR with
      | error e => rw [hm] at h; simp at h
      | ok r =>
        obtain ⟨ops, l3⟩ := r
        rw [hm] at h
        simp only [Except.ok.injEq, Prod.mk.injEq] at h
        obtain ⟨hs, hl⟩ := h
        subst hs hl
        have hml := manyList_ok (c := lcfg l) (P := operationTypeDefinitionLocs (lcfg l))
          (fun l0 a l0' hc0 h0 => by
            obtain ⟨hca, hPa⟩ := parseOperationTypeDefinition_ok h0
            rw [hc0] at hca hPa
            exact ⟨hca, hPa⟩) hl2 hm
        exact ⟨hml.1, by simp [schemaDefinitionLocs, locOK_loc hml.1, hdl, hml.2.1]⟩

theorem parseScalarTypeDefinition_ok {fuel : Nat} {l : Lexer}
    {s : ScalarTypeDefinitionNode} {l' : Lexer}
    (h : parseScalarTypeDefinition fuel l = .ok (s, l')) :
    lcfg l' = lcfg l ∧ scalarTypeDefinitionLocs (lcfg l) s = true := by
  unfold parseScalarTypeDefinition at h
  cases hdesc : parseDescription l with
  | mk description l1 =>
    rw [hdesc] at h
    try dsimp only at h
    obtain ⟨hc1, hdescl⟩ := parseDescription_ok hdesc
    cases hk : expectKeyword l1 ("scalar") with
    | error e => rw [hk] at h; simp at h
    | ok p =>
      obtain ⟨tok, l2⟩ := p
      rw [hk] at h
      try dsimp only at h
      have hl2 : lcfg l2 = lcfg l := by rw [expectKeyword_lcfg hk, hc1]
      cases hn : parseName l2 with
      | error e => rw [hn] at h; simp at h
      | ok q =>
        obtain ⟨name, l3⟩ := q
        rw [hn] at h
        try dsimp only at h
        have hl3 : lcfg l3 = lcfg l := by rw [(parseName_ok hn).1, hl2]
        have hnl : nameLocs (lcfg l) name = true := by
          have := (parseName_ok hn).2.1
          rw [hl2] at this
          exact this
        cases hd : parseDirectives fuel l3 true with
        | error e => rw [hd] at h; simp at h
        | ok r =>
          obtain ⟨dirs, l4⟩ := r
          rw [hd] at h
          simp only [Except.ok.injEq, Prod.mk.injEq] at h
          obtain ⟨hs, hl⟩ := h
          subst hs hl
          obtain ⟨hc4, hdl⟩ := parseDirectives_ok hd
          have hl4 : lcfg l4 = lcfg l := by rw [hc4, hl3]
          rw [hl3] at hdl
          exact ⟨hl4, by simp [scalarTypeDefinitionLocs, locOK_loc hl4, hdescl, hnl, hdl]⟩

theorem parseImplementsLoop_ok :
    ∀ fuel l acc out l', parseImplementsLoop fuel l acc = .ok (out, l') →
      acc.all (namedTypeLocs (lcfg l)) = true →
      lcfg l' = lcfg l ∧ out.all (namedTypeLocs (lcfg l)) = true := by
  intro fuel
  induction fuel with
  | zero => intro l acc out l' h hacc; simp [parseImplementsLoop] at h
  | succ fuel ih =>
    intro l acc out l' h hacc
    rw [parseImplementsLoop] at h
    cases hn : parseNamedType l with
    | error e => rw [hn] at h; simp at h
    | ok p =>
      obtain ⟨nt, l1⟩ := p
      rw [hn] at h
      try dsimp only at h
      obtain ⟨hc1, hntl⟩ := parseNamedType_ok hn
      split at h
      · obtain ⟨hc2, hout⟩ := ih l1 (acc ++ [nt]) out l' h
          (by rw [hc1]; simp [hacc, hntl])
        rw [hc1] at hc2 hout
        exact ⟨hc2, hout⟩
      · simp only [Except.ok.injEq, Prod.mk.injEq] at h
        rw [← h.1, ← h.2]
        exact ⟨hc1, by simp [hacc, hntl]⟩

theorem parseImplementsInterfaces_ok {fuel : Nat} {l : Lexer}
    {ifaces : List NamedTypeNode} {l' : Lexer}
    (h : parseImplementsInterfaces fuel l = .ok (ifaces, l')) :
    lcfg l' = lcfg l ∧ ifaces.all (namedTypeLocs (lcfg l)) = true := by
  unfold parseImplementsInterfaces at h
  split at h
  · obtain ⟨hc, hout⟩ := parseImplementsLoop_ok fuel l.advance [] ifaces l' h (by simp)
    rw [lcfg_advance] at hc hout
    exact ⟨hc, hout⟩
  · simp only [Except.ok.injEq, Prod.mk.injEq] at h
    rw [← h.1, ← h.2]
    simp

theorem parseInputValueDef_ok {fuel : Nat} {l : Lexer}
    {i : InputValueDefinitionNode} {l' : Lexer}
    (h : parseInputValueDef fuel l = .ok (i, l')) :
    lcfg l' = lcfg l ∧ inputValueDefinitionLocs (lcfg l) i = true := by
  unfold parseInputValueDef at h
  cases hdesc : parseDescription l with
  | mk description l1 =>
    rw [hdesc] at h
    try dsimp only at h
    obtain ⟨hc1, hdescl⟩ := parseDescription_ok hdesc
    cases hn : parseName l1 with
    | error e => rw [hn] at h; simp at h
    | ok p =>
      obtain ⟨name, l2⟩ := p
      rw [hn] at h
      try dsimp only at h
      have hl2 : lcfg l2 = lcfg l := by rw [(parseName_ok hn).1, hc1]
      have hnl : nameLocs (lcfg l) name = true := by
        have := (parseName_ok hn).2.1
        rw [hc1] at this
        exact this
      cases he : expect l2 .colon with
      | error e => rw [he] at h; simp at h
      | ok q =>
        obtain ⟨tok, l3⟩ := q
        rw [he] at h
        try dsimp only at h
        have hl3 : lcfg l3 = lcfg l := by rw [expect_lcfg he, hl2]
        cases ht : parseTypeReference fuel l3 with
        | error e => rw [ht] at h; simp at h
        | ok r =>
          obtain ⟨t, l4⟩ := r
          rw [ht] at h
          try dsimp only at h
          obtain ⟨hc4, htl⟩ := parseTypeReference_ok fuel l3 t l4 ht
          have hl4 : lcfg l4 = lcfg l := by rw [hc4, hl3]
          rw [hl3] at htl
          split at h
          · rename_i l5 heq
            have hl5 : lcfg l5 = lcfg l := by
              have hs := skip_lcfg l4 .equals
              rw [heq] at hs
              rw [hs, hl4]
            cases hdv : parseConstValue fuel l5 with
            | error e => rw [hdv] at h; simp at h
            | ok sres =>
              obtain ⟨dv, l6⟩ := sres
              rw [hdv] at h
              try dsimp only at h
              obtain ⟨hc6, hdvl⟩ := (valueKnotLocs fuel).1 l5 true dv l6 hdv
              have hl6 : lcfg l6 = lcfg l := by rw [hc6, hl5]
              rw [hl5] at hdvl
              cases hd : parseDirectives fuel l6 true with
              | error e => rw [hd] at h; simp at h
              | ok tres =>
                obtain ⟨dirs, l7⟩ := tres
                rw [hd] at h
                simp only [Except.ok.injEq, Prod.mk.injEq] at h
                obtain ⟨hi, hl⟩ := h
                subst hi hl
                obtain ⟨hc7, hdl⟩ := parseDirectives_ok hd
                have hl7 : lcfg l7 = lcfg l := by rw [hc7, hl6]
                rw [hl6] at hdl
                exact ⟨hl7, by simp [inputValueDefinitionLocs, locOK_loc hl7, hdescl,
                  hnl, htl, optAll_some, hdvl, hdl]⟩
          · rename_i l5 heq
            have hl5 : lcfg l5 = lcfg l := by
              have hs := skip_lcfg l4 .equals
              rw [heq] at hs
              rw [hs, hl4]
            cases hd : parseDirectives fuel l5 true with
            | error e => rw [hd] at h; simp at h
            | ok tres =>
              obtain ⟨dirs, l6⟩ := tres
              rw [hd] at h
              simp only [Except.ok.injEq, Prod.mk.injEq] at h
              obtain ⟨hi, hl⟩ := h
              subst hi hl
              obtain ⟨hc6, hdl⟩ := parseDirectives_ok hd
              have hl6 : lcfg l6 = lcfg l := by rw [hc6, hl5]
              rw [hl5] at hdl
              exact ⟨hl6, by simp [inputValueDefinitionLocs, locOK_loc hl6, hdescl,
                hnl, htl, optAll_none, hdl]⟩

theorem parseArgumentDefs_ok {fuel : Nat} {l : Lexer}
    {args : List InputValueDefinitionNode} {l' : Lexer}
    (h : parseArgumentDefs fuel l = .ok (args, l')) :
    lcfg l' = lcfg l ∧ args.all (inputValueDefinitionLocs (lcfg l)) = true := by
  unfold parseArgumentDefs at h
  split at h
  · have hm := manyList_ok (c := lcfg l) (P := inputValueDefinitionLocs (lcfg l))
      (fun l0 a l0' hc0 h0 => by
        obtain ⟨hca, hPa⟩ := parseInputValueDef_ok h0
        rw [hc0] at hca hPa
        exact ⟨hca, hPa⟩) rfl h
    exact ⟨hm.1, hm.2.1⟩
  · simp only [Except.ok.injEq, Prod.mk.injEq] at h
    rw [← h.1, ← h.2]
    simp

theorem parseFieldDefinition_ok {fuel : Nat} {l : Lexer}
    {f : FieldDefinitionNode} {l' : Lexer}
    (h : parseFieldDefinition fuel l = .ok (f, l')) :
    lcfg l' = lcfg l ∧ fieldDefinitionLocs (lcfg l) f = true := by
  unfold parseFieldDefinition at h
  cases hdesc : parseDescription l with
  | mk description l1 =>
    rw [hdesc] at h
    try dsimp only at h
    obtain ⟨hc1, hdescl⟩ := parseDescription_ok hdesc
    cases hn : parseName l1 with
    | error e => rw [hn] at h; simp at h
    | ok p =>
      obtain ⟨name, l2⟩ := p
      rw [hn] at h
      try dsimp only at h
      have hl2 : lcfg l2 = lcfg l := by rw [(parseName_ok hn).1, hc1]
      have hnl : nameLocs (lcfg l) name = true := by
        have := (parseName_ok hn).2.1
        rw [hc1] at this
        exact this
      cases ha : parseArgumentDefs fuel l2 with
      | error e => rw [ha] at h; simp at h
      | ok q =>
        obtain ⟨args, l3⟩ := q
        rw [ha] at h
        try dsimp only at h
        obtain ⟨hc3, hal⟩ := parseArgumentDefs_ok ha
        have hl3 : lcfg l3 = lcfg l := by rw [hc3, hl2]
        rw [hl2] at hal
        cases he : expect l3 .colon with
        | error e => rw [he] at h; simp at h
        | ok r =>
          obtain ⟨tok, l4⟩ := r
          rw [he] at h
          try dsimp only at h
          have hl4 : lcfg l4 = lcfg l := by rw [expect_lcfg he, hl3]
          cases ht : parseTypeReference fuel l4 with
          | error e => rw [ht] at h; simp at h
          | ok sres =>
            obtain ⟨t, l5⟩ := sres
            rw [ht] at h
            try dsimp only at h
            obtain ⟨hc5, htl⟩ := parseTypeReference_ok fuel l4 t l5 ht
            have hl5 : lcfg l5 = lcfg l := by rw [hc5, hl4]
            rw [hl4] at htl
            cases hd : parseDirectives fuel l5 true with
            | error e => rw [hd] at h; simp at h
            | ok tres =>
              obtain ⟨dirs, l6⟩ := tres
              rw [hd] at h
              simp only [Except.ok.injEq, Prod.mk.injEq] at h
              obtain ⟨hf, hl⟩ := h
              subst hf hl
              obtain ⟨hc6, hdl⟩ := parseDirectives_ok hd
              have hl6 : lcfg l6 = lcfg l := by rw [hc6, hl5]
              rw [hl5] at hdl
              exact ⟨hl6, by simp [fieldDefinitionLocs, locOK_loc hl6, hdescl, hnl,
                hal, htl, hdl]⟩

theorem parseFieldDefinitions_ok {fuel : Nat} {l : Lexer}
    {fields : List FieldDefinitionNode} {l' : Lexer}
    (h : parseFieldDefinitions fuel l = .ok (fields, l')) :
    lcfg l' = lcfg l ∧ fields.all (fieldDefinitionLocs (lcfg l)) = true := by
  unfold parseFieldDefinitions at h
  have hm := manyList_ok (c := lcfg l) (P := fieldDefinitionLocs (lcfg l))
    (fun l0 a l0' hc0 h0 => by
      obtain ⟨hca, hPa⟩ := parseFieldDefinition_ok h0
      rw [hc0] at hca hPa
      exact ⟨hca, hPa⟩) rfl h
  exact ⟨hm.1, hm.2.1⟩

theorem parseObjectTypeDefinition_ok {fuel : Nat} {l : Lexer}
    {o : ObjectTypeDefinitionNode} {l' : Lexer}
    (h : parseObjectTypeDefinition fuel l = .ok (o, l')) :
    lcfg l' = lcfg l ∧ objectTypeDefinitionLocs (lcfg l) o = true := by
  unfold parseObjectTypeDefinition at h
  cases hdesc : parseDescription l with
  | mk description l1 =>
    rw [hdesc] at h
    try dsimp only at h
    obtain ⟨hc1, hdescl⟩ := parseDescription_ok hdesc
    cases hk : expectKeyword l1 ("type") with
    | error e => rw [hk] at h; simp at h
    | ok p =>
      obtain ⟨tok, l2⟩ := p
      rw [hk] at h
      try dsimp only at h
      have hl2 : lcfg l2 = lcfg l := by rw [expectKeyword_lcfg hk, hc1]
      cases hn : parseName l2 with
      | error e => rw [hn] at h; simp at h
      | ok q =>
        obtain ⟨name, l3⟩ := q
        rw [hn] at h
        try dsimp only at h
        have hl3 : lcfg l3 = lcfg l := by rw [(parseName_ok hn).1, hl2]
        have hnl : nameLocs (lcfg l) name = true := by
          have := (parseName_ok hn).2.1
          rw [hl2] at this
          exact this
        cases hi : parseImplementsInterfaces fuel l3 with
        | error e => rw [hi] at h; simp at h
        | ok r =>
          obtain ⟨interfaces, l4⟩ := r
          rw [hi] at h
          try dsimp only at h
          obtain ⟨hc4, hil⟩ := parseImplementsInterfaces_ok hi
          have hl4 : lcfg l4 = lcfg l := by rw [hc4, hl3]
          rw [hl3] at hil
          cases hd : parseDirectives fuel l4 true with
          | error e => rw [hd] at h; simp at h
          | ok sres =>
            obtain ⟨dirs, l5⟩ := sres
            rw [hd] at h
            try dsimp only at h
            obtain ⟨hc5, hdl⟩ := parseDirectives_ok hd
            have hl5 : lcfg l5 = lcfg l := by rw [hc5, hl4]
            rw [hl4] at hdl
            cases hf : parseFieldDefinitions fuel l5 with
            | error e => rw [hf] at h; simp at h
            | ok tres =>
              obtain ⟨fields, l6⟩ := tres
              rw [hf] at h
              simp only [Except.ok.injEq, Prod.mk.injEq] at h
              obtain ⟨ho, hl⟩ := h
              subst ho hl
              obtain ⟨hc6, hfl⟩ := parseFieldDefinitions_ok hf
              have hl6 : lcfg l6 = lcfg l := by rw [hc6, hl5]
              rw [hl5] at hfl
              exact ⟨hl6, by simp [objectTypeDefinitionLocs, locOK_loc hl6, hdescl,
                hnl, hil, hdl, hfl]⟩

theorem parseInterfaceTypeDefinition_ok {fuel : Nat} {l : Lexer}
    {i : InterfaceTypeDefinitionNode} {l' : Lexer}
    (h : parseInterfaceTypeDefinition fuel l = .ok (i, l')) :
    lcfg l' = lcfg l ∧ interfaceTypeDefinitionLocs (lcfg l) i = true := by
  unfold parseInterfaceTypeDefinition at h
  cases hdesc : parseDescription l with
  | mk description l1 =>
    rw [hdesc] at h
    try dsimp only at h
    obtain ⟨hc1, hdescl⟩ := parseDescription_ok hdesc
    cases hk : expectKeyword l1 ("interface") with
    | error e => rw [hk] at h; simp at h
    | ok p =>
      obtain ⟨tok, l2⟩ := p
      rw [hk] at h
      try dsimp only at h
      have hl2 : lcfg l2 = lcfg l := by rw [expectKeyword_lcfg hk, hc1]
      cases hn : parseName l2 with
      | error e => rw [hn] at h; simp at h
      | ok q =>
        obtain ⟨name, l3⟩ := q
        rw [hn] at h
        try dsimp only at h
        have hl3 : lcfg l3 = lcfg l := by rw [(parseName_ok hn).1, hl2]
        have hnl : nameLocs (lcfg l) name = true := by
          have := (parseName_ok hn).2.1
          rw [hl2] at this
          exact this
        cases hd : parseDirectives fuel l3 true with
        | error e => rw [hd] at h; simp at h
        | ok r =>
          obtain ⟨dirs, l4⟩ := r
          rw [hd] at h
          try dsimp only at h
          obtain ⟨hc4, hdl⟩ := parseDirectives_ok hd
          have hl4 : lcfg l4 = lcfg l := by rw [hc4, hl3]
          rw [hl3] at hdl
          cases hf : parseFieldDefinitions fuel l4 with
          | error e => rw [hf] at h; simp at h
          | ok sres =>
            obtain ⟨fields, l5⟩ := sres
            rw [hf] at h
            simp only [Except.ok.injEq, Prod.mk.injEq] at h
            obtain ⟨hi2, hl⟩ := h
            subst hi2 hl
            obtain ⟨hc5, hfl⟩ := parseFieldDefinitions_ok hf
            have hl5 : lcfg l5 = lcfg l := by rw [hc5, hl4]
            rw [hl4] at hfl
            exact ⟨hl5, by simp [interfaceTypeDefinitionLocs, locOK_loc hl5, hdescl,
              hnl, hdl, hfl]⟩

theorem parseUnionMembersLoop_ok :
    ∀ fuel l acc out l', parseUnionMembersLoop fuel l acc = .ok (out, l') →
      acc.all (namedTypeLocs (lcfg l)) = true →
      lcfg l' = lcfg l ∧ out.all (namedTypeLocs (lcfg l)) = true := by
  intro fuel
  induction fuel with
  | zero => intro l acc out l' h hacc; simp [parseUnionMembersLoop] at h
  | succ fuel ih =>
    intro l acc out l' h hacc
    rw [parseUnionMembersLoop] at h
    cases hn : parseNamedType l with
    | error e => rw [hn] at h; simp at h
    | ok p =>
      obtain ⟨nt, l1⟩ := p
      rw [hn] at h
      try dsimp only at h
      obtain ⟨hc1, hntl⟩ := parseNamedType_ok hn
      split at h
      · rename_i l2 heq
        have hl2 : lcfg l2 = lcfg l := by
          have hs := skip_lcfg l1 .pipe
          rw [heq] at hs
          rw [hs, hc1]
        obtain ⟨hc3, hout⟩ := ih l2 (acc ++ [nt]) out l' h
          (by rw [hl2]; simp [hacc, hntl])
        rw [hl2] at hc3 hout
        exact ⟨hc3, hout⟩
      · rename_i l2 heq
        have hl2 : lcfg l2 = lcfg l := by
          have hs := skip_lcfg l1 .pipe
          rw [heq] at hs
          rw [hs, hc1]
        simp only [Except.ok.injEq, Prod.mk.injEq] at h
        rw [← h.1, ← h.2]
        exact ⟨hl2, by simp [hacc, hntl]⟩

theorem parseUnionMembers_ok {fuel : Nat} {l : Lexer}
    {types : List NamedTypeNode} {l' : Lexer}
    (h : parseUnionMembers fuel l = .ok (types, l')) :
    lcfg l' = lcfg l ∧ types.all (namedTypeLocs (lcfg l)) = true := by
  unfold parseUnionMembers at h
  have hs := skip_lcfg l .pipe
  obtain ⟨hc, hout⟩ := parseUnionMembersLoop_ok fuel (skip l .pipe).2 [] types l' h (by simp)
  rw [hs] at hc hout
  exact ⟨hc, hout⟩

theorem parseUnionTypeDefinition_ok {fuel : Nat} {l : Lexer}
    {u : UnionTypeDefinitionNode} {l' : Lexer}
    (h : parseUnionTypeDefinition fuel l = .ok (u, l')) :
    lcfg l' = lcfg l ∧ unionTypeDefinitionLocs (lcfg l) u = true := by
  unfold parseUnionTypeDefinition at h
  cases hdesc : parseDescription l with
  | mk description l1 =>
    rw [hdesc] at h
    try dsimp only at h
    obtain ⟨hc1, hdescl⟩ := parseDescription_ok hdesc
    cases hk : expectKeyword l1 ("union") with
    | error e => rw [hk] at h; simp at h
    | ok p =>
      obtain ⟨tok, l2⟩ := p
      rw [hk] at h
      try dsimp only at h
      have hl2 : lcfg l2 = lcfg l := by rw [expectKeyword_lcfg hk, hc1]
      cases hn : parseName l2 with
      | error e => rw [hn] at h; simp at h
      | ok q =>
        obtain ⟨name, l3⟩ := q
        rw [hn] at h
        try dsimp only at h
        have hl3 : lcfg l3 = lcfg l := by rw [(parseName_ok hn).1, hl2]
        have hnl : nameLocs (lcfg l) name = true := by
          have := (parseName_ok hn).2.1
          rw [hl2] at this
          exact this
        cases hd : parseDirectives fuel l3 true with
        | error e => rw [hd] at h; simp at h
        | ok r =>
          obtain ⟨dirs, l4⟩ := r
          rw [hd] at h
          try dsimp only at h
          obtain ⟨hc4, hdl⟩ := parseDirectives_ok hd
          have hl4 : lcfg l4 = lcfg l := by rw [hc4, hl3]
          rw [hl3] at hdl
          cases he : expect l4 .equals with
          | error e => rw [he] at h; simp at h
          | ok sres =>
            obtain ⟨tok2, l5⟩ := sres
            rw [he] at h
            try dsimp only at h
            have hl5 : lcfg l5 = lcfg l := by rw [expect_lcfg he, hl4]
            cases hm : parseUnionMembers fuel l5 with
            | error e => rw [hm] at h; simp at h
            | ok tres =>
              obtain ⟨types, l6⟩ := tres
              rw [hm] at h
              simp only [Except.ok.injEq, Prod.mk.injEq] at h
              obtain ⟨hu, hl⟩ := h
              subst hu hl
              obtain ⟨hc6, hml⟩ := parseUnionMembers_ok hm
              have hl6 : lcfg l6 = lcfg l := by rw [hc6, hl5]
              rw [hl5] at hml
              exact ⟨hl6, by simp [unionTypeDefinitionLocs, locOK_loc hl6, hdescl,
                hnl, hdl, hml]⟩

theorem parseEnumValueDefinition_ok {fuel : Nat} {l : Lexer}
    {e : EnumValueDefinitionNode} {l' : Lexer}
    (h : parseEnumValueDefinition fuel l = .ok (e, l')) :
    lcfg l' = lcfg l ∧ enumValueDefinitionLocs (lcfg l) e = true := by
  unfold parseEnumValueDefinition at h
  cases hdesc : parseDescription l with
  | mk description l1 =>
    rw [hdesc] at h
    try dsimp only at h
    obtain ⟨hc1, hdescl⟩ := parseDescription_ok hdesc
    cases hn : parseName l1 with
    | error e2 => rw [hn] at h; simp at h
    | ok p =>
      obtain ⟨name, l2⟩ := p
      rw [hn] at h
      try dsimp only at h
      have hl2 : lcfg l2 = lcfg l := by rw [(parseName_ok hn).1, hc1]
      have hnl : nameLocs (lcfg l) name = true := by
        have := (parseName_ok hn).2.1
        rw [hc1] at this
        exact this
      cases hd : parseDirectives fuel l2 true with
      | error e2 => rw [hd] at h; simp at h
      | ok r =>
        obtain ⟨dirs, l3⟩ := r
        rw [hd] at h
        simp only [Except.ok.injEq, Prod.mk.injEq] at h
        obtain ⟨he2, hl⟩ := h
        subst he2 hl
        obtain ⟨hc3, hdl⟩ := parseDirectives_ok hd
        have hl3 : lcfg l3 = lcfg l := by rw [hc3, hl2]
        rw [hl2] at hdl
        exact ⟨hl3, by simp [enumValueDefinitionLocs, locOK_loc hl3, hdescl, hnl, hdl]⟩

theorem parseEnumTypeDefinition_ok {fuel : Nat} {l : Lexer}
    {e : EnumTypeDefinitionNode} {l' : Lexer}
    (h : parseEnumTypeDefinition fuel l = .ok (e, l')) :
    lcfg l' = lcfg l ∧ enumTypeDefinitionLocs (lcfg l) e = true := by
  unfold parseEnumTypeDefinition at h
  cases hdesc : parseDescription l with
  | mk description l1 =>
    rw [hdesc] at h
    try dsimp only at h
    obtain ⟨hc1, hdescl⟩ := parseDescription_ok hdesc
    cases hk : expectKeyword l1 ("enum") with
    | error e2 => rw [hk] at h; simp at h
    | ok p =>
      obtain ⟨tok, l2⟩ := p
      rw [hk] at h
      try dsimp only at h
      have hl2 : lcfg l2 = lcfg l := by rw [expectKeyword_lcfg hk, hc1]
      cases hn : parseName l2 with
      | error e2 => rw [hn] at h; simp at h
      | ok q =>
        obtain ⟨name, l3⟩ := q
        rw [hn] at h
        try dsimp only at h
        have hl3 : lcfg l3 = lcfg l := by rw [(parseName_ok hn).1, hl2]
        have hnl : nameLocs (lcfg l) name = true := by
          have := (parseName_ok hn).2.1
          rw [hl2] at this
          exact this
        cases hd : parseDirectives fuel l3 true with
        | error e2 => rw [hd] at h; simp at h
        | ok r =>
          obtain ⟨dirs, l4⟩ := r
          rw [hd] at h
          try dsimp only at h
          obtain ⟨hc4, hdl⟩ := parseDirectives_ok hd
          have hl4 : lcfg l4 = lcfg l := by rw [hc4, hl3]
          rw [hl3] at hdl
          cases hm : manyList fuel l4 .braceL (parseEnumValueDefinition fuel) .braceR with
          | error e2 => rw [hm] at h; simp at h
          | ok sres =>
            obtain ⟨values, l5⟩ := sres
            rw [hm] at h
            simp only [Except.ok.injEq, Prod.mk.injEq] at h
            obtain ⟨he2, hl⟩ := h
            subst he2 hl
            have hml := manyList_ok (c := lcfg l) (P := enumValueDefinitionLocs (lcfg l))
              (fun l0 a l0' hc0 h0 => by
                obtain ⟨hca, hPa⟩ := parseEnumValueDefinition_ok h0
                rw [hc0] at hca hPa
                exact ⟨hca, hPa⟩) hl4 hm
            exact ⟨hml.1, by simp [enumTypeDefinitionLocs, locOK_loc hml.1, hdescl,
              hnl, hdl, hml.2.1]⟩

theorem parseInputObjectTypeDefinition_ok {fuel : Nat} {l : Lexer}
    {i : InputObjectTypeDefinitionNode} {l' : Lexer}
    (h : parseInputObjectTypeDefinition fuel l = .ok (i, l')) :
    lcfg l' = lcfg l ∧ inputObjectTypeDefinitionLocs (lcfg l) i = true := by
  unfold parseInputObjectTypeDefinition at h
  cases hdesc : parseDescription l with
  | mk description l1 =>
    rw [hdesc] at h
    try dsimp only at h
    obtain ⟨hc1, hdescl⟩ := parseDescription_ok hdesc
    cases hk : expectKeyword l1 ("input") with
    | error e2 => rw [hk] at h; simp at h
    | ok p =>
      obtain ⟨tok, l2⟩ := p
      rw [hk] at h
      try dsimp only at h
      have hl2 : lcfg l2 = lcfg l := by rw [expectKeyword_lcfg hk, hc1]
      cases hn : parseName l2 with
      | error e2 => rw [hn] at h; simp at h
      | ok q =>
        obtain ⟨name, l3⟩ := q
        rw [hn] at h
        try dsimp only at h
        have hl3 : lcfg l3 = lcfg l := by rw [(parseName_ok hn).1, hl2]
        have hnl : nameLocs (lcfg l) name = true := by
          have := (parseName_ok hn).2.1
          rw [hl2] at this
          exact this
        cases hd : parseDirectives fuel l3 true with
        | error e2 => rw [hd] at h; simp at h
        | ok r =>
          obtain ⟨dirs, l4⟩ := r
          rw [hd] at h
          try dsimp only at h
          obtain ⟨hc4, hdl⟩ := parseDirectives_ok hd
          have hl4 : lcfg l4 = lcfg l := by rw [hc4, hl3]
          rw [hl3] at hdl
          cases hm : manyList fuel l4 .braceL (parseInputValueDef fuel) .braceR with
          | error e2 => rw [hm] at h; simp at h
          | ok sres =>
            obtain ⟨fields, l5⟩ := sres
            rw [hm] at h
            simp only [Except.ok.injEq, Prod.mk.injEq] at h
            obtain ⟨hi2, hl⟩ := h
            subst hi2 hl
            have hml := manyList_ok (c := lcfg l) (P := inputValueDefinitionLocs (lcfg l))
              (fun l0 a l0' hc0 h0 => by
                obtain ⟨hca, hPa⟩ := parseInputValueDef_ok h0
                rw [hc0] at hca hPa
                exact ⟨hca, hPa⟩) hl4 hm
            exact ⟨hml.1, by simp [inputObjectTypeDefinitionLocs, locOK_loc hml.1,
              hdescl, hnl, hdl, hml.2.1]⟩

theorem parseObjectTypeExtension_ok {fuel : Nat} {l : Lexer}
    {e : ObjectTypeExtensionNode} {l' : Lexer}
    (h : parseObjectTypeExtension fuel l = .ok (e, l')) :
    lcfg l' = lcfg l ∧ objectTypeExtensionLocs (lcfg l) e = true
      ∧ (e.interfaces ≠ [] ∨ e.directives ≠ [] ∨ e.fields ≠ []) := by
  unfold parseObjectTypeExtension at h
  cases hk : expectKeyword l ("extend") with
  | error e2 => rw [hk] at h; simp at h
  | ok p =>
    obtain ⟨tok, l1⟩ := p
    rw [hk] at h
    try dsimp only at h
    have hc1 := expectKeyword_lcfg hk
    cases hk2 : expectKeyword l1 ("type") with
    | error e2 => rw [hk2] at h; simp at h
    | ok q =>
      obtain ⟨tok2, l2⟩ := q
      rw [hk2] at h
      try dsimp only at h
      have hl2 : lcfg l2 = lcfg l := by rw [expectKeyword_lcfg hk2, hc1]
      cases hn : parseName l2 with
      | error e2 => rw [hn] at h; simp at h
      | ok r =>
        obtain ⟨name, l3⟩ := r
        rw [hn] at h
        try dsimp only at h
        have hl3 : lcfg l3 = lcfg l := by rw [(parseName_ok hn).1, hl2]
        have hnl : nameLocs (lcfg l) name = true := by
          have := (parseName_ok hn).2.1
          rw [hl2] at this
          exact this
        cases hi : parseImplementsInterfaces fuel l3 with
        | error e2 => rw [hi] at h; simp at h
        | ok sres =>
          obtain ⟨interfaces, l4⟩ := sres
          rw [hi] at h
          try dsimp only at h
          obtain ⟨hc4, hil⟩ := parseImplementsInterfaces_ok hi
          have hl4 : lcfg l4 = lcfg l := by rw [hc4, hl3]
          rw [hl3] at hil
          cases hd : parseDirectives fuel l4 true with
          | error e2 => rw [hd] at h; simp at h
          | ok tres =>
            obtain ⟨dirs, l5⟩ := tres
            rw [hd] at h
            try dsimp only at h
            obtain ⟨hc5, hdl⟩ := parseDirectives_ok hd
            have hl5 : lcfg l5 = lcfg l := by rw [hc5, hl4]
            rw [hl4] at hdl
            cases hf : (if peek l5 .braceL then parseFieldDefinitions fuel l5
                else .ok ([], l5) : PR (List FieldDefinitionNode)) with
            | error e2 => rw [hf] at h; simp at h
            | ok ures =>
              obtain ⟨fields, l6⟩ := ures
              rw [hf] at h
              try dsimp only at h
              have hfp : lcfg l6 = lcfg l ∧ fields.all (fieldDefinitionLocs (lcfg l)) = true := by
                split at hf
                · obtain ⟨hcf, hfl⟩ := parseFieldDefinitions_ok hf
                  rw [hl5] at hcf hfl
                  exact ⟨hcf, hfl⟩
                · simp only [Except.ok.injEq, Prod.mk.injEq] at hf
                  rw [← hf.1, ← hf.2]
                  exact ⟨hl5, by simp⟩
              obtain ⟨hl6, hfl⟩ := hfp
              split at h
              · simp at h
              · rename_i hcond
                simp only [Except.ok.injEq, Prod.mk.injEq] at h
                obtain ⟨he2, hl⟩ := h
                subst he2 hl
                refine ⟨hl6, ?_, ?_⟩
                · simp [objectTypeExtensionLocs, locOK_loc hl6, hnl, hil, hdl, hfl]
                · simp only [Bool.and_eq_true, beq_iff_eq, not_and] at hcond
                  by_contra hall
                  push_neg at hall
                  obtain ⟨h1, h2, h3⟩ := hall
                  simp only [ne_eq, not_not] at h1 h2 h3
                  subst h1 h2 h3
                  simp at hcond

theorem parseTypeExtension_ok {fuel : Nat} {l : Lexer}
    {t : TypeSystemDefinitionNode} {l' : Lexer}
    (h : parseTypeExtension fuel l = .ok (t, l')) :
    lcfg l' = lcfg l ∧ typeSystemDefinitionLocs (lcfg l) t = true := by
  unfold parseTypeExtension at h
  try dsimp only at h
  split at h
  · cases he : parseObjectTypeExtension fuel l with
    | error e => rw [he] at h; simp at h
    | ok p =>
      obtain ⟨ext, l1⟩ := p
      rw [he] at h
      simp only [Except.ok.injEq, Prod.mk.injEq] at h
      obtain ⟨ht, hl⟩ := h
      subst ht hl
      obtain ⟨hc, hel, _⟩ := parseObjectTypeExtension_ok he
      exact ⟨hc, by simp [typeSystemDefinitionLocs, hel]⟩
  · simp at h

theorem parseDirectiveLocation_ok {l : Lexer} {n : NameNode} {l' : Lexer}
    (h : parseDirectiveLocation l = .ok (n, l')) :
    lcfg l' = lcfg l ∧ nameLocs (lcfg l) n = true := by
  unfold parseDirectiveLocation at h
  cases hn : parseName l with
  | error e => rw [hn] at h; simp at h
  | ok p =>
    obtain ⟨name, l1⟩ := p
    rw [hn] at h
    try dsimp only at h
    split at h
    · simp only [Except.ok.injEq, Prod.mk.injEq] at h
      rw [← h.1, ← h.2]
      exact ⟨(parseName_ok hn).1, (parseName_ok hn).2.1⟩
    · simp at h

theorem parseDirectiveLocationsLoop_ok :
    ∀ fuel l acc out l', parseDirectiveLocationsLoop fuel l acc = .ok (out, l') →
      acc.all (nameLocs (lcfg l)) = true →
      lcfg l' = lcfg l ∧ out.all (nameLocs (lcfg l)) = true := by
  intro fuel
  induction fuel with
  | zero => intro l acc out l' h hacc; simp [parseDirectiveLocationsLoop] at h
  | succ fuel ih =>
    intro l acc out l' h hacc
    rw [parseDirectiveLocationsLoop] at h
    cases hn : parseDirectiveLocation l with
    | error e => rw [hn] at h; simp at h
    | ok p =>
      obtain ⟨n, l1⟩ := p
      rw [hn] at h
      try dsimp only at h
      obtain ⟨hc1, hnl⟩ := parseDirectiveLocation_ok hn
      split at h
      · rename_i l2 heq
        have hl2 : lcfg l2 = lcfg l := by
          have hs := skip_lcfg l1 .pipe
          rw [heq] at hs
          rw [hs, hc1]
        obtain ⟨hc3, hout⟩ := ih l2 (acc ++ [n]) out l' h
          (by rw [hl2]; simp [hacc, hnl])
        rw [hl2] at hc3 hout
        exact ⟨hc3, hout⟩
      · rename_i l2 heq
        have hl2 : lcfg l2 = lcfg l := by
          have hs := skip_lcfg l1 .pipe
          rw [heq] at hs
          rw [hs, hc1]
        simp only [Except.ok.injEq, Prod.mk.injEq] at h
        rw [← h.1, ← h.2]
        exact ⟨hl2, by simp [hacc, hnl]⟩

theorem parseDirectiveLocations_ok {fuel : Nat} {l : Lexer}
    {locations : List NameNode} {l' : Lexer}
    (h : parseDirectiveLocations fuel l = .ok (locations, l')) :
    lcfg l' = lcfg l ∧ locations.all (nameLocs (lcfg l)) = true := by
  unfold parseDirectiveLocations at h
  have hs := skip_lcfg l .pipe
  obtain ⟨hc, hout⟩ := parseDirectiveLocationsLoop_ok fuel (skip l .pipe).2 [] locations l' h (by simp)
  rw [hs] at hc hout
  exact ⟨hc, hout⟩

theorem parseDirectiveDefinition_ok {fuel : Nat} {l : Lexer}
    {d : DirectiveDefinitionNode} {l' : Lexer}
    (h : parseDirectiveDefinition fuel l = .ok (d, l')) :
    lcfg l' = lcfg l ∧ directiveDefinitionLocs (lcfg l) d = true := by
  unfold parseDirectiveDefinition at h
  cases hdesc : parseDescription l with
  | mk description l1 =>
    rw [hdesc] at h
    try dsimp only at h
    obtain ⟨hc1, hdescl⟩ := parseDescription_ok hdesc
    cases hk : expectKeyword l1 ("directive") with
    | error e => rw [hk] at h; simp at h
    | ok p =>
      obtain ⟨tok, l2⟩ := p
      rw [hk] at h
      try dsimp only at h
      have hl2 : lcfg l2 = lcfg l := by rw [expectKeyword_lcfg hk, hc1]
      cases he : expect l2 .atSign with
      | error e => rw [he] at h; simp at h
      | ok q =>
        obtain ⟨tok2, l3⟩ := q
        rw [he] at h
        try dsimp only at h
        have hl3 : lcfg l3 = lcfg l := by rw [expect_lcfg he, hl2]
        cases hn : parseName l3 with
        | error e => rw [hn] at h; simp at h
        | ok r =>
          obtain ⟨name, l4⟩ := r
          rw [hn] at h
          try dsimp only at h
          have hl4 : lcfg l4 = lcfg l := by rw [(parseName_ok hn).1, hl3]
          have hnl : nameLocs (lcfg l) name = true := by
            have := (parseName_ok hn).2.1
            rw [hl3] at this
            exact this
          cases ha : parseArgumentDefs fuel l4 with
          | error e => rw [ha] at h; simp at h
          | ok sres =>
            obtain ⟨args, l5⟩ := sres
            rw [ha] at h
            try dsimp only at h
            obtain ⟨hc5, hal⟩ := parseArgumentDefs_ok ha
            have hl5 : lcfg l5 = lcfg l := by rw [hc5, hl4]
            rw [hl4] at hal
            cases hon : expectKeyword l5 ("on") with
            | error e => rw [hon] at h; simp at h
            | ok tres =>
              obtain ⟨tok3, l6⟩ := tres
              rw [hon] at h
              try dsimp only at h
              have hl6 : lcfg l6 = lcfg l := by rw [expectKeyword_lcfg hon, hl5]
              cases hloc : parseDirectiveLocations fuel l6 with
              | error e => rw [hloc] at h; simp at h
              | ok ures =>
                obtain ⟨locations, l7⟩ := ures
                rw [hloc] at h
                simp only [Except.ok.injEq, Prod.mk.injEq] at h
                obtain ⟨hd2, hl⟩ := h
                subst hd2 hl
                obtain ⟨hc7, hll⟩ := parseDirectiveLocations_ok hloc
                have hl7 : lcfg l7 = lcfg l := by rw [hc7, hl6]
                rw [hl6] at hll
                exact ⟨hl7, by simp [directiveDefinitionLocs, locOK_loc hl7, hdescl,
                  hnl, hal, hll]⟩

theorem parseTypeSystemDefinitionKeyword_ok {fuel : Nat} {l : Lexer} {kt : Token}
    {t : TypeSystemDefinitionNode} {l' : Lexer}
    (h : parseTypeSystemDefinitionKeyword fuel l kt = .ok (t, l')) :
    lcfg l' = lcfg l ∧ typeSystemDefinitionLocs (lcfg l) t = true := by
  unfold parseTypeSystemDefinitionKeyword at h
  split at h
  case isTrue =>
    split at h
    · cases hs : parseSchemaDefinition fuel l with
      | error e => rw [hs] at h; simp at h
      | ok p =>
        obtain ⟨s, l1⟩ := p
        rw [hs] at h
        simp only [Except.ok.injEq, Prod.mk.injEq] at h
        rw [← h.1, ← h.2]
        obtain ⟨hc, hl⟩ := parseSchemaDefinition_ok hs
        exact ⟨hc, by simp [typeSystemDefinitionLocs, hl]⟩
    · split at h
      · cases hs : parseScalarTypeDefinition fuel l with
        | error e => rw [hs] at h; simp at h
        | ok p =>
          obtain ⟨s, l1⟩ := p
          rw [hs] at h
          simp only [Except.ok.injEq, Prod.mk.injEq] at h
          rw [← h.1, ← h.2]
          obtain ⟨hc, hl⟩ := parseScalarTypeDefinition_ok hs
          exact ⟨hc, by simp [typeSystemDefinitionLocs, hl]⟩
      · split at h
        · cases hs : parseObjectTypeDefinition fuel l with
          | error e => rw [hs] at h; simp at h
          | ok p =>
            obtain ⟨s, l1⟩ := p
            rw [hs] at h
            simp only [Except.ok.injEq, Prod.mk.injEq] at h
            rw [← h.1, ← h.2]
            obtain ⟨hc, hl⟩ := parseObjectTypeDefinition_ok hs
            exact ⟨hc, by simp [typeSystemDefinitionLocs, hl]⟩
        · split at h
          · cases hs : parseInterfaceTypeDefinition fuel l with
            | error e => rw [hs] at h; simp at h
            | ok p =>
              obtain ⟨s, l1⟩ := p
              rw [hs] at h
              simp only [Except.ok.injEq, Prod.mk.injEq] at h
              rw [← h.1, ← h.2]
              obtain ⟨hc, hl⟩ := parseInterfaceTypeDefinition_ok hs
              exact ⟨hc, by simp [typeSystemDefinitionLocs, hl]⟩
          · split at h
            · cases hs : parseUnionTypeDefinition fuel l with
              | error e => rw [hs] at h; simp at h
              | ok p =>
                obtain ⟨s, l1⟩ := p
                rw [hs] at h
                simp only [Except.ok.injEq, Prod.mk.injEq] at h
                rw [← h.1, ← h.2]
                obtain ⟨hc, hl⟩ := parseUnionTypeDefinition_ok hs
                exact ⟨hc, by simp [typeSystemDefinitionLocs, hl]⟩
            · split at h
              · cases hs : parseEnumTypeDefinition fuel l with
                | error e => rw [hs] at h; simp at h
                | ok p =>
                  obtain ⟨s, l1⟩ := p
                  rw [hs] at h
                  simp only [Except.ok.injEq, Prod.mk.injEq] at h
                  rw [← h.1, ← h.2]
                  obtain ⟨hc, hl⟩ := parseEnumTypeDefinition_ok hs
                  exact ⟨hc, by simp [typeSystemDefinitionLocs, hl]⟩
              · split at h
                · cases hs : parseInputObjectTypeDefinition fuel l with
                  | error e => rw [hs] at h; simp at h
                  | ok p =>
                    obtain ⟨s, l1⟩ := p
                    rw [hs] at h
                    simp only [Except.ok.injEq, Prod.mk.injEq] at h
                    rw [← h.1, ← h.2]
                    obtain ⟨hc, hl⟩ := parseInputObjectTypeDefinition_ok hs
                    exact ⟨hc, by simp [typeSystemDefinitionLocs, hl]⟩
                · split at h
                  · exact parseTypeExtension_ok h
                  · split at h
                    · cases hs : parseDirectiveDefinition fuel l with
                      | error e => rw [hs] at h; simp at h
                      | ok p =>
                        obtain ⟨s, l1⟩ := p
                        rw [hs] at h
                        simp only [Except.ok.injEq, Prod.mk.injEq] at h
                        rw [← h.1, ← h.2]
                        obtain ⟨hc, hl⟩ := parseDirectiveDefinition_ok hs
                        exact ⟨hc, by simp [typeSystemDefinitionLocs, hl]⟩
                    · simp at h
  case isFalse => simp at h

theorem parseTypeSystemDefinition_ok {fuel : Nat} {l : Lexer}
    {t : TypeSystemDefinitionNode} {l' : Lexer}
    (h : parseTypeSystemDefinition fuel l = .ok (t, l')) :
    lcfg l' = lcfg l ∧ typeSystemDefinitionLocs (lcfg l) t = true := by
  unfold parseTypeSystemDefinition at h
  exact parseTypeSystemDefinitionKeyword_ok h

theorem parseDefinition_ok {fuel : Nat} {l : Lexer} {d : DefinitionNode} {l' : Lexer}
    (h : parseDefinition fuel l = .ok (d, l')) :
    lcfg l' = lcfg l ∧ definitionLocs (lcfg l) d = true ∧ definitionFragOK d = true
      ∧ definitionOpOK d = true
      ∧ (l.token.kind = .braceL →
          ∃ o, d = .operationDef o ∧ o.operation = ("query") ∧ o.name = none
            ∧ o.variableDefinitions = [] ∧ o.directives = []) := by
  unfold parseDefinition at h
  split at h
  · rename_i hpeek
    cases ho : parseOperationDefinition fuel l with
    | error e => rw [ho] at h; simp at h
    | ok p =>
      obtain ⟨o, l1⟩ := p
      rw [ho] at h
      simp only [Except.ok.injEq, Prod.mk.injEq] at h
      obtain ⟨hd, hl⟩ := h
      subst hd hl
      obtain ⟨hc, hol, hof, hops, hsh⟩ := parseOperationDefinition_ok ho
      have hbl : l.token.kind = .braceL := by simpa [peek] using hpeek
      refine ⟨hc, by simp [definitionLocs, hol], by simp [definitionFragOK, hof], ?_, ?_⟩
      · rcases hops with h1 | h1 | h1 <;> simp [definitionOpOK, h1]
      · intro _
        exact ⟨o, rfl, hsh hbl⟩
  · rename_i hnb
    have hnbl : ¬(l.token.kind = .braceL) := by
      intro hk
      exact hnb (by simp [peek, hk])
    split at h
    · split at h
      · cases ho : parseOperationDefinition fuel l with
        | error e => rw [ho] at h; simp at h
        | ok p =>
          obtain ⟨o, l1⟩ := p
          rw [ho] at h
          simp only [Except.ok.injEq, Prod.mk.injEq] at h
          obtain ⟨hd, hl⟩ := h
          subst hd hl
          obtain ⟨hc, hol, hof, hops, _⟩ := parseOperationDefinition_ok ho
          refine ⟨hc, by simp [definitionLocs, hol], by simp [definitionFragOK, hof], ?_,
            fun hk => absurd hk hnbl⟩
          rcases hops with h1 | h1 | h1 <;> simp [definitionOpOK, h1]
      · split at h
        · cases hf : parseFragmentDefinition fuel l with
          | error e => rw [hf] at h; simp at h
          | ok p =>
            obtain ⟨f, l1⟩ := p
            rw [hf] at h
            simp only [Except.ok.injEq, Prod.mk.injEq] at h
            obtain ⟨hd, hl⟩ := h
            subst hd hl
            obtain ⟨hc, hfl, hnon, hff⟩ := parseFragmentDefinition_ok hf
            refine ⟨hc, by simp [definitionLocs, hfl], ?_,
              by simp [definitionOpOK], fun hk => absurd hk hnbl⟩
            simp [definitionFragOK, hff]
            intro hcontra
            exact absurd hcontra hnon
        · split at h
          · cases ht : parseTypeSystemDefinition fuel l with
            | error e => rw [ht] at h; simp at h
            | ok p =>
              obtain ⟨t, l1⟩ := p
              rw [ht] at h
              simp only [Except.ok.injEq, Prod.mk.injEq] at h
              obtain ⟨hd, hl⟩ := h
              subst hd hl
              obtain ⟨hc, htl⟩ := parseTypeSystemDefinition_ok ht
              exact ⟨hc, by simp [definitionLocs, htl], by simp [definitionFragOK],
                by simp [definitionOpOK], fun hk => absurd hk hnbl⟩
          · simp at h
    · split at h
      · cases ht : parseTypeSystemDefinition fuel l with
        | error e => rw [ht] at h; simp at h
        | ok p =>
          obtain ⟨t, l1⟩ := p
          rw [ht] at h
          simp only [Except.ok.injEq, Prod.mk.injEq] at h
          obtain ⟨hd, hl⟩ := h
          subst hd hl
          obtain ⟨hc, htl⟩ := parseTypeSystemDefinition_ok ht
          exact ⟨hc, by simp [definitionLocs, htl], by simp [definitionFragOK],
            by simp [definitionOpOK], fun hk => absurd hk hnbl⟩
      · simp at h

theorem parseDocumentLoop_ok :
    ∀ fuel l acc out l', parseDocumentLoop fuel l acc = .ok (out, l') →
      acc.all (definitionLocs (lcfg l)) = true →
      acc.all definitionFragOK = true →
      acc.all definitionOpOK = true →
      lcfg l' = lcfg l ∧ out.all (definitionLocs (lcfg l)) = true
        ∧ out.all definitionFragOK = true ∧ out.all definitionOpOK = true
        ∧ ∃ d tail l1 f0, parseDefinition f0 l = .ok (d, l1) ∧ out = acc ++ d :: tail := by
  intro fuel
  induction fuel with
  | zero => intro l acc out l' h _ _ _; simp [parseDocumentLoop] at h
  | succ fuel ih =>
    intro l acc out l' h haccL haccF haccO
    rw [parseDocumentLoop] at h
    cases hd : parseDefinition fuel l with
    | error e => rw [hd] at h; simp at h
    | ok p =>
      obtain ⟨d, l1⟩ := p
      rw [hd] at h
      try dsimp only at h
      obtain ⟨hc1, hdl, hdf, hdo, _⟩ := parseDefinition_ok hd
      split at h
      · rename_i l2 heq
        have hl2 : lcfg l2 = lcfg l := by
          have hs := skip_lcfg l1 .eof
          rw [heq] at hs
          rw [hs, hc1]
        simp only [Except.ok.injEq, Prod.mk.injEq] at h
        rw [← h.1, ← h.2]
        exact ⟨hl2, by simp [haccL, hdl], by simp [haccF, hdf], by simp [haccO, hdo],
          d, [], l1, fuel, hd, rfl⟩
      · rename_i l2 heq
        have hl2 : lcfg l2 = lcfg l := by
          have hs := skip_lcfg l1 .eof
          rw [heq] at hs
          rw [hs, hc1]
        obtain ⟨hc3, houtL, houtF, houtO, d2, tail, l3, f0, hd2, hout⟩ :=
          ih l2 (acc ++ [d]) out l' h
            (by rw [hl2]; simp [haccL, hdl]) (by simp [haccF, hdf]) (by simp [haccO, hdo])
        rw [hl2] at hc3 houtL
        refine ⟨hc3, houtL, houtF, houtO, d, d2 :: tail, l1, fuel, hd, ?_⟩
        rw [hout]
        simp

theorem parseDocument_ok {fuel : Nat} {l : Lexer} {doc : DocumentNode} {l' : Lexer}
    (h : parseDocument fuel l = .ok (doc, l')) :
    lcfg l' = lcfg l ∧ documentLocs (lcfg l) doc = true
      ∧ documentFragOK doc = true
      ∧ doc.definitions.all definitionOpOK = true
      ∧ doc.definitions ≠ []
      ∧ ∃ d tail l1 f0, parseDefinition f0 l.advance = .ok (d, l1)
          ∧ doc.definitions = d :: tail := by
  unfold parseDocument at h
  try dsimp only at h
  cases he : expect l .sof with
  | error e => rw [he] at h; simp at h
  | ok p =>
    obtain ⟨tok, l1⟩ := p
    rw [he] at h
    try dsimp only at h
    cases hl : parseDocumentLoop fuel l1 [] with
    | error e => rw [hl] at h; simp at h
    | ok q =>
      obtain ⟨definitions, l2⟩ := q
      rw [hl] at h
      simp only [Except.ok.injEq, Prod.mk.injEq] at h
      obtain ⟨hdoc, hll⟩ := h
      subst hdoc hll
      have hc1 := expect_lcfg he
      obtain ⟨hc2, hdl, hdf, hdo, d, tail, l3, f0, hd, hout⟩ :=
        parseDocumentLoop_ok fuel l1 [] definitions l2 hl (by simp) (by simp) (by simp)
      have hc : lcfg l2 = lcfg l := by rw [hc2, hc1]
      rw [hc1] at hdl
      have hadv : l1 = l.advance := (expect_ok he).2.1
      subst hadv
      refine ⟨hc, ?_, ?_, hdo, ?_, d, tail, l3, f0, hd, by simpa using hout⟩
      · simp [documentLocs, locOK_loc hc, hdl]
      · simp [documentFragOK, hdf]
      · rw [hout]; simp

theorem createLexer_ok {so : Source} {opts : ParseOptions} {lexer : Lexer}
    (h : createLexer so opts = .ok lexer) :
    lcfg lexer = (so, opts.noLocation) ∧ lexer.token = sofToken
      ∧ ∃ ts, lexTokens so = .ok ts ∧ lexer.rest = ts := by
  unfold createLexer at h
  cases hlt : lexTokens so with
  | error e => rw [hlt] at h; simp at h
  | ok ts =>
    rw [hlt] at h
    simp only [Except.ok.injEq] at h
    subst h
    exact ⟨rfl, rfl, ts, rfl, rfl⟩

theorem parseSourceObj_ok {so : Source} {opts : ParseOptions} {doc : DocumentNode}
    (h : parseSourceObj so opts = .ok doc) :
    documentLocs (so, opts.noLocation) doc = true
      ∧ documentFragOK doc = true
      ∧ doc.definitions.all definitionOpOK = true
      ∧ doc.definitions ≠ []
      ∧ (firstLexedKind so = some .braceL →
          ∃ o tail, doc.definitions = (DefinitionNode.operationDef o) :: tail
            ∧ o.operation = ("query") ∧ o.name = none
            ∧ o.variableDefinitions = [] ∧ o.directives = []) := by
  unfold parseSourceObj at h
  cases hcl : createLexer so opts with
  | error e => rw [hcl] at h; simp at h
  | ok lexer =>
    rw [hcl] at h
    try dsimp only at h
    cases hpd : parseDocument (fuelFor lexer.rest) lexer with
    | error e => rw [hpd] at h; simp at h
    | ok p =>
      obtain ⟨doc2, lend⟩ := p
      rw [hpd] at h
      simp only [Except.ok.injEq] at h
      subst h
      obtain ⟨hcfg, htok, ts, hlt, hrest⟩ := createLexer_ok hcl
      obtain ⟨_, hdl, hdf, hdo, hne, d, tail, l3, f0, hd, hout⟩ := parseDocument_ok hpd
      rw [hcfg] at hdl
      refine ⟨hdl, hdf, hdo, hne, ?_⟩
      intro hfk
      unfold firstLexedKind at hfk
      rw [hlt] at hfk
      cases ts with
      | nil => simp at hfk
      | cons t0 ts' =>
        simp only [Option.some.injEq] at hfk
        have hadvtok : (lexer.advance).token = t0 := by
          unfold Lexer.advance
          rw [hrest]
        obtain ⟨_, _, _, _, hsh⟩ := parseDefinition_ok hd
        obtain ⟨o, ho, hq, hn, hv, hdirs⟩ := hsh (by rw [hadvtok, hfk])
        exact ⟨o, tail, by rw [hout, ho], hq, hn, hv, hdirs⟩

theorem parseValueSourceObj_ok {so : Source} {opts : ParseOptions} {v : ValueNode}
    (h : parseValue.parseValueSourceObj so opts = .ok v) :
    valueLocs (so, opts.noLocation) v = true := by
  unfold parseValue.parseValueSourceObj at h
  cases hcl : createLexer so opts with
  | error e => rw [hcl] at h; simp at h
  | ok lexer =>
    rw [hcl] at h
    try dsimp only at h
    cases he : expect lexer .sof with
    | error e => rw [he] at h; simp at h
    | ok p =>
      obtain ⟨tok, l1⟩ := p
      rw [he] at h
      try dsimp only at h
      cases hv : parseValueLiteral (fuelFor lexer.rest) l1 false with
      | error e => rw [hv] at h; simp at h
      | ok q =>
        obtain ⟨value, l2⟩ := q
        rw [hv] at h
        try dsimp only at h
        cases he2 : expect l2 .eof with
        | error e => rw [he2] at h; simp at h
        | ok r =>
          obtain ⟨tok2, l3⟩ := r
          rw [he2] at h
          simp only [Except.ok.injEq] at h
          subst h
          obtain ⟨hcfg, _, _⟩ := createLexer_ok hcl
          obtain ⟨_, hvl⟩ := (valueKnotLocs (fuelFor lexer.rest)).1 l1 false value l2 hv
          rw [expect_lcfg he, hcfg] at hvl
          exact hvl

theorem parseTypeReference_noNested :
    ∀ fuel l t l', parseTypeReference fuel l = .ok (t, l') →
      typeNoNestedNonNull t = true := by
  intro fuel
  induction fuel with
  | zero => intro l t l' h; simp [parseTypeReference] at h
  | succ fuel ih =>
    intro l t l' h
    rw [parseTypeReference] at h
    split at h
    · rename_i l1 heq
      cases hr : parseTypeReference fuel l1 with
      | error e => rw [hr] at h; simp at h
      | ok p =>
        obtain ⟨inner, l2⟩ := p
        rw [hr] at h
        try dsimp only at h
        cases he : expect l2 .bracketR with
        | error e => rw [he] at h; simp at h
        | ok q =>
          obtain ⟨tok, l3⟩ := q
          rw [he] at h
          try dsimp only at h
          have hin := ih l1 inner l2 hr
          split at h
          · simp only [Except.ok.injEq, Prod.mk.injEq] at h
            rw [← h.1]
            simp [typeNoNestedNonNull, hin]
          · simp only [Except.ok.injEq, Prod.mk.injEq] at h
            rw [← h.1]
            simp [typeNoNestedNonNull, hin]
    · rename_i l1 heq
      cases hn : parseNamedType l1 with
      | error e => rw [hn] at h; simp at h
      | ok p =>
        obtain ⟨nt, l2⟩ := p
        rw [hn] at h
        try dsimp only at h
        split at h
        · simp only [Except.ok.injEq, Prod.mk.injEq] at h
          rw [← h.1]
          simp [typeNoNestedNonNull]
        · simp only [Except.ok.injEq, Prod.mk.injEq] at h
          rw [← h.1]
          simp [typeNoNestedNonNull]

theorem parseTypeSourceObj_ok {so : Source} {opts : ParseOptions} {t : TypeNode}
    (h : parseType.parseTypeSourceObj so opts = .ok t) :
    typeLocs (so, opts.noLocation) t = true ∧ typeNoNestedNonNull t = true := by
  unfold parseType.parseTypeSourceObj at h
  cases hcl : createLexer so opts with
  | error e => rw [hcl] at h; simp at h
  | ok lexer =>
    rw [hcl] at h
    try dsimp only at h
    cases he : expect lexer .sof with
    | error e => rw [he] at h; simp at h
    | ok p =>
      obtain ⟨tok, l1⟩ := p
      rw [he] at h
      try dsimp only at h
      cases ht : parseTypeReference (fuelFor lexer.rest) l1 with
      | error e => rw [ht] at h; simp at h
      | ok q =>
        obtain ⟨tref, l2⟩ := q
        rw [ht] at h
        try dsimp only at h
        cases he2 : expect l2 .eof with
        | error e => rw [he2] at h; simp at h
        | ok r =>
          obtain ⟨tok2, l3⟩ := r
          rw [he2] at h
          simp only [Except.ok.injEq] at h
          subst h
          obtain ⟨hcfg, _, _⟩ := createLexer_ok hcl
          obtain ⟨_, htl⟩ := parseTypeReference_ok (fuelFor lexer.rest) l1 tref l2 ht
          rw [expect_lcfg he, hcfg] at htl
          refine ⟨htl, ?_⟩
          exact parseTypeReference_noNested (fuelFor lexer.rest) l1 tref l2 ht


/-! ## Claim theorems -/

/-- C1: an input whose first token is a left brace parses (when parsing
succeeds) to a document whose first definition is a shorthand
OperationDefinition with operation `query`, no name, no variable
definitions and no directives; and every OperationDefinition in any
parsed document has its operation among query, mutation and
subscription. -/
theorem claim1_operation_shorthand_and_kinds :
    (∀ (input : ParseInput) (opts : ParseOptions) (doc : DocumentNode),
        parse input opts = .ok doc →
        ∀ o, (DefinitionNode.operationDef o) ∈ doc.definitions →
          o.operation = ("query") ∨ o.operation = ("mutation") ∨ o.operation = ("subscription"))
  ∧ (∀ (s : String) (opts : ParseOptions) (doc : DocumentNode),
        parse (.str s) opts = .ok doc →
        firstLexedKind ⟨s, ("GraphQL")⟩ = some .braceL →
        ∃ o tail, doc.definitions = (DefinitionNode.operationDef o) :: tail
          ∧ o.operation = ("query") ∧ o.name = none
          ∧ o.variableDefinitions = [] ∧ o.directives = []) := by
  constructor
  · intro input opts doc h o hmem
    have hdo : doc.definitions.all definitionOpOK = true := by
      cases input with
      | str s => exact (parseSourceObj_ok h).2.2.1
      | src so => exact (parseSourceObj_ok h).2.2.1
      | other d => simp [parse] at h
    have h2 := List.all_eq_true.mp hdo _ hmem
    simp only [definitionOpOK, Bool.or_eq_true, beq_iff_eq] at h2
    tauto
  · intro s opts doc h hfk
    exact (parseSourceObj_ok h).2.2.2.2 hfk

/-- C1 witness: the shorthand input `{a}` parses, its sole definition is
an OperationDefinition with the shorthand field values. -/
theorem claim1_witness :
    parse (.str ("{a}")) ⟨true⟩ = .ok (docOf (parse (.str ("{a}")) ⟨true⟩))
      ∧ ∃ o tail,
        (docOf (parse (.str ("{a}")) ⟨true⟩)).definitions
            = (DefinitionNode.operationDef o) :: tail
          ∧ o.operation = ("query") ∧ o.name = none
          ∧ o.variableDefinitions = [] ∧ o.directives = [] :=
  ⟨rfl, (claim1_operation_shorthand_and_kinds.2 ("{a}") ⟨true⟩
    (docOf (parse (.str ("{a}")) ⟨true⟩)) rfl rfl)⟩

/-- C2: in a const context a `$` token makes `parseValueLiteral` raise a
syntax error at that token's start offset; in a non-const context the
same token begins a Variable node. Concretely, `parseValue "$x"`
succeeds, while parsing `query Q($x: Int = $y) { f }` fails at offset 18,
the `$` of `$y`, because the default value is parsed as const. -/
theorem claim2_const_context_rejects_variables :
    (∀ (fuel : Nat) (l : Lexer), l.token.kind = .dollar →
        parseValueLiteral (fuel + 1) l true =
          .error (.syntaxErr l.source l.token.start
            (("Unexpected ") ++ getTokenDesc l.token)))
  ∧ (∀ (fuel : Nat) (l : Lexer) (v : ValueNode) (l' : Lexer), l.token.kind = .dollar →
        parseValueLiteral (fuel + 1) l false = .ok (v, l') → ∃ vr, v = .var vr)
  ∧ (∃ v, parseValue (.str ("$x")) ⟨false⟩ = .ok v)
  ∧ parse (.str ("query Q($x: Int = $y) { f }")) ⟨false⟩ =
      .error (.parseErr (.syntaxErr ⟨("query Q($x: Int = $y) { f }"), ("GraphQL")⟩ 18
        ("Unexpected $"))) := by
  refine ⟨?_, ?_, ⟨valueOf (parseValue (.str ("$x")) ⟨false⟩), rfl⟩, rfl⟩
  · intro fuel l hk
    rw [parseValueLiteral]
    try dsimp only
    rw [hk]
    simp [unexpected]
  · intro fuel l v l' hk h
    rw [parseValueLiteral] at h
    try dsimp only at h
    rw [hk] at h
    simp only [Bool.not_false, if_true] at h
    cases hv : parseVariable l with
    | error e => rw [hv] at h; simp at h
    | ok p =>
      obtain ⟨vr, l1⟩ := p
      rw [hv] at h
      simp only [Except.ok.injEq, Prod.mk.injEq] at h
      exact ⟨vr, h.1.symm⟩

/-- C2 witness: the general parts applied to a concrete lexer whose
current token is a `$`. -/
theorem claim2_witness :
    (⟨⟨("$a"), ("G")⟩, false, ⟨.dollar, 0, 1, none⟩,
        [⟨.name, 1, 2, some ("a")⟩, ⟨.eof, 2, 2, none⟩], ⟨.sof, 0, 0, none⟩⟩ : Lexer).token.kind
        = .dollar
      ∧ parseValueLiteral 1
          ⟨⟨("$a"), ("G")⟩, false, ⟨.dollar, 0, 1, none⟩,
            [⟨.name, 1, 2, some ("a")⟩, ⟨.eof, 2, 2, none⟩], ⟨.sof, 0, 0, none⟩⟩ true =
          .error (.syntaxErr ⟨("$a"), ("G")⟩ 0 ("Unexpected $"))
      ∧ ∃ vr, valueOf (parseValue (.str ("$a")) ⟨true⟩) = .var vr := by
  refine ⟨rfl, ?_, ?_⟩
  · exact claim2_const_context_rejects_variables.1 0 _ rfl
  · exact claim2_const_context_rejects_variables.2.1 165
      ⟨⟨("$a"), ("G")⟩, true, ⟨.dollar, 0, 1, none⟩,
        [⟨.name, 1, 2, some ("a")⟩, ⟨.eof, 2, 2, none⟩], ⟨.sof, 0, 0, none⟩⟩
      (valueOf (parseValue (.str ("$a")) ⟨true⟩)) _ rfl rfl

/-- C3: every document returned by `parse` has at least one definition,
and `parse ""` fails with a syntax error at offset 0 because
`parseDefinition` cannot match the EOF token. -/
theorem claim3_nonempty_document_empty_input_fails :
    (∀ (input : ParseInput) (opts : ParseOptions) (doc : DocumentNode),
        parse input opts = .ok doc → doc.definitions ≠ [])
  ∧ (∀ opts : ParseOptions, parse (.str ("")) opts =
        .error (.parseErr (.syntaxErr ⟨(""), ("GraphQL")⟩ 0 ("Unexpected <EOF>")))) := by
  constructor
  · intro input opts doc h
    cases input with
    | str s => exact (parseSourceObj_ok h).2.2.2.1
    | src so => exact (parseSourceObj_ok h).2.2.2.1
    | other d => simp [parse] at h
  · intro opts
    obtain ⟨b⟩ := opts
    cases b <;> rfl

/-- C3 witness: the general parts applied to the concrete inputs `{a}`
and the empty string. -/
theorem claim3_witness :
    parse (.str ("{a}")) ⟨false⟩ = .ok (docOf (parse (.str ("{a}")) ⟨false⟩))
      ∧ (docOf (parse (.str ("{a}")) ⟨false⟩)).definitions ≠ []
      ∧ parse (.str ("")) ⟨false⟩ =
          .error (.parseErr (.syntaxErr ⟨(""), ("GraphQL")⟩ 0 ("Unexpected <EOF>"))) :=
  ⟨rfl, claim3_nonempty_document_empty_input_fails.1 (.str ("{a}")) ⟨false⟩ _ rfl,
    claim3_nonempty_document_empty_input_fails.2 ⟨false⟩⟩

/-- C4: `parseTypeReference` wraps the inner type in a ListType on `[`,
otherwise parses a NamedType, and wraps the result in a NonNullType
exactly when a single `!` follows; no NonNullType anywhere in its result
directly wraps another NonNullType, and `parseType "[Int!]!"` yields
`NonNullType(ListType(NonNullType(NamedType Int)))`. -/
theorem claim4_type_reference_structure :
    (∀ fuel l t l', parseTypeReference fuel l = .ok (t, l') →
        typeNoNestedNonNull t = true)
  ∧ (∀ fuel l t l', parseTypeReference fuel l = .ok (t, l') →
        l.token.kind = .bracketL →
        (∃ inner lc, t = .list inner lc) ∨ (∃ inner lc lc2, t = .nonNull (.list inner lc) lc2))
  ∧ (∀ fuel l t l', parseTypeReference fuel l = .ok (t, l') →
        ¬(l.token.kind = .bracketL) →
        (∃ nt, t = .named nt) ∨ (∃ nt lc, t = .nonNull (.named nt) lc))
  ∧ parseType (.str ("[Int!]!")) ⟨true⟩ =
      .ok (.nonNull (.list (.nonNull (.named ⟨⟨("Int"), none⟩, none⟩) none) none) none) := by
  refine ⟨parseTypeReference_noNested, ?_, ?_, rfl⟩
  · intro fuel l t l' h hk
    cases fuel with
    | zero => simp [parseTypeReference] at h
    | succ fuel =>
      rw [parseTypeReference] at h
      rw [show skip l .bracketL = (true, l.advance) from by simp [skip, hk]] at h
      try dsimp only at h
      cases hr : parseTypeReference fuel l.advance with
      | error e => rw [hr] at h; simp at h
      | ok p =>
        obtain ⟨inner, l2⟩ := p
        rw [hr] at h
        try dsimp only at h
        cases he : expect l2 .bracketR with
        | error e => rw [he] at h; simp at h
        | ok q =>
          obtain ⟨tok, l3⟩ := q
          rw [he] at h
          try dsimp only at h
          split at h
          · simp only [Except.ok.injEq, Prod.mk.injEq] at h
            exact Or.inr ⟨inner, loc l3 l.token, _, h.1.symm⟩
          · simp only [Except.ok.injEq, Prod.mk.injEq] at h
            exact Or.inl ⟨inner, loc l3 l.token, h.1.symm⟩
  · intro fuel l t l' h hk
    cases fuel with
    | zero => simp [parseTypeReference] at h
    | succ fuel =>
      rw [parseTypeReference] at h
      rw [show skip l .bracketL = (false, l) from by
        simp [skip]
        intro hc
        exact absurd hc hk] at h
      try dsimp only at h
      cases hn : parseNamedType l with
      | error e => rw [hn] at h; simp at h
      | ok p =>
        obtain ⟨nt, l2⟩ := p
        rw [hn] at h
        try dsimp only at h
        split at h
        · simp only [Except.ok.injEq, Prod.mk.injEq] at h
          exact Or.inr ⟨nt, _, h.1.symm⟩
        · simp only [Except.ok.injEq, Prod.mk.injEq] at h
          exact Or.inl ⟨nt, h.1.symm⟩

/-- C4 witness: the general parts applied to concrete runs on `[Int]`
and `Int!`. -/
theorem claim4_witness :
    (∃ l', parseTypeReference 64
        ⟨⟨("[Int]"), ("G")⟩, true, ⟨.bracketL, 0, 1, none⟩,
          [⟨.name, 1, 4, some ("Int")⟩, ⟨.bracketR, 4, 5, none⟩, ⟨.eof, 5, 5, none⟩],
          ⟨.sof, 0, 0, none⟩⟩ = .ok (.list (.named ⟨⟨("Int"), none⟩, none⟩) none, l'))
      ∧ typeNoNestedNonNull (.list (.named ⟨⟨("Int"), none⟩, none⟩) none) = true := by
  refine ⟨⟨⟨⟨("[Int]"), ("G")⟩, true, ⟨.eof, 5, 5, none⟩, [], ⟨.bracketR, 4, 5, none⟩⟩, rfl⟩, ?_⟩
  exact claim4_type_reference_structure.1 64
    ⟨⟨("[Int]"), ("G")⟩, true, ⟨.bracketL, 0, 1, none⟩,
      [⟨.name, 1, 4, some ("Int")⟩, ⟨.bracketR, 4, 5, none⟩, ⟨.eof, 5, 5, none⟩],
      ⟨.sof, 0, 0, none⟩⟩ _
    ⟨⟨("[Int]"), ("G")⟩, true, ⟨.eof, 5, 5, none⟩, [], ⟨.bracketR, 4, 5, none⟩⟩ rfl

/-- C5: no FragmentDefinition or FragmentSpread produced by the parser is
named `on`: `parseFragmentName` rejects a name token valued `on`, every
parsed document satisfies the fragment-name invariant, and after `...` a
token valued `on` begins an inline fragment's type condition rather than
a spread name. -/
theorem claim5_fragment_names_never_on :
    (∀ (input : ParseInput) (opts : ParseOptions) (doc : DocumentNode),
        parse input opts = .ok doc → documentFragOK doc = true)
  ∧ (∀ (l : Lexer) (n : NameNode) (l' : Lexer),
        parseFragmentName l = .ok (n, l') → ¬(n.value = ("on")))
  ∧ (∀ (fuel : Nat) (l : Lexer) (sel : SelectionNode) (l' : Lexer),
        parseFragment fuel l = .ok (sel, l') →
        (l.advance).token.value = some ("on") →
        ∃ tc dirs ss lc, sel = .inlineFragment (some tc) dirs ss lc) := by
  refine ⟨?_, ?_, ?_⟩
  · intro input opts doc h
    cases input with
    | str s => exact (parseSourceObj_ok h).2.1
    | src so => exact (parseSourceObj_ok h).2.1
    | other d => simp [parse] at h
  · intro l n l' h
    exact (parseFragmentName_ok h).2.2
  · intro fuel l sel l' h hon
    cases fuel with
    | zero => simp [parseFragment] at h
    | succ fuel =>
      rw [parseFragment] at h
      try dsimp only at h
      cases he : expect l .spread with
      | error e => rw [he] at h; simp at h
      | ok p =>
        obtain ⟨tok, l1⟩ := p
        rw [he] at h
        try dsimp only at h
        have hl1 : l1 = l.advance := (expect_ok he).2.1
        subst hl1
        rw [show (peek l.advance .name && !(l.advance.token.value == some ("on"))) = false
          from by simp [hon]] at h
        simp only [Bool.false_eq_true, if_false] at h
        rw [show (l.advance.token.value == some ("on")) = true from by simp [hon]] at h
        simp only [if_true] at h
        cases hnt : parseNamedType l.advance.advance with
        | error e => rw [hnt] at h; simp at h
        | ok q =>
          obtain ⟨nt, l2⟩ := q
          rw [hnt] at h
          try dsimp only at h
          obtain ⟨dirs, ss, lc, hshape⟩ := parseInlineRest_shape h
          exact ⟨nt, dirs, ss, lc, hshape⟩

/-- C5 witness: the general parts applied to a parsed document containing
spreads, to a concrete fragment-name lexer, and to a concrete
`... on T { x }` run. -/
theorem claim5_witness :
    documentFragOK (docOf (parse (.str ("{ ...A ... on T { x } }")) ⟨true⟩)) = true
      ∧ ¬((⟨("A"), none⟩ : NameNode).value = ("on"))
      ∧ ∃ tc dirs ss lc,
          (SelectionNode.inlineFragment (some ⟨⟨("T"), none⟩, none⟩) []
              (.mk [.field none ⟨("x"), none⟩ [] [] none none] none) none)
            = SelectionNode.inlineFragment (some tc) dirs ss lc := by
  refine ⟨?_, ?_, ?_⟩
  · exact claim5_fragment_names_never_on.1 (.str ("{ ...A ... on T { x } }")) ⟨true⟩ _ rfl
  · exact claim5_fragment_names_never_on.2.1
      ⟨⟨("A"), ("G")⟩, true, ⟨.name, 0, 1, some ("A")⟩, [⟨.eof, 1, 1, none⟩],
        ⟨.sof, 0, 0, none⟩⟩
      ⟨("A"), none⟩
      ⟨⟨("A"), ("G")⟩, true, ⟨.eof, 1, 1, none⟩, [], ⟨.name, 0, 1, some ("A")⟩⟩ rfl
  · exact claim5_fragment_names_never_on.2.2 64
      ⟨⟨("... on T{x}"), ("G")⟩, true, ⟨.spread, 0, 3, none⟩,
        [⟨.name, 4, 6, some ("on")⟩, ⟨.name, 7, 8, some ("T")⟩, ⟨.braceL, 8, 9, none⟩,
          ⟨.name, 9, 10, some ("x")⟩, ⟨.braceR, 10, 11, none⟩, ⟨.eof, 11, 11, none⟩],
        ⟨.sof, 0, 0, none⟩⟩
      (SelectionNode.inlineFragment (some ⟨⟨("T"), none⟩, none⟩) []
        (.mk [.field none ⟨("x"), none⟩ [] [] none none] none) none)
      ⟨⟨("... on T{x}"), ("G")⟩, true, ⟨.eof, 11, 11, none⟩, [], ⟨.braceR, 10, 11, none⟩⟩
      rfl rfl

/-- C6: with `noLocation` set, every node produced by `parse`,
`parseValue` and `parseType` has an absent location; otherwise every node
carries a `{start, end, startToken, endToken, source}` bundle bound so
that `start`/`end` are the offsets of its start and end tokens (the
node's first token and the last consumed token) and `source` is the run's
source; and a location serializes to `{start, end}` only. -/
theorem claim6_location_policy :
    (∀ (s : String) (noLoc : Bool) (doc : DocumentNode),
        parse (.str s) ⟨noLoc⟩ = .ok doc →
        documentLocs (⟨s, ("GraphQL")⟩, noLoc) doc = true)
  ∧ (∀ (s : String) (noLoc : Bool) (v : ValueNode),
        parseValue (.str s) ⟨noLoc⟩ = .ok v →
        valueLocs (⟨s, ("GraphQL")⟩, noLoc) v = true)
  ∧ (∀ (s : String) (noLoc : Bool) (t : TypeNode),
        parseType (.str s) ⟨noLoc⟩ = .ok t →
        typeLocs (⟨s, ("GraphQL")⟩, noLoc) t = true)
  ∧ (∀ lc : Loc, Loc.toJSON lc = (lc.start, lc.endPos)) := by
  refine ⟨?_, ?_, ?_, fun lc => rfl⟩
  · intro s noLoc doc h
    exact (parseSourceObj_ok h).1
  · intro s noLoc v h
    exact parseValueSourceObj_ok h
  · intro s noLoc t h
    exact (parseTypeSourceObj_ok h).1
/-- C6 witness: the location predicates hold of the concrete parses of
`{a}`, `[42]` and `[Int!]!` with and without locations. -/
theorem claim6_witness :
    documentLocs (⟨("{a}"), ("GraphQL")⟩, true) (docOf (parse (.str ("{a}")) ⟨true⟩)) = true
      ∧ documentLocs (⟨("{a}"), ("GraphQL")⟩, false) (docOf (parse (.str ("{a}")) ⟨false⟩)) = true
      ∧ valueLocs (⟨("[42]"), ("GraphQL")⟩, false) (valueOf (parseValue (.str ("[42]")) ⟨false⟩)) = true
      ∧ Loc.toJSON ⟨0, 3, ⟨.braceL, 0, 1, none⟩, ⟨.braceR, 2, 3, none⟩, ⟨("{a}"), ("GraphQL")⟩⟩
          = (0, 3) :=
  ⟨claim6_location_policy.1 ("{a}") true _ rfl,
    claim6_location_policy.1 ("{a}") false _ rfl,
    claim6_location_policy.2.1 ("[42]") false _ rfl,
    claim6_location_policy.2.2.2 _⟩

/-- C7: `parseObjectTypeExtension` only returns an ObjectTypeExtension
node when at least one of interfaces, directives or fields is present;
with none of the three present it raises a syntax error, as on the input
`extend type T`, while `extend type T @d` parses. -/
theorem claim7_object_type_extension_nonempty :
    (∀ (fuel : Nat) (l : Lexer) (e : ObjectTypeExtensionNode) (l' : Lexer),
        parseObjectTypeExtension fuel l = .ok (e, l') →
        e.interfaces ≠ [] ∨ e.directives ≠ [] ∨ e.fields ≠ [])
  ∧ parse (.str ("extend type T")) ⟨false⟩ =
      .error (.parseErr (.syntaxErr ⟨("extend type T"), ("GraphQL")⟩ 13 ("Unexpected <EOF>")))
  ∧ (∃ doc, parse (.str ("extend type T @d")) ⟨true⟩ = .ok doc) := by
  refine ⟨?_, rfl, ⟨docOf (parse (.str ("extend type T @d")) ⟨true⟩), rfl⟩⟩
  intro fuel l e l' h
  exact (parseObjectTypeExtension_ok h).2.2

/-- C7 witness: the general part applied to the concrete successful run
on `extend type T @d`. -/
theorem claim7_witness :
    ∃ e l', parseObjectTypeExtension 64
        ⟨⟨("extend type T @d"), ("G")⟩, true, ⟨.name, 0, 6, some ("extend")⟩,
          [⟨.name, 7, 11, some ("type")⟩, ⟨.name, 12, 13, some ("T")⟩,
            ⟨.atSign, 14, 15, none⟩, ⟨.name, 15, 16, some ("d")⟩, ⟨.eof, 16, 16, none⟩],
          ⟨.sof, 0, 0, none⟩⟩ = .ok (e, l')
      ∧ (e.interfaces ≠ [] ∨ e.directives ≠ [] ∨ e.fields ≠ []) := by
  refine ⟨⟨⟨("T"), none⟩, [], [⟨⟨("d"), none⟩, [], none⟩], [], none⟩,
    ⟨⟨("extend type T @d"), ("G")⟩, true, ⟨.eof, 16, 16, none⟩, [],
      ⟨.name, 15, 16, some ("d")⟩⟩, rfl, ?_⟩
  exact claim7_object_type_extension_nonempty.1 64
    ⟨⟨("extend type T @d"), ("G")⟩, true, ⟨.name, 0, 6, some ("extend")⟩,
      [⟨.name, 7, 11, some ("type")⟩, ⟨.name, 12, 13, some ("T")⟩,
        ⟨.atSign, 14, 15, none⟩, ⟨.name, 15, 16, some ("d")⟩, ⟨.eof, 16, 16, none⟩],
      ⟨.sof, 0, 0, none⟩⟩
    ⟨⟨("T"), none⟩, [], [⟨⟨("d"), none⟩, [], none⟩], [], none⟩
    ⟨⟨("extend type T @d"), ("G")⟩, true, ⟨.eof, 16, 16, none⟩, [],
      ⟨.name, 15, 16, some ("d")⟩⟩ rfl

/-- C8: the standalone value entry point and the in-document value
production build the same subtree for the same literal text: stripped of
locations, `parseValue "[42]"` equals the value of the single argument of
the single field of `parse "{x(a: [42])}"`, namely
`ListValue [IntValue "42"]`. -/
theorem claim8_value_entry_point_agreement :
    ((parse (.str ("{x(a: [42])}")) ⟨false⟩).toOption.bind firstArgumentValue).map valueStripLoc
        = ((parseValue (.str ("[42]")) ⟨false⟩).toOption).map valueStripLoc
      ∧ ((parseValue (.str ("[42]")) ⟨false⟩).toOption).map valueStripLoc
        = some (.listValue [.intValue ("42") none] none) :=
  ⟨rfl, rfl⟩

/-- Errors escaping `parseValue`'s source-object body are grammar syntax
errors, never the usage TypeError. -/
theorem parseValueSourceObj_err {so : Source} {opts : ParseOptions} {e : TopErr}
    (h : parseValue.parseValueSourceObj so opts = .error e) :
    e.isUsageTypeError = false := by
  unfold parseValue.parseValueSourceObj at h
  cases hcl : createLexer so opts with
  | error e0 =>
    rw [hcl] at h
    simp only [Except.error.injEq] at h
    rw [← h]
    rfl
  | ok lexer =>
    rw [hcl] at h
    try dsimp only at h
    cases he : expect lexer .sof with
    | error e0 =>
      rw [he] at h
      simp only [Except.error.injEq] at h
      rw [← h]
      rfl
    | ok p =>
      obtain ⟨tok, l1⟩ := p
      rw [he] at h
      try dsimp only at h
      cases hv : parseValueLiteral (fuelFor lexer.rest) l1 false with
      | error e0 =>
        rw [hv] at h
        simp only [Except.error.injEq] at h
        rw [← h]
        rfl
      | ok q =>
        obtain ⟨value, l2⟩ := q
        rw [hv] at h
        try dsimp only at h
        cases he2 : expect l2 .eof with
        | error e0 =>
          rw [he2] at h
          simp only [Except.error.injEq] at h
          rw [← h]
          rfl
        | ok r =>
          obtain ⟨tok2, l3⟩ := r
          rw [he2] at h
          simp at h

/-- Errors escaping `parseType`'s source-object body are grammar syntax
errors, never the usage TypeError. -/
theorem parseTypeSourceObj_err {so : Source} {opts : ParseOptions} {e : TopErr}
    (h : parseType.parseTypeSourceObj so opts = .error e) :
    e.isUsageTypeError = false := by
  unfold parseType.parseTypeSourceObj at h
  cases hcl : createLexer so opts with
  | error e0 =>
    rw [hcl] at h
    simp only [Except.error.injEq] at h
    rw [← h]
    rfl
  | ok lexer =>
    rw [hcl] at h
    try dsimp only at h
    cases he : expect lexer .sof with
    | error e0 =>
      rw [he] at h
      simp only [Except.error.injEq] at h
      rw [← h]
      rfl
    | ok p =>
      obtain ⟨tok, l1⟩ := p
      rw [he] at h
      try dsimp only at h
      cases ht : parseTypeReference (fuelFor lexer.rest) l1 with
      | error e0 =>
        rw [ht] at h
        simp only [Except.error.injEq] at h
        rw [← h]
        rfl
      | ok q =>
        obtain ⟨tref, l2⟩ := q
        rw [ht] at h
        try dsimp only at h
        cases he2 : expect l2 .eof with
        | error e0 =>
          rw [he2] at h
          simp only [Except.error.injEq] at h
          rw [← h]
          rfl
        | ok r =>
          obtain ⟨tok2, l3⟩ := r
          rw [he2] at h
          simp at h

/-- C9: only `parse` checks its input: any non-string non-Source value
given to `parse` is rejected with the `Must provide Source` TypeError,
while `parseValue` and `parseType` perform no instance check and never
raise that usage error themselves, whatever the input. -/
theorem claim9_only_parse_checks_input :
    (∀ (desc : String) (opts : ParseOptions),
        parse (.other desc) opts =
          .error (.usageTypeError (("Must provide Source. Received: ") ++ desc)))
  ∧ (∀ (input : ParseInput) (opts : ParseOptions) (e : TopErr),
        parseValue input opts = .error e → e.isUsageTypeError = false)
  ∧ (∀ (input : ParseInput) (opts : ParseOptions) (e : TopErr),
        parseType input opts = .error e → e.isUsageTypeError = false) := by
  refine ⟨fun desc opts => rfl, ?_, ?_⟩
  · intro input opts e h
    cases input with
    | str s => exact parseValueSourceObj_err h
    | src so => exact parseValueSourceObj_err h
    | other d =>
      simp only [parseValue, Except.error.injEq] at h
      rw [← h]
      rfl
  · intro input opts e h
    cases input with
    | str s => exact parseTypeSourceObj_err h
    | src so => exact parseTypeSourceObj_err h
    | other d =>
      simp only [parseType, Except.error.injEq] at h
      rw [← h]
      rfl

/-- C9 witness: the TypeError on a concrete non-Source input to `parse`,
and concrete failing `parseValue` / `parseType` runs whose errors are not
the usage TypeError. -/
theorem claim9_witness :
    parse (.other ("42")) ⟨false⟩ =
        .error (.usageTypeError ("Must provide Source. Received: 42"))
      ∧ parseValue (.str ("")) ⟨false⟩ =
          .error (.parseErr (.syntaxErr ⟨(""), ("GraphQL")⟩ 0 ("Unexpected <EOF>")))
      ∧ TopErr.isUsageTypeError
          (.parseErr (.syntaxErr ⟨(""), ("GraphQL")⟩ 0 ("Unexpected <EOF>"))) = false
      ∧ TopErr.isUsageTypeError
          (.hostErr ("Lexer cannot read a non-Source value: 42")) = false
      ∧ parseValue (.other ("42")) ⟨false⟩ =
          .error (.hostErr ("Lexer cannot read a non-Source value: 42")) := by
  refine ⟨claim9_only_parse_checks_input.1 ("42") ⟨false⟩, rfl, ?_, ?_, rfl⟩
  · exact claim9_only_parse_checks_input.2.1 (.str ("")) ⟨false⟩ _ rfl
  · exact claim9_only_parse_checks_input.2.1 (.other ("42")) ⟨false⟩ _ rfl

/-- C10: every parser-producible value node's kind is among the kinds
handled by `valueFromASTUntyped`'s switch, so the `Unexpected value kind`
branch is unreachable for them; and a Variable node evaluates to
`undefined` when the variables map is missing or has no (valid) binding
for its name, rather than raising an error. -/
theorem claim10_valueFromASTUntyped_handles_all_kinds :
    (∀ v : ValueNode, valueFromASTUntypedCaseKinds.contains v.kindOf = true)
  ∧ (∀ (vn : VariableNode) (vars : List (String × JSValue)),
        vars.find? (fun p => p.1 == vn.name.value) = none →
        valueFromASTUntyped (.var vn) (some vars) = .undefined)
  ∧ (∀ vn : VariableNode, valueFromASTUntyped (.var vn) none = .undefined) := by
  refine ⟨?_, ?_, fun vn => rfl⟩
  · intro v
    cases v <;> rfl
  · intro vn vars hfind
    rw [valueFromASTUntyped]
    try dsimp only
    unfold objGet
    rw [hfind]
    rfl

/-- C10 witness: a variable bound in the map is looked up, an unbound one
yields `undefined`, and the kinds check holds on a concrete list value. -/
theorem claim10_witness :
    valueFromASTUntyped (.var ⟨⟨("b"), none⟩, none⟩) (some [(("a"), .int 1)]) = .undefined
      ∧ valueFromASTUntyped (.var ⟨⟨("b"), none⟩, none⟩) none = .undefined
      ∧ valueFromASTUntypedCaseKinds.contains
          (ValueNode.listValue [.intValue ("42") none] none).kindOf = true := by
  refine ⟨?_, claim10_valueFromASTUntyped_handles_all_kinds.2.2 ⟨⟨("b"), none⟩, none⟩,
    claim10_valueFromASTUntyped_handles_all_kinds.1 (.listValue [.intValue ("42") none] none)⟩
  exact claim10_valueFromASTUntyped_handles_all_kinds.2.1 ⟨⟨("b"), none⟩, none⟩
    [(("a"), .int 1)] rfl
